import Mathlib

/-!
# Sliding-window rate limiter: package `slidingwindow`

A shallow embedding of `slidingwindow.go`, `window.go` and `synchronizer.go`.

Conventions of the embedding.

* Go `int64` and `time.Duration` values are integers; every arithmetic operation of the
  source is followed by `wrap64` (two's-complement wrap-around), so overflow behaves as in Go.
* A `time.Time` is the integer number of nanoseconds since the Unix epoch, read on the wall
  clock (no monotonic reading, and no bound on the year).  `Time.Sub` saturates and
  `Time.UnixNano` wraps, as the library does; `Time.Truncate` rounds down relative to Go's
  zero time (January 1 of year 1), not relative to the Unix epoch.
* `float64` values are finite binary floating-point numbers `± mant * 2 ^ exp`; conversion from
  `int64`, division and multiplication round to the nearest 53-bit significand, ties to even.
  All magnitudes that can occur in `AllowN` lie between `2 ^ (-63)` and `2 ^ 127`, far inside
  the exponent range of binary64, so neither overflow nor subnormal numbers arise.
* Mutable receivers become explicit state passing: a method returns the updated receiver.
* The mutex of `Limiter` is not modelled: every operation is one atomic step.
* A run-time panic (integer division by zero when `size = 0`) is the result `none`.
-/

namespace slidingwindow

/-! ## Machine integers -/

/-- The least `int64`. -/
def minInt64 : Int := -9223372036854775808

/-- The greatest `int64`. -/
def maxInt64 : Int := 9223372036854775807

/-- The value fits Go's `int64`. -/
def isInt64 (x : Int) : Prop := -9223372036854775808 ≤ x ∧ x ≤ 9223372036854775807

instance (x : Int) : Decidable (isInt64 x) := by
  unfold isInt64; exact inferInstance

/-- Two's-complement wrap-around: the `int64` that Go computes for the exact result `x`. -/
def wrap64 (x : Int) : Int :=
  (x + 9223372036854775808) % 18446744073709551616 - 9223372036854775808

/-- Saturation to the `int64` range, as `time.Time.Sub` does for a `Duration`. -/
def sat64 (x : Int) : Int :=
  if x < -9223372036854775808 then -9223372036854775808
  else if 9223372036854775807 < x then 9223372036854775807
  else x

/-! ## `time.Time` -/

/-- An instant: nanoseconds since January 1, 1970 UTC. -/
@[ext]
structure Time where
  unixNs : Int
deriving DecidableEq

/-- Nanoseconds from Go's zero time (January 1, year 1) to the Unix epoch. -/
def unixToInternal : Int := 62135596800 * 1000000000

/-- The zero value of `time.Time`. -/
def Time.zero : Time := ⟨-unixToInternal⟩

/-- Go's `time.Unix(sec, nsec)`. -/
def Time.Unix (sec nsec : Int) : Time := ⟨sec * 1000000000 + nsec⟩

/-- Go's `t.UnixNano()`: the nanoseconds since the Unix epoch as an `int64`.  For an instant
outside the `int64` range the library documents no result; its `int64` arithmetic wraps
around, which is what is modelled. -/
def Time.UnixNano (t : Time) : Int := wrap64 t.unixNs

/-- Go's `t.Add(d)`. -/
def Time.Add (t : Time) (d : Int) : Time := ⟨t.unixNs + d⟩

/-- Go's `t.Sub(u)`: the duration `t - u`, saturated to the `int64` range. -/
def Time.Sub (t u : Time) : Int := sat64 (t.unixNs - u.unixNs)

/-- Go's `t.Truncate(d)`: round `t` down to a multiple of `d` since the zero time; for
`d <= 0` the time is returned unchanged. -/
def Time.Truncate (t : Time) (d : Int) : Time :=
  if d ≤ 0 then t else ⟨t.unixNs - (t.unixNs + unixToInternal) % d⟩

/-! ## `float64` -/

/-- A finite binary floating-point value `± mant * 2 ^ exp`. -/
structure float64 where
  neg : Bool
  mant : Nat
  exp : Int
deriving DecidableEq

/-- Auxiliary loop of `ilog2`. -/
def log2Aux : Nat → Nat → Nat
  | 0, _ => 0
  | fuel + 1, n => if n < 2 then 0 else log2Aux fuel (n / 2) + 1

/-- The position of the highest set bit of `n` (and `0` for `n = 0`). -/
def ilog2 (n : Nat) : Nat := log2Aux n n

/-- Round the positive rational `n / d` to a 53-bit significand, ties to even: the result
`(m, e)` stands for `m * 2 ^ e`, with `2 ^ 52 ≤ m ≤ 2 ^ 53` (and `(0, 0)` for `n = 0`). -/
def roundNearestEven (n d : Nat) : Nat × Int :=
  if n = 0 then (0, 0)
  else
    let e0 : Int := (ilog2 n : Int) - (ilog2 d : Int) - 53
    let num := n * 2 ^ (-e0).toNat
    let den := d * 2 ^ e0.toNat
    let e := if num < den * 2 ^ 53 then e0 else e0 + 1
    let den1 := if num < den * 2 ^ 53 then den else 2 * den
    let m := num / den1
    let r := num % den1
    if 2 * r < den1 ∨ (2 * r = den1 ∧ m % 2 = 0) then (m, e) else (m + 1, e)

/-- The rational number that a `float64` stands for. -/
def float64.toRat (f : float64) : ℚ :=
  (if f.neg then -1 else 1) * (f.mant : ℚ) * (2 : ℚ) ^ f.exp

/-- Go's conversion `float64(x)` of an `int64`. -/
def float64.ofInt64 (x : Int) : float64 :=
  let me := roundNearestEven x.natAbs 1
  ⟨decide (x < 0), me.1, me.2⟩

/-- Go's `a / b` on `float64`, for a finite non-zero divisor. -/
def float64.div (a b : float64) : float64 :=
  let me := roundNearestEven a.mant b.mant
  ⟨xor a.neg b.neg, me.1, me.2 + a.exp - b.exp⟩

/-- Go's `a * b` on `float64`. -/
def float64.mul (a b : float64) : float64 :=
  let me := roundNearestEven (a.mant * b.mant) 1
  ⟨xor a.neg b.neg, me.1, me.2 + a.exp + b.exp⟩

/-- The integer part of the magnitude of a `float64`. -/
def float64.truncAbs (f : float64) : Nat :=
  f.mant * 2 ^ f.exp.toNat / 2 ^ (-f.exp).toNat

/-- Go's conversion `int64(f)`: truncation toward zero.  For a value outside the `int64`
range Go leaves the result to the implementation; the value produced on amd64
(the least `int64`) is used. -/
def float64.toInt64 (f : float64) : Int :=
  let t : Int := if f.neg then -(f.truncAbs : Int) else (f.truncAbs : Int)
  if -9223372036854775808 ≤ t ∧ t ≤ 9223372036854775807 then t else -9223372036854775808

/-! ## window.go -/

/-- The struct `LocalWindow`. -/
@[ext]
structure LocalWindow where
  start : Int
  count : Int
deriving DecidableEq

/-- The constructor `NewLocalWindow`: the zero-valued window. -/
def NewLocalWindow : LocalWindow := ⟨0, 0⟩

/-- Method `LocalWindow.Start`. -/
def LocalWindow.Start (w : LocalWindow) : Time := Time.Unix 0 w.start

/-- Method `LocalWindow.Count`. -/
def LocalWindow.Count (w : LocalWindow) : Int := w.count

/-- Method `LocalWindow.AddCount`. -/
def LocalWindow.AddCount (w : LocalWindow) (n : Int) : LocalWindow :=
  ⟨w.start, wrap64 (w.count + n)⟩

/-- Method `LocalWindow.Reset`. -/
def LocalWindow.Reset (_w : LocalWindow) (s : Time) (c : Int) : LocalWindow :=
  ⟨s.UnixNano, c⟩

/-- Method `LocalWindow.Sync`: does nothing. -/
def LocalWindow.Sync (w : LocalWindow) (_now : Time) : LocalWindow := w

/-- The struct `SyncRequest`. -/
structure SyncRequest where
  Key : String
  Start : Int
  Count : Int
  Changes : Int
deriving DecidableEq

/-- The struct `SyncResponse`. -/
structure SyncResponse where
  OK : Bool
  Start : Int
  Changes : Int
  OtherChanges : Int
deriving DecidableEq

/-- The zero value `SyncResponse{}`. -/
def SyncResponse.zero : SyncResponse := ⟨false, 0, 0, 0⟩

/-- The interface `Synchronizer`, over the state `S` of an implementation.  The two callbacks
of `Sync` close over the window in the source; here the window `w` is passed along and the
updated window is returned. -/
class Synchronizer (S : Type) where
  Start : S → S
  Stop : S → S
  Sync : {W : Type} → S → Time → (W → SyncRequest) → (SyncResponse → W → W) → W → S × W

/-- The struct `SyncWindow`: a `LocalWindow` with the unsynchronized changes. -/
structure SyncWindow (S : Type) extends LocalWindow where
  changes : Int
  key : String
  syncer : S

/-- The constructor `NewSyncWindow`. -/
def NewSyncWindow {S : Type} [Synchronizer S] (key : String) (syncer : S) : SyncWindow S :=
  ⟨⟨0, 0⟩, 0, key, Synchronizer.Start syncer⟩

/-- Method `SyncWindow.AddCount`. -/
def SyncWindow.AddCount {S : Type} (w : SyncWindow S) (n : Int) : SyncWindow S :=
  ⟨w.toLocalWindow.AddCount n, wrap64 (w.changes + n), w.key, w.syncer⟩

/-- Method `SyncWindow.Reset`. -/
def SyncWindow.Reset {S : Type} (w : SyncWindow S) (s : Time) (c : Int) : SyncWindow S :=
  ⟨w.toLocalWindow.Reset s c, 0, w.key, w.syncer⟩

/-- Method `SyncWindow.makeSyncRequest`. -/
def SyncWindow.makeSyncRequest {S : Type} (w : SyncWindow S) : SyncRequest :=
  ⟨w.key, w.start, w.count, w.changes⟩

/-- Method `SyncWindow.handleSyncResponse`. -/
def SyncWindow.handleSyncResponse {S : Type} (resp : SyncResponse) (w : SyncWindow S) :
    SyncWindow S :=
  if resp.OK && resp.Start == w.start then
    ⟨⟨w.start, wrap64 (w.count + resp.OtherChanges)⟩, wrap64 (w.changes - resp.Changes),
      w.key, w.syncer⟩
  else w

/-- Method `SyncWindow.Sync`. -/
def SyncWindow.Sync {S : Type} [Synchronizer S] (w : SyncWindow S) (now : Time) :
    SyncWindow S :=
  let r := Synchronizer.Sync w.syncer now SyncWindow.makeSyncRequest
    SyncWindow.handleSyncResponse w
  ⟨r.2.toLocalWindow, r.2.changes, r.2.key, r.1⟩

/-- The interface `Window`, with its two implementations. -/
inductive Window (S : Type) where
  | local (w : LocalWindow)
  | sync (w : SyncWindow S)

/-- Interface method `Window.Start`. -/
def Window.Start {S : Type} : Window S → Time
  | .local w => w.Start
  | .sync w => w.toLocalWindow.Start

/-- Interface method `Window.Count`. -/
def Window.Count {S : Type} : Window S → Int
  | .local w => w.Count
  | .sync w => w.toLocalWindow.Count

/-- Interface method `Window.AddCount`. -/
def Window.AddCount {S : Type} : Window S → Int → Window S
  | .local w, n => .local (w.AddCount n)
  | .sync w, n => .sync (w.AddCount n)

/-- Interface method `Window.Reset`. -/
def Window.Reset {S : Type} : Window S → Time → Int → Window S
  | .local w, s, c => .local (w.Reset s c)
  | .sync w, s, c => .sync (w.Reset s c)

/-- Interface method `Window.Sync`. -/
def Window.Sync {S : Type} [Synchronizer S] : Window S → Time → Window S
  | .local w, now => .local (w.Sync now)
  | .sync w, now => .sync (w.Sync now)

/-! ## synchronizer.go -/

/-- A call on the interface `Datastore`. -/
inductive StoreCall where
  | Add (key : String) (start delta : Int)
  | Get (key : String) (start : Int)
deriving DecidableEq

/-- The external `Datastore` as one client sees it: `reply` gives the result of a call after
the calls of `history` (`Except.error` is a non-nil `error`), and `history` records the
calls made so far. -/
structure Datastore where
  reply : List StoreCall → StoreCall → Except String Int
  history : List StoreCall

/-- Interface method `Datastore.Add`. -/
def Datastore.Add (d : Datastore) (key : String) (start delta : Int) :
    Except String Int × Datastore :=
  (d.reply d.history (.Add key start delta), ⟨d.reply, d.history ++ [.Add key start delta]⟩)

/-- Interface method `Datastore.Get`. -/
def Datastore.Get (d : Datastore) (key : String) (start : Int) :
    Except String Int × Datastore :=
  (d.reply d.history (.Get key start), ⟨d.reply, d.history ++ [.Get key start]⟩)

/-- The struct `syncHelper`. -/
structure syncHelper where
  store : Datastore
  syncInterval : Int
  inProgress : Bool
  lastSynced : Time

/-- The constructor `newSyncHelper`. -/
def newSyncHelper (store : Datastore) (syncInterval : Int) : syncHelper :=
  ⟨store, syncInterval, false, Time.zero⟩

/-- Method `syncHelper.IsTimeUp`. -/
def syncHelper.IsTimeUp (h : syncHelper) (now : Time) : Bool :=
  !h.inProgress && decide (now.Sub h.lastSynced ≥ h.syncInterval)

/-- Method `syncHelper.InProgress`. -/
def syncHelper.InProgress (h : syncHelper) : Bool := h.inProgress

/-- Method `syncHelper.Begin`. -/
def syncHelper.Begin (h : syncHelper) (now : Time) : syncHelper :=
  ⟨h.store, h.syncInterval, true, now⟩

/-- Method `syncHelper.End`. -/
def syncHelper.End (h : syncHelper) : syncHelper :=
  ⟨h.store, h.syncInterval, false, h.lastSynced⟩

/-- Method `syncHelper.Sync`: the response, the error (`none` is `nil`) and the helper with
the store after the call. -/
def syncHelper.Sync (h : syncHelper) (req : SyncRequest) :
    SyncResponse × Option String × syncHelper :=
  let r := if req.Changes > 0 then h.store.Add req.Key req.Start req.Changes
    else h.store.Get req.Key req.Start
  let h1 : syncHelper := ⟨r.2, h.syncInterval, h.inProgress, h.lastSynced⟩
  match r.1 with
  | .error err => (SyncResponse.zero, some err, h1)
  | .ok newCount => (⟨true, req.Start, req.Changes, wrap64 (newCount - req.Count)⟩, none, h1)

/-- The struct `BlockingSynchronizer`. -/
structure BlockingSynchronizer where
  helper : syncHelper

/-- The constructor `NewBlockingSynchronizer`. -/
def NewBlockingSynchronizer (store : Datastore) (syncInterval : Int) : BlockingSynchronizer :=
  ⟨newSyncHelper store syncInterval⟩

/-- Method `BlockingSynchronizer.Start`: does nothing. -/
def BlockingSynchronizer.Start (s : BlockingSynchronizer) : BlockingSynchronizer := s

/-- Method `BlockingSynchronizer.Stop`: does nothing. -/
def BlockingSynchronizer.Stop (s : BlockingSynchronizer) : BlockingSynchronizer := s

/-- Method `BlockingSynchronizer.Sync`.  The error of the store is only logged. -/
def BlockingSynchronizer.Sync {W : Type} (s : BlockingSynchronizer) (now : Time)
    (makeReq : W → SyncRequest) (handleResp : SyncResponse → W → W) (w : W) :
    BlockingSynchronizer × W :=
  if s.helper.IsTimeUp now then
    let h1 := s.helper.Begin now
    let r := h1.Sync (makeReq w)
    let w1 := handleResp r.1 w
    (⟨r.2.2.End⟩, w1)
  else (s, w)

instance : Synchronizer BlockingSynchronizer where
  Start := BlockingSynchronizer.Start
  Stop := BlockingSynchronizer.Stop
  Sync := BlockingSynchronizer.Sync

/-! ## slidingwindow.go -/

/-- The struct `Limiter` (without its mutex). -/
structure Limiter (S : Type) where
  size : Int
  limit : Int
  curr : Window S
  prev : Window S

/-- The constructor `NewLimiter`; `newWindow` is the window made by the `NewWindow` argument. -/
def NewLimiter {S : Type} (size limit : Int) (newWindow : Window S) : Limiter S :=
  ⟨size, limit, newWindow, .local NewLocalWindow⟩

/-- Method `Limiter.Size`. -/
def Limiter.Size {S : Type} (lim : Limiter S) : Int := lim.size

/-- Method `Limiter.Limit`. -/
def Limiter.Limit {S : Type} (lim : Limiter S) : Int := lim.limit

/-- Method `Limiter.SetLimit`. -/
def Limiter.SetLimit {S : Type} (lim : Limiter S) (newLimit : Int) : Limiter S :=
  ⟨lim.size, newLimit, lim.curr, lim.prev⟩

/-- The quotient `newCurrStart.Sub(lim.curr.Start()) / lim.size` of `Limiter.advance`:
Go's integer division truncates toward zero. -/
def Limiter.diffSize {S : Type} (lim : Limiter S) (now : Time) : Int :=
  wrap64 (Int.tdiv ((now.Truncate lim.size).Sub lim.curr.Start) lim.size)

/-- Method `Limiter.advance`; `none` is the panic of the division by `size = 0`. -/
def Limiter.advance {S : Type} (lim : Limiter S) (now : Time) : Option (Limiter S) :=
  let newCurrStart := now.Truncate lim.size
  if lim.size = 0 then none
  else
    let diffSize := lim.diffSize now
    if diffSize ≥ 1 then
      let newPrevCount := if diffSize = 1 then lim.curr.Count else 0
      some ⟨lim.size, lim.limit, lim.curr.Reset newCurrStart 0,
        lim.prev.Reset (newCurrStart.Add (wrap64 (-lim.size))) newPrevCount⟩
    else some lim

/-- The interpolation weight of `Limiter.AllowN`, computed on the state after `advance`. -/
def Limiter.weight {S : Type} (lim : Limiter S) (now : Time) : float64 :=
  let elapsed := now.Sub lim.curr.Start
  float64.div (float64.ofInt64 (wrap64 (lim.size - elapsed))) (float64.ofInt64 lim.size)

/-- The part `int64(weight * float64(lim.prev.Count()))` of the estimate of
`Limiter.AllowN`. -/
def Limiter.prevPart {S : Type} (lim : Limiter S) (now : Time) : Int :=
  (float64.mul (lim.weight now) (float64.ofInt64 lim.prev.Count)).toInt64

/-- The estimate `count` of `Limiter.AllowN`, computed on the state after `advance`. -/
def Limiter.estimate {S : Type} (lim : Limiter S) (now : Time) : Int :=
  wrap64 (lim.prevPart now + lim.curr.Count)

/-- Method `Limiter.AllowN`: the decision and the limiter after the call (the deferred
`lim.curr.Sync(now)` included); `none` is a panic. -/
def Limiter.AllowN {S : Type} [Synchronizer S] (lim : Limiter S) (now : Time) (n : Int) :
    Option (Bool × Limiter S) :=
  match lim.advance now with
  | none => none
  | some lim1 =>
    let count := lim1.estimate now
    if wrap64 (count + n) > lim1.limit then
      some (false, ⟨lim1.size, lim1.limit, lim1.curr.Sync now, lim1.prev⟩)
    else
      some (true, ⟨lim1.size, lim1.limit, (lim1.curr.AddCount n).Sync now, lim1.prev⟩)

/-- Method `Limiter.Allow`; the reading `time.Now()` of the clock is the argument `clock`. -/
def Limiter.Allow {S : Type} [Synchronizer S] (lim : Limiter S) (clock : Time) :
    Option (Bool × Limiter S) :=
  lim.AllowN clock 1

/-- A sequence of `AllowN` calls, one per `(now, n)` of the list, in order: the decisions
and the limiter after the last call. -/
def Limiter.run {S : Type} [Synchronizer S] (lim : Limiter S) :
    List (Time × Int) → Option (List Bool × Limiter S)
  | [] => some ([], lim)
  | c :: rest =>
    match lim.AllowN c.1 c.2 with
    | none => none
    | some r =>
      match Limiter.run r.2 rest with
      | none => none
      | some rs => some (r.1 :: rs.1, rs.2)

/-- The limiter `ll` with a LocalWindow mirrors the limiter `ls` with a SyncWindow over a
BlockingSynchronizer whose store fails on every call: the same size, limit and previous
window, and the same start and count in the current window. -/
def Limiter.mirrors (ls ll : Limiter BlockingSynchronizer) : Prop :=
  ls.size = ll.size ∧ ls.limit = ll.limit ∧ ls.prev = ll.prev ∧
    ∃ w : SyncWindow BlockingSynchronizer, ls.curr = .sync w ∧
      ll.curr = .local w.toLocalWindow ∧
      ∀ hist call, ∃ e, w.syncer.helper.store.reply hist call = Except.error e

/-! ## Sequences of calls, and the properties that are proved of them -/

/-- The estimate in the words of the specification, for comparison with `Limiter.estimate`:
`floor(weight * previous.Count()) + current.Count()` with the real-valued weight
`(size - elapsed) / size` and `elapsed = now - current.Start()`, on the state after the
rotation. -/
def Limiter.specEstimate {S : Type} (lim : Limiter S) (now : Time) : Int :=
  ⌊((lim.size - (now.unixNs - lim.curr.Start.unixNs) : Int) : ℚ) / (lim.size : ℚ) *
      (lim.prev.Count : ℚ)⌋ + lim.curr.Count

/-- A call on a limiter: `AllowN(now, n)` or `SetLimit(newLimit)`. -/
inductive Call where
  | AllowN (now : Time) (n : Int)
  | SetLimit (newLimit : Int)

/-- A sequence of `AllowN` and `SetLimit` calls, in order: the limiter after the last call,
together with the quotient `diffSize` of the last call that rotated the windows (`last` as
long as no call of the sequence has rotated them).  `none` is a panic. -/
def Limiter.exec {S : Type} [Synchronizer S] :
    Limiter S → Option Int → List Call → Option (Option Int × Limiter S)
  | lim, last, [] => some (last, lim)
  | lim, last, .AllowN now n :: rest =>
    match lim.AllowN now n with
    | none => none
    | some r =>
      Limiter.exec r.2 (if lim.diffSize now ≥ 1 then some (lim.diffSize now) else last) rest
  | lim, last, .SetLimit newLimit :: rest => Limiter.exec (lim.SetLimit newLimit) last rest

/-- The exact truncation toward zero of a `float64`, which `float64.toInt64` returns when it
is an `int64`. -/
def float64.trunc (f : float64) : Int :=
  if f.neg then -(f.truncAbs : Int) else (f.truncAbs : Int)

/-- No `int64` operation of `AllowN(now, n)` overflows: the window starts stored by a
rotation fit `UnixNano`, the two durations computed by `Sub` are exact, and
`size - elapsed`, the conversion `int64(...)` of the product, the sum `count` and the sum
`count + n` are the exact results. -/
def Limiter.noOverflow {S : Type} (lim : Limiter S) (now : Time) (n : Int) : Bool :=
  (decide (lim.diffSize now < 1) ||
    (decide (isInt64 (now.Truncate lim.size).unixNs) &&
      decide (isInt64 ((now.Truncate lim.size).unixNs - lim.size)))) &&
  decide (isInt64 ((now.Truncate lim.size).unixNs - lim.curr.Start.unixNs)) &&
  match lim.advance now with
  | none => true
  | some lim1 =>
    decide (isInt64 (now.unixNs - lim1.curr.Start.unixNs)) &&
    decide (isInt64 (lim1.size - (now.unixNs - lim1.curr.Start.unixNs))) &&
    decide (isInt64
      (float64.mul (lim1.weight now) (float64.ofInt64 lim1.prev.Count)).trunc) &&
    decide (isInt64 (lim1.prevPart now + lim1.curr.Count)) &&
    decide (isInt64 (lim1.estimate now + n))

/-- No `int64` operation overflows in a sequence of `AllowN` calls. -/
def Limiter.runNoOverflow {S : Type} [Synchronizer S] :
    Limiter S → List (Time × Int) → Bool
  | _, [] => true
  | lim, c :: rest =>
    lim.noOverflow c.1 c.2 &&
      match lim.AllowN c.1 c.2 with
      | none => true
      | some r => Limiter.runNoOverflow r.2 rest

/-- The sum of the `n` of the calls of a sequence that were accepted since the current
window got its start, that is, since the last call that rotated the windows; `acc` is that
sum before the sequence. -/
def Limiter.acceptedInWindow {S : Type} [Synchronizer S] :
    Limiter S → Int → List (Time × Int) → Option Int
  | _, acc, [] => some acc
  | lim, acc, c :: rest =>
    match lim.AllowN c.1 c.2 with
    | none => none
    | some r =>
      Limiter.acceptedInWindow r.2
        ((if lim.diffSize c.1 ≥ 1 then 0 else acc) + (if r.1 then c.2 else 0)) rest

/-- The invariant of the window starts along a sequence of calls on a limiter of length
`size`, with `last` as in `Limiter.exec`: the current start is an `int64` that is not
negative; before the first rotation it is the Unix epoch; after a rotation with quotient `d`
the previous window ends where the current one starts, the previous count is `0` when
`d > 1`, and the current start is on the grid of `Truncate(size)`. -/
def Limiter.startsInv {S : Type} (size : Int) (last : Option Int) (lim : Limiter S) : Prop :=
  lim.size = size ∧ 0 ≤ lim.curr.Start.unixNs ∧
  lim.curr.Start.unixNs ≤ 9223372036854775807 ∧
  (last = none → lim.curr.Start = Time.Unix 0 0) ∧
  ∀ d, last = some d → 1 ≤ d ∧ lim.prev.Start.Add size = lim.curr.Start ∧
    (1 < d → lim.prev.Count = 0) ∧ lim.curr.Start.Truncate size = lim.curr.Start

/-- The invariant of the counts of a LocalWindow limiter of length `size` with the fixed
limit `limit`: both windows are LocalWindows with counts between `0` and the limit, and
either the current start is the Unix epoch and the previous count `0` (no rotation yet), or
the current start is on the grid of `Truncate(size)`. -/
def Limiter.countsInv {S : Type} (size limit : Int) (lim : Limiter S) : Prop :=
  lim.size = size ∧ lim.limit = limit ∧
  ∃ s c ps pc : Int, lim.curr = .local ⟨s, c⟩ ∧ lim.prev = .local ⟨ps, pc⟩ ∧
    0 ≤ pc ∧ pc ≤ limit ∧ 0 ≤ c ∧ c ≤ limit ∧
    ((s = 0 ∧ pc = 0) ∨ (s + unixToInternal) % size = 0)

/-- A synchronizer acts on the window only through the two callbacks that `Sync` receives,
as every Go implementation of the interface does: whatever every call of the response
handler preserves is preserved by `Sync`. -/
def Synchronizer.viaCallbacks (S : Type) [Synchronizer S] : Prop :=
  ∀ (W : Type) (P : W → Prop) (s : S) (now : Time) (makeReq : W → SyncRequest)
    (handleResp : SyncResponse → W → W) (w : W),
    (∀ resp w1, P w1 → P (handleResp resp w1)) → P w →
      P (Synchronizer.Sync s now makeReq handleResp w).2

/-! ## Machine integers -/

theorem wrap64_of_isInt64 {x : Int} (h : isInt64 x) : wrap64 x = x := by
  unfold isInt64 at h
  unfold wrap64
  omega

theorem isInt64_wrap64 (x : Int) : isInt64 (wrap64 x) := by
  unfold isInt64 wrap64
  omega

theorem wrap64_add_wrap64 (a b : Int) : wrap64 (a + wrap64 b) = wrap64 (a + b) := by
  unfold wrap64
  omega

theorem isInt64_sat64 (x : Int) : isInt64 (sat64 x) := by
  unfold isInt64 sat64
  split_ifs <;> omega

theorem sat64_of_isInt64 {x : Int} (h : isInt64 x) : sat64 x = x := by
  unfold isInt64 at h
  unfold sat64
  split_ifs <;> omega

theorem tdiv_of_nonneg {a d : Int} (ha : 0 ≤ a) (hd : 0 < d) : Int.tdiv a d = a / d :=
  Int.tdiv_eq_ediv ha hd.le

theorem tdiv_of_neg {a d : Int} (ha : a < 0) (hd : 0 < d) : Int.tdiv a d = -((-a) / d) := by
  have h := Int.neg_tdiv (-a) d
  rw [neg_neg] at h
  rw [h, Int.tdiv_eq_ediv (by omega) hd.le]

theorem tdiv_nonpos_of_lt {a d : Int} (hd : 0 < d) (h : a < d) : Int.tdiv a d ≤ 0 := by
  by_cases ha : 0 ≤ a
  · rw [tdiv_of_nonneg ha hd, Int.ediv_eq_zero_of_lt ha h]
  · rw [tdiv_of_neg (by omega) hd]
    have : 0 ≤ (-a) / d := Int.ediv_nonneg (by omega) hd.le
    omega

theorem one_le_tdiv_of_le {a d : Int} (hd : 0 < d) (h : d ≤ a) : 1 ≤ Int.tdiv a d := by
  rw [tdiv_of_nonneg (by omega) hd, Int.le_ediv_iff_mul_le hd]
  omega

theorem tdiv_eq_one_of_lt_two {a d : Int} (hd : 0 < d) (h : d ≤ a) (h2 : a < 2 * d) :
    Int.tdiv a d = 1 := by
  have h1 := one_le_tdiv_of_le hd h
  have h3 : Int.tdiv a d < 2 := by
    rw [tdiv_of_nonneg (by omega) hd, Int.ediv_lt_iff_lt_mul hd]
    omega
  omega

theorem two_le_tdiv_of_le {a d : Int} (hd : 0 < d) (h : 2 * d ≤ a) : 2 ≤ Int.tdiv a d := by
  rw [tdiv_of_nonneg (by omega) hd, Int.le_ediv_iff_mul_le hd]
  omega

theorem isInt64_tdiv {a d : Int} (hd : 0 < d) (ha : isInt64 a) : isInt64 (Int.tdiv a d) := by
  unfold isInt64 at *
  by_cases h0 : 0 ≤ a
  · rw [tdiv_of_nonneg h0 hd]
    have h1 : a / d ≤ a := Int.ediv_le_self d h0
    have h2 : 0 ≤ a / d := Int.ediv_nonneg h0 hd.le
    omega
  · rw [tdiv_of_neg (by omega) hd]
    have h1 : (-a) / d ≤ -a := Int.ediv_le_self d (by omega)
    have h2 : 0 ≤ (-a) / d := Int.ediv_nonneg (by omega) hd.le
    omega

/-! ## Rounding to `float64` -/

theorem roundNearestEven_zero (d : Nat) : roundNearestEven 0 d = (0, 0) := by
  simp [roundNearestEven]

theorem float64_toInt64_of_mant_zero (f : float64) (h : f.mant = 0) : f.toInt64 = 0 := by
  simp [float64.toInt64, float64.truncAbs, h]

theorem float64_mul_ofInt64_zero (a : float64) : (float64.mul a (float64.ofInt64 0)).toInt64 = 0 := by
  apply float64_toInt64_of_mant_zero
  simp [float64.mul, float64.ofInt64, roundNearestEven_zero]

theorem log2Aux_spec : ∀ (fuel n : Nat), n ≤ fuel → n ≠ 0 →
    2 ^ log2Aux fuel n ≤ n ∧ n < 2 ^ (log2Aux fuel n + 1) := by
  intro fuel
  induction fuel with
  | zero => intro n h h0; omega
  | succ f ih =>
    intro n h h0
    unfold log2Aux
    by_cases h2 : n < 2
    · simp only [h2, if_true]
      omega
    · simp only [h2, if_false]
      have := ih (n / 2) (by omega) (by omega)
      rw [Nat.pow_succ, Nat.pow_succ]
      rw [Nat.pow_succ] at this
      omega

theorem ilog2_spec {n : Nat} (h : n ≠ 0) : 2 ^ ilog2 n ≤ n ∧ n < 2 ^ (ilog2 n + 1) :=
  log2Aux_spec n n le_rfl h

theorem ilog2_unique {n L : Nat} (h1 : 2 ^ L ≤ n) (h2 : n < 2 ^ (L + 1)) : ilog2 n = L := by
  have hn : n ≠ 0 := by
    have : 0 < 2 ^ L := Nat.pow_pos (by decide)
    omega
  obtain ⟨h3, h4⟩ := ilog2_spec hn
  have a : ilog2 n < L + 1 := (Nat.pow_lt_pow_iff_right (by decide : 1 < 2)).mp (lt_of_le_of_lt h3 h2)
  have b : L < ilog2 n + 1 := (Nat.pow_lt_pow_iff_right (by decide : 1 < 2)).mp (lt_of_le_of_lt h1 h4)
  omega

theorem ilog2_one : ilog2 1 = 0 := by decide

/-- The quotient of a number by itself rounds to `1 = 2^52 * 2^(-52)`. -/
theorem roundNearestEven_self {n : Nat} (h : n ≠ 0) :
    roundNearestEven n n = (4503599627370496, -52) := by
  unfold roundNearestEven
  simp only [h, if_false, sub_self, zero_sub]
  have e1 : (-(-53 : Int)).toNat = 53 := by decide
  have e2 : (-53 : Int).toNat = 0 := by decide
  simp only [e1, e2, pow_zero, mul_one, lt_irrefl, if_false]
  have hpos : 0 < n := Nat.pos_of_ne_zero h
  have hx : n * 2 ^ 53 = (2 * n) * 4503599627370496 := by ring
  have hq : n * 2 ^ 53 / (2 * n) = 4503599627370496 := by
    rw [hx, Nat.mul_div_cancel_left _ (by omega)]
  have hr : n * 2 ^ 53 % (2 * n) = 0 := by
    rw [hx, Nat.mul_mod_right]
  rw [hq, hr]
  simp [hpos]

/-- Rounding is exact on a positive integer below `2^53`. -/
theorem roundNearestEven_small {n L : Nat} (hL : ilog2 n = L) (h0 : n ≠ 0) (h52 : L ≤ 52) :
    roundNearestEven n 1 = (n * 2 ^ (52 - L), (L : Int) - 52) := by
  obtain ⟨h1, h2⟩ := ilog2_spec h0
  rw [hL] at h1 h2
  unfold roundNearestEven
  simp only [h0, if_false, hL, ilog2_one]
  have e1 : (-((L : Int) - ((0 : Nat) : Int) - 53)).toNat = 53 - L := by omega
  have e2 : ((L : Int) - ((0 : Nat) : Int) - 53).toNat = 0 := by omega
  have e3 : (L : Int) - ((0 : Nat) : Int) - 53 + 1 = (L : Int) - 52 := by omega
  simp only [e1, e2, e3, pow_zero, mul_one, one_mul]
  have hp : 2 ^ (53 - L) = 2 * 2 ^ (52 - L) := by
    rw [← Nat.pow_succ']; congr 1; omega
  have hge : ¬ n * 2 ^ (53 - L) < 2 ^ 53 := by
    have : 2 ^ L * 2 ^ (53 - L) = 2 ^ 53 := by
      rw [← Nat.pow_add]; congr 1; omega
    have : 2 ^ L * 2 ^ (53 - L) ≤ n * 2 ^ (53 - L) := Nat.mul_le_mul_right _ h1
    omega
  simp only [hge, if_false]
  have hx : n * 2 ^ (53 - L) = 2 * (n * 2 ^ (52 - L)) := by rw [hp]; ring
  have hq : n * 2 ^ (53 - L) / 2 = n * 2 ^ (52 - L) := by
    rw [hx, Nat.mul_div_cancel_left _ (by decide)]
  have hr : n * 2 ^ (53 - L) % 2 = 0 := by
    rw [hx, Nat.mul_mod_right]
  rw [hq, hr]
  simp

/-- Rounding is exact on a 53-bit significand scaled by a power of two. -/
theorem roundNearestEven_scaled {m j : Nat} (h1 : 4503599627370496 ≤ m)
    (h2 : m < 9007199254740992) : roundNearestEven (m * 2 ^ j) 1 = (m, (j : Int)) := by
  have hL : ilog2 (m * 2 ^ j) = 52 + j := by
    apply ilog2_unique
    · rw [Nat.pow_add]
      exact Nat.mul_le_mul_right _ h1
    · have : 2 ^ (52 + j + 1) = 9007199254740992 * 2 ^ j := by
        rw [show 52 + j + 1 = 53 + j by omega, Nat.pow_add]
      rw [this]
      exact Nat.mul_lt_mul_of_pos_right h2 (Nat.pow_pos (by decide))
  have hpos : 0 < 2 ^ j := Nat.pow_pos (by decide)
  have h0 : m * 2 ^ j ≠ 0 := by
    have : 0 < m * 2 ^ j := Nat.mul_pos (by omega) hpos
    omega
  cases j with
  | zero =>
    have := roundNearestEven_small hL h0 (by omega)
    simpa using this
  | succ i =>
    unfold roundNearestEven
    simp only [h0, if_false, hL, ilog2_one]
    have e1 : (-(((52 + (i + 1) : Nat) : Int) - ((0 : Nat) : Int) - 53)).toNat = 0 := by omega
    have e2 : (((52 + (i + 1) : Nat) : Int) - ((0 : Nat) : Int) - 53).toNat = i := by omega
    have e3 : ((52 + (i + 1) : Nat) : Int) - ((0 : Nat) : Int) - 53 + 1 = ((i + 1 : Nat) : Int) := by
      omega
    simp only [e1, e2, e3, pow_zero, mul_one, one_mul]
    have hge : ¬ m * 2 ^ (i + 1) < 2 ^ i * 2 ^ 53 := by
      have : 2 ^ i * 2 ^ 53 = 4503599627370496 * 2 ^ (i + 1) := by
        rw [Nat.pow_succ]; ring
      rw [this]
      have := Nat.mul_le_mul_right (2 ^ (i + 1)) h1
      omega
    simp only [hge, if_false]
    have hd : 2 * 2 ^ i = 2 ^ (i + 1) := by rw [Nat.pow_succ]; ring
    rw [hd, Nat.mul_div_cancel _ hpos, Nat.mul_mod_left]
    simp [hpos]

/-- The significand of a rounded non-zero integer has its 53rd bit set. -/
theorem roundNearestEven_mant_ge {n : Nat} (h0 : n ≠ 0) :
    4503599627370496 ≤ (roundNearestEven n 1).1 := by
  obtain ⟨h1, h2⟩ := ilog2_spec h0
  by_cases h52 : ilog2 n ≤ 52
  · rw [roundNearestEven_small rfl h0 h52]
    have : 2 ^ ilog2 n * 2 ^ (52 - ilog2 n) = 4503599627370496 := by
      rw [← Nat.pow_add, show ilog2 n + (52 - ilog2 n) = 52 by omega]
    have := Nat.mul_le_mul_right (2 ^ (52 - ilog2 n)) h1
    simp only []
    omega
  · obtain ⟨i, hi⟩ : ∃ i, ilog2 n = 53 + i := ⟨ilog2 n - 53, by omega⟩
    rw [hi] at h1 h2
    unfold roundNearestEven
    simp only [h0, if_false, hi, ilog2_one]
    have e1 : (-(((53 + i : Nat) : Int) - ((0 : Nat) : Int) - 53)).toNat = 0 := by omega
    have e2 : (((53 + i : Nat) : Int) - ((0 : Nat) : Int) - 53).toNat = i := by omega
    simp only [e1, e2, pow_zero, mul_one, one_mul]
    have hge : ¬ n < 2 ^ i * 2 ^ 53 := by
      rw [← Nat.pow_add, show i + 53 = 53 + i by omega]; omega
    simp only [hge, if_false]
    have hq : 4503599627370496 ≤ n / (2 * 2 ^ i) := by
      rw [Nat.le_div_iff_mul_le (by positivity)]
      have : 4503599627370496 * (2 * 2 ^ i) = 2 ^ (53 + i) := by
        rw [Nat.pow_add]; ring
      omega
    split_ifs <;> simp only [] <;> omega

theorem float64_ofInt64_mant_ne_zero {x : Int} (h : x ≠ 0) : (float64.ofInt64 x).mant ≠ 0 := by
  have := @roundNearestEven_mant_ge x.natAbs (by omega)
  simp only [float64.ofInt64]
  omega

/-- The quotient of a non-zero `float64` by itself is `1`. -/
theorem float64_div_self (a : float64) (h : a.mant ≠ 0) :
    float64.div a a = ⟨false, 4503599627370496, -52⟩ := by
  simp [float64.div, roundNearestEven_self h]

theorem float64_toRat_one : (⟨false, 4503599627370496, -52⟩ : float64).toRat = 1 := by
  simp [float64.toRat]
  norm_num

/-- Multiplying `float64(k)` by `1` and converting back gives `k`, for `0 ≤ k ≤ 2^53`. -/
theorem float64_one_mul_toInt64 {k : Int} (h0 : 0 ≤ k) (h1 : k ≤ 9007199254740992) :
    (float64.mul ⟨false, 4503599627370496, -52⟩ (float64.ofInt64 k)).toInt64 = k := by
  obtain ⟨n, rfl⟩ := Int.eq_ofNat_of_zero_le h0
  by_cases hn : n = 0
  · subst hn
    exact float64_mul_ofInt64_zero _
  have hle : n ≤ 9007199254740992 := by omega
  obtain ⟨hs1, hs2⟩ := ilog2_spec hn
  by_cases htop : n = 9007199254740992
  · subst htop
    set_option maxRecDepth 100000 in decide
  have hL : ilog2 n ≤ 52 := by
    by_contra hc
    have : 2 ^ 53 ≤ 2 ^ ilog2 n := Nat.pow_le_pow_right (by decide) (by omega)
    omega
  have hm1 : 4503599627370496 ≤ n * 2 ^ (52 - ilog2 n) := by
    have : 2 ^ ilog2 n * 2 ^ (52 - ilog2 n) = 4503599627370496 := by
      rw [← Nat.pow_add, show ilog2 n + (52 - ilog2 n) = 52 by omega]
    have := Nat.mul_le_mul_right (2 ^ (52 - ilog2 n)) hs1
    omega
  have hm2 : n * 2 ^ (52 - ilog2 n) < 9007199254740992 := by
    have : 2 ^ (ilog2 n + 1) * 2 ^ (52 - ilog2 n) = 9007199254740992 := by
      rw [← Nat.pow_add, show ilog2 n + 1 + (52 - ilog2 n) = 53 by omega]
    have := Nat.mul_lt_mul_of_pos_right hs2 (Nat.pow_pos (by decide : 0 < 2) : 0 < 2 ^ (52 - ilog2 n))
    omega
  have hof : float64.ofInt64 (n : Int) = ⟨false, n * 2 ^ (52 - ilog2 n), (ilog2 n : Int) - 52⟩ := by
    simp [float64.ofInt64, roundNearestEven_small rfl hn hL]
  rw [hof]
  have hmul : float64.mul ⟨false, 4503599627370496, -52⟩
      ⟨false, n * 2 ^ (52 - ilog2 n), (ilog2 n : Int) - 52⟩ =
      ⟨false, n * 2 ^ (52 - ilog2 n), (ilog2 n : Int) - 52⟩ := by
    have hr := @roundNearestEven_scaled (n * 2 ^ (52 - ilog2 n)) 52 hm1 hm2
    have hc : 4503599627370496 * (n * 2 ^ (52 - ilog2 n)) = n * 2 ^ (52 - ilog2 n) * 2 ^ 52 := by
      ring
    simp only [float64.mul, hc, hr, Bool.xor_false]
    congr 1
    push_cast
    ring
  rw [hmul]
  have e1 : ((ilog2 n : Int) - 52).toNat = 0 := by omega
  have e2 : (-((ilog2 n : Int) - 52)).toNat = 52 - ilog2 n := by omega
  have ht : (⟨false, n * 2 ^ (52 - ilog2 n), (ilog2 n : Int) - 52⟩ : float64).truncAbs = n := by
    simp only [float64.truncAbs, e1, e2, pow_zero, mul_one]
    exact Nat.mul_div_cancel _ (Nat.pow_pos (by decide))
  simp only [float64.toInt64, ht]
  simp
  omega

/-! ## Windows and times -/

@[simp] theorem Window.Count_Reset {S : Type} (w : Window S) (s : Time) (c : Int) :
    (w.Reset s c).Count = c := by
  cases w <;> rfl

@[simp] theorem Window.Start_Reset {S : Type} (w : Window S) (s : Time) (c : Int) :
    (w.Reset s c).Start = ⟨wrap64 s.unixNs⟩ := by
  cases w <;> simp [Window.Reset, Window.Start, LocalWindow.Reset, SyncWindow.Reset, LocalWindow.Start, Time.Unix, Time.UnixNano]

@[simp] theorem Window.Start_local {S : Type} (w : LocalWindow) :
    (Window.local w : Window S).Start = ⟨w.start⟩ := by
  simp [Window.Start, LocalWindow.Start, Time.Unix]

@[simp] theorem Window.Count_local {S : Type} (w : LocalWindow) :
    (Window.local w : Window S).Count = w.count := rfl

@[simp] theorem Window.Sync_local {S : Type} [Synchronizer S] (w : LocalWindow) (now : Time) :
    (Window.local w : Window S).Sync now = .local w := rfl

@[simp] theorem Window.AddCount_local {S : Type} (w : LocalWindow) (n : Int) :
    (Window.local w : Window S).AddCount n = .local ⟨w.start, wrap64 (w.count + n)⟩ := rfl

@[simp] theorem Window.Start_sync {S : Type} (w : SyncWindow S) :
    (Window.sync w : Window S).Start = ⟨w.start⟩ := by
  simp [Window.Start, LocalWindow.Start, Time.Unix]

@[simp] theorem Window.Count_sync {S : Type} (w : SyncWindow S) :
    (Window.sync w : Window S).Count = w.count := rfl

/-- What `Reset` stores in a window of either kind: the count as given, and the start as the
`UnixNano` of the given instant, which is that instant whenever it fits `int64` nanoseconds. -/
theorem Window.Reset_spec {S : Type} (w : Window S) (t : Time) (c : Int) :
    (w.Reset t c).Count = c ∧ (w.Reset t c).Start = Time.Unix 0 t.UnixNano ∧
      (isInt64 t.unixNs → (w.Reset t c).Start = t) := by
  refine ⟨Window.Count_Reset w t c, ?_, ?_⟩
  · rw [Window.Start_Reset]
    simp [Time.Unix, Time.UnixNano]
  · intro h
    rw [Window.Start_Reset, wrap64_of_isInt64 h]

theorem Truncate_eq_self_iff (t : Time) (d : Int) (hd : 0 < d) :
    t.Truncate d = t ↔ (t.unixNs + unixToInternal) % d = 0 := by
  unfold Time.Truncate
  have : ¬ d ≤ 0 := by omega
  simp only [this, if_false]
  constructor
  · intro h
    have := congrArg Time.unixNs h
    simp only [] at this
    omega
  · intro h
    rw [h]; simp

theorem Truncate_Add_size (t : Time) (d : Int) (hd : 0 < d) (h : t.Truncate d = t) :
    (t.Add d).Truncate d = t.Add d := by
  rw [Truncate_eq_self_iff _ _ hd] at h ⊢
  simp only [Time.Add]
  rw [show t.unixNs + d + unixToInternal = t.unixNs + unixToInternal + d by ring,
    Int.add_emod_self]
  exact h

/-! ## The rotation step -/

theorem diffSize_congr {S T : Type} (a : Limiter S) (b : Limiter T) (now : Time)
    (h1 : a.size = b.size) (h2 : a.curr.Start = b.curr.Start) :
    a.diffSize now = b.diffSize now := by
  unfold Limiter.diffSize
  rw [h1, h2]

theorem weight_congr {S T : Type} (a : Limiter S) (b : Limiter T) (now : Time)
    (h1 : a.size = b.size) (h2 : a.curr.Start = b.curr.Start) :
    a.weight now = b.weight now := by
  unfold Limiter.weight
  rw [h1, h2]

theorem prevPart_congr {S T : Type} (a : Limiter S) (b : Limiter T) (now : Time)
    (h1 : a.size = b.size) (h2 : a.curr.Start = b.curr.Start) (h3 : a.prev.Count = b.prev.Count) :
    a.prevPart now = b.prevPart now := by
  unfold Limiter.prevPart
  rw [weight_congr a b now h1 h2, h3]

theorem prevPart_of_prev_count_zero {S : Type} (lim : Limiter S) (now : Time)
    (h : lim.prev.Count = 0) : lim.prevPart now = 0 := by
  unfold Limiter.prevPart
  rw [h]
  exact float64_mul_ofInt64_zero _

theorem estimate_of_prev_count_zero {S : Type} (lim : Limiter S) (now : Time)
    (h : lim.prev.Count = 0) : lim.estimate now = wrap64 lim.curr.Count := by
  unfold Limiter.estimate
  rw [prevPart_of_prev_count_zero lim now h, zero_add]

/-- The two outcomes of `Limiter.advance` for a non-zero size. -/
theorem advance_cases {S : Type} (lim : Limiter S) (now : Time) (hsize : lim.size ≠ 0) :
    (lim.diffSize now < 1 ∧ lim.advance now = some lim) ∨
    (1 ≤ lim.diffSize now ∧ lim.advance now = some ⟨lim.size, lim.limit,
        lim.curr.Reset (now.Truncate lim.size) 0,
        lim.prev.Reset ((now.Truncate lim.size).Add (wrap64 (-lim.size)))
          (if lim.diffSize now = 1 then lim.curr.Count else 0)⟩) := by
  unfold Limiter.advance
  by_cases h : 1 ≤ lim.diffSize now
  · right; simp [hsize, h]
  · left; simp [hsize, h]; omega

theorem advance_of_diffSize_lt {S : Type} (lim : Limiter S) (now : Time) (hs : lim.size ≠ 0)
    (hd : lim.diffSize now < 1) : lim.advance now = some lim := by
  unfold Limiter.advance
  have : ¬ (lim.diffSize now ≥ 1) := by omega
  simp [hs, this]

theorem advance_of_one_le_diffSize {S : Type} (lim : Limiter S) (now : Time) (hs : lim.size ≠ 0)
    (hd : 1 ≤ lim.diffSize now) :
    lim.advance now = some ⟨lim.size, lim.limit, lim.curr.Reset (now.Truncate lim.size) 0,
        lim.prev.Reset ((now.Truncate lim.size).Add (wrap64 (-lim.size)))
          (if lim.diffSize now = 1 then lim.curr.Count else 0)⟩ := by
  unfold Limiter.advance
  simp [hs, hd]

theorem diffSize_eq {S : Type} (lim : Limiter S) (now : Time) (hs : 0 < lim.size) :
    lim.diffSize now =
      Int.tdiv (sat64 ((now.Truncate lim.size).unixNs - lim.curr.Start.unixNs)) lim.size := by
  unfold Limiter.diffSize Time.Sub
  exact wrap64_of_isInt64 (isInt64_tdiv hs (isInt64_sat64 _))

theorem diffSize_lt_one_iff {S : Type} (lim : Limiter S) (now : Time) (hs : 0 < lim.size) :
    lim.diffSize now < 1 ↔
      sat64 ((now.Truncate lim.size).unixNs - lim.curr.Start.unixNs) < lim.size := by
  rw [diffSize_eq lim now hs]
  constructor
  · intro h
    by_contra hc
    have := one_le_tdiv_of_le hs (not_lt.mp hc)
    omega
  · intro h
    have := tdiv_nonpos_of_lt hs h
    omega

/-- A rotation step repeated at the same instant changes nothing, when the window start of
`now` fits the `int64` nanoseconds of `UnixNano`. -/
theorem advance_idempotent {S : Type} (lim lim1 : Limiter S) (s c : Int) (now : Time)
    (hsize : 0 < lim.size) (hcurr : lim.curr = .local ⟨s, c⟩) (hs : isInt64 s)
    (hrep : (now.Truncate lim.size).unixNs ≤ 9223372036854775807)
    (hadv : lim.advance now = some lim1) : lim1.advance now = some lim1 := by
  by_cases hd : lim.diffSize now < 1
  · rw [advance_of_diffSize_lt lim now hsize.ne' hd] at hadv
    cases hadv
    exact advance_of_diffSize_lt lim now hsize.ne' hd
  · have hd1 : 1 ≤ lim.diffSize now := by omega
    have hge : ¬ sat64 ((now.Truncate lim.size).unixNs - lim.curr.Start.unixNs) < lim.size := by
      rw [← diffSize_lt_one_iff lim now hsize]; exact hd
    rw [hcurr] at hge
    simp only [Window.Start_local] at hge
    have hlow : -9223372036854775808 ≤ (now.Truncate lim.size).unixNs := by
      unfold isInt64 at hs
      unfold sat64 at hge
      split_ifs at hge <;> omega
    have hw : wrap64 (now.Truncate lim.size).unixNs = (now.Truncate lim.size).unixNs :=
      wrap64_of_isInt64 (by unfold isInt64; omega)
    rw [advance_of_one_le_diffSize lim now hsize.ne' hd1] at hadv
    cases hadv
    have key : ∀ l : Limiter S, 0 < l.size →
        sat64 ((now.Truncate l.size).unixNs - l.curr.Start.unixNs) < l.size →
        l.advance now = some l := fun l h1 h2 =>
      advance_of_diffSize_lt l now h1.ne' ((diffSize_lt_one_iff l now h1).mpr h2)
    refine key _ ?_ ?_
    · exact hsize
    simp only [Window.Start_Reset, hw, sub_self]
    have : sat64 0 = 0 := by decide
    rw [this]; exact hsize

/-- The first call on a limiter whose windows are empty leaves it settled in the window of
`now`: later calls for the same window start do not rotate. -/
theorem advance_settles {S : Type} (lim : Limiter S) (s : Int) (now : Time)
    (hs : 0 < lim.size) (hc : lim.curr = .local ⟨s, 0⟩) (hs64 : isInt64 s)
    (hp : lim.prev.Count = 0)
    (ht0 : (now.Truncate lim.size).unixNs ≤ 9223372036854775807) :
    ∃ (s1 : Int) (prev1 : Window S), prev1.Count = 0 ∧
      lim.advance now = some ⟨lim.size, lim.limit, .local ⟨s1, 0⟩, prev1⟩ ∧
      ((s1 = s ∧ sat64 ((now.Truncate lim.size).unixNs - s) < lim.size) ∨
        (s1 = (now.Truncate lim.size).unixNs ∧
          lim.size ≤ sat64 ((now.Truncate lim.size).unixNs - s))) ∧
      ∀ u : Time, u.Truncate lim.size = now.Truncate lim.size →
        (⟨lim.size, lim.limit, .local ⟨s1, 0⟩, prev1⟩ : Limiter S).diffSize u < 1 := by
  by_cases hd : lim.diffSize now < 1
  · refine ⟨s, lim.prev, hp, ?_, ?_, ?_⟩
    · rw [advance_of_diffSize_lt lim now hs.ne' hd, ← hc]
    · left
      have := (diffSize_lt_one_iff lim now hs).mp hd
      rw [hc] at this
      exact ⟨rfl, by simpa using this⟩
    · intro u hu
      have e := diffSize_congr
        (⟨lim.size, lim.limit, .local ⟨s, 0⟩, lim.prev⟩ : Limiter S) lim u rfl (by rw [hc])
      rw [e]
      unfold Limiter.diffSize at hd ⊢
      rw [hu]; exact hd
  · have hd1 : 1 ≤ lim.diffSize now := by omega
    have hge : ¬ sat64 ((now.Truncate lim.size).unixNs - lim.curr.Start.unixNs) < lim.size := by
      rw [← diffSize_lt_one_iff lim now hs]; exact hd
    rw [hc] at hge
    simp only [Window.Start_local] at hge
    have hlow : -9223372036854775808 ≤ (now.Truncate lim.size).unixNs := by
      unfold isInt64 at hs64
      unfold sat64 at hge
      split_ifs at hge <;> omega
    have hw : wrap64 (now.Truncate lim.size).unixNs = (now.Truncate lim.size).unixNs :=
      wrap64_of_isInt64 (by unfold isInt64; omega)
    refine ⟨(now.Truncate lim.size).unixNs,
      lim.prev.Reset ((now.Truncate lim.size).Add (wrap64 (-lim.size)))
          (if lim.diffSize now = 1 then lim.curr.Count else 0), ?_, ?_, ?_, ?_⟩
    · rw [hc]; simp
    · rw [advance_of_one_le_diffSize lim now hs.ne' hd1, hc]
      simp [Window.Reset, LocalWindow.Reset, Time.UnixNano, hw]
    · right
      exact ⟨rfl, not_lt.mp hge⟩
    · intro u hu
      refine (diffSize_lt_one_iff (⟨lim.size, lim.limit,
        .local ⟨(now.Truncate lim.size).unixNs, 0⟩, _⟩ : Limiter S) u hs).mpr ?_
      simp only [Window.Start_local, hu]
      simp [sat64]
      exact hs

/-- The state after a rotation onto the window that starts at `now`: the weight is one, the
previous window counts in full, and no further rotation happens at `now`. -/
theorem at_window_start {S : Type} (size limit k : Int) (now : Time) (P : Window S)
    (hsize : 0 < size) (hsz : size ≤ 9223372036854775807) (hP : P.Count = k)
    (hk0 : 0 ≤ k) (hk : k ≤ 9007199254740992) :
    (⟨size, limit, .local ⟨now.unixNs, 0⟩, P⟩ : Limiter S).weight now =
        ⟨false, 4503599627370496, -52⟩ ∧
      (⟨size, limit, .local ⟨now.unixNs, 0⟩, P⟩ : Limiter S).prevPart now = k ∧
      (now.Truncate size = now →
        (⟨size, limit, .local ⟨now.unixNs, 0⟩, P⟩ : Limiter S).diffSize now < 1) := by
  have hw : (⟨size, limit, .local ⟨now.unixNs, 0⟩, P⟩ : Limiter S).weight now =
      ⟨false, 4503599627370496, -52⟩ := by
    simp only [Limiter.weight, Time.Sub, Window.Start_local, sub_self]
    have : sat64 0 = 0 := by decide
    rw [this, sub_zero, wrap64_of_isInt64 (by unfold isInt64; omega)]
    exact float64_div_self _ (float64_ofInt64_mant_ne_zero (by omega))
  refine ⟨hw, ?_, ?_⟩
  · unfold Limiter.prevPart
    rw [hw, hP]
    exact float64_one_mul_toInt64 hk0 hk
  · intro htr
    refine (diffSize_lt_one_iff (⟨size, limit, .local ⟨now.unixNs, 0⟩, P⟩ : Limiter S)
      now hsize).mpr ?_
    simp only [htr, Window.Start_local, sub_self]
    have : sat64 0 = 0 := by decide
    rw [this]; exact hsize

/-- After `k` accepted unit requests in the window starting at `t0` (not before the Unix
epoch), the call at `t0 + size` rotates onto the adjacent window and carries `k` over. -/
theorem advance_to_adjacent {S : Type} (size limit k s1 : Int) (t0 : Time) (prev : Window S)
    (hsize : 0 < size) (ht0 : 0 ≤ t0.unixNs) (hend : t0.unixNs + size ≤ 9223372036854775807)
    (hgrid : t0.Truncate size = t0)
    (hcase : (k = 0 ∧ s1 = 0) ∨ (s1 = 0 ∧ sat64 t0.unixNs < size) ∨ s1 = t0.unixNs) :
    ∃ P : Window S, P.Count = k ∧
      (⟨size, limit, .local ⟨s1, k⟩, prev⟩ : Limiter S).advance (t0.Add size) =
        some ⟨size, limit, .local ⟨(t0.Add size).unixNs, 0⟩, P⟩ := by
  have htr := Truncate_Add_size t0 size hsize hgrid
  have hD := diffSize_eq (⟨size, limit, .local ⟨s1, k⟩, prev⟩ : Limiter S) (t0.Add size) hsize
  simp only [htr, Window.Start_local] at hD
  have hsat0 : sat64 t0.unixNs = t0.unixNs := sat64_of_isInt64 (by unfold isInt64; omega)
  have hDk : 1 ≤ (⟨size, limit, .local ⟨s1, k⟩, prev⟩ : Limiter S).diffSize (t0.Add size) ∧
      (if (⟨size, limit, .local ⟨s1, k⟩, prev⟩ : Limiter S).diffSize (t0.Add size) = 1
        then k else 0) = k := by
    rw [hD]
    simp only [Time.Add]
    rcases hcase with ⟨hk, hs⟩ | ⟨hs, hlt⟩ | hs
    · subst hk; subst hs
      have e : sat64 (t0.unixNs + size - 0) = t0.unixNs + size := by
        rw [sub_zero]; exact sat64_of_isInt64 (by unfold isInt64; omega)
      simp only [e]
      exact ⟨one_le_tdiv_of_le hsize (by omega), by simp⟩
    · subst hs
      rw [hsat0] at hlt
      have e : sat64 (t0.unixNs + size - 0) = t0.unixNs + size := by
        rw [sub_zero]; exact sat64_of_isInt64 (by unfold isInt64; omega)
      simp only [e, tdiv_eq_one_of_lt_two hsize (show size ≤ t0.unixNs + size by omega)
        (show t0.unixNs + size < 2 * size by omega)]
      simp
    · subst hs
      have e : sat64 (t0.unixNs + size - t0.unixNs) = size := by
        rw [show t0.unixNs + size - t0.unixNs = size by ring]
        exact sat64_of_isInt64 (by unfold isInt64; omega)
      simp only [e, tdiv_eq_one_of_lt_two hsize le_rfl (show size < 2 * size by omega)]
      simp
  refine ⟨prev.Reset (((t0.Add size).Truncate size).Add (wrap64 (-size)))
    (if (⟨size, limit, .local ⟨s1, k⟩, prev⟩ : Limiter S).diffSize (t0.Add size) = 1
      then k else 0), ?_, ?_⟩
  · rw [Window.Count_Reset]; exact hDk.2
  · rw [advance_of_one_le_diffSize _ _ hsize.ne' hDk.1]
    simp only [htr, Window.Count_local]
    have hw : wrap64 (t0.Add size).unixNs = (t0.Add size).unixNs :=
      wrap64_of_isInt64 (by unfold isInt64; simp only [Time.Add]; omega)
    simp [Window.Reset, LocalWindow.Reset, Time.UnixNano, hw]

/-! ## Calls and sequences of calls -/

theorem AllowN_of_advance {S : Type} [Synchronizer S] (lim lim1 : Limiter S) (now : Time)
    (n : Int) (h : lim.advance now = some lim1) :
    lim.AllowN now n =
      if wrap64 (lim1.estimate now + n) > lim1.limit then
        some (false, ⟨lim1.size, lim1.limit, lim1.curr.Sync now, lim1.prev⟩)
      else
        some (true, ⟨lim1.size, lim1.limit, (lim1.curr.AddCount n).Sync now, lim1.prev⟩) := by
  unfold Limiter.AllowN
  rw [h]

theorem AllowN_fst_of_advance {S : Type} [Synchronizer S] (lim lim1 : Limiter S) (now : Time)
    (n : Int) (h : lim.advance now = some lim1) :
    (lim.AllowN now n).map Prod.fst = some (decide (wrap64 (lim1.estimate now + n) ≤ lim1.limit)) := by
  rw [AllowN_of_advance lim lim1 now n h]
  by_cases hc : wrap64 (lim1.estimate now + n) > lim1.limit
  · have : ¬ wrap64 (lim1.estimate now + n) ≤ lim1.limit := by omega
    simp [hc, this]
  · have : wrap64 (lim1.estimate now + n) ≤ lim1.limit := by omega
    simp [hc, this]

/-- A call that finds the limiter already rotated for `now` behaves as on the rotated state. -/
theorem AllowN_eq_of_advance {S : Type} [Synchronizer S] (lim lim1 : Limiter S) (now : Time)
    (n : Int) (h : lim.advance now = some lim1) (h1 : lim1.advance now = some lim1) :
    lim.AllowN now n = lim1.AllowN now n := by
  rw [AllowN_of_advance lim lim1 now n h, AllowN_of_advance lim1 lim1 now n h1]

/-- One call on a LocalWindow limiter that needs no rotation. -/
theorem AllowN_local_no_rotation {S : Type} [Synchronizer S] (lim : Limiter S) (s c : Int)
    (now : Time) (n : Int) (hs : lim.size ≠ 0) (hc : lim.curr = .local ⟨s, c⟩)
    (hd : lim.diffSize now < 1) :
    lim.AllowN now n = some (decide (wrap64 (lim.estimate now + n) ≤ lim.limit),
      ⟨lim.size, lim.limit,
        .local ⟨s, if wrap64 (lim.estimate now + n) ≤ lim.limit then wrap64 (c + n) else c⟩,
        lim.prev⟩) := by
  rw [AllowN_of_advance lim lim now n (advance_of_diffSize_lt lim now hs hd)]
  by_cases h : wrap64 (lim.estimate now + n) ≤ lim.limit
  · have h' : ¬ wrap64 (lim.estimate now + n) > lim.limit := by omega
    simp [h, hc]
  · have h' : wrap64 (lim.estimate now + n) > lim.limit := by omega
    simp [h, h', hc]

/-- A rejected unit request on a LocalWindow limiter that needs no rotation. -/
theorem AllowN_unit_reject {S : Type} [Synchronizer S] (lim : Limiter S) (s c p : Int)
    (now : Time) (hs : lim.size ≠ 0) (hc : lim.curr = .local ⟨s, c⟩)
    (hd : lim.diffSize now < 1) (hp : lim.prevPart now = p) (hp0 : 0 ≤ p) (hc0 : 0 ≤ c)
    (hgt : lim.limit < p + c + 1) (hmax : p + c + 1 ≤ 9223372036854775807) :
    lim.AllowN now 1 = some (false, lim) := by
  have hest : lim.estimate now = p + c := by
    unfold Limiter.estimate
    rw [hp, hc]
    simp only [Window.Count_local]
    apply wrap64_of_isInt64
    unfold isInt64; omega
  have hw : wrap64 (lim.estimate now + 1) = p + c + 1 := by
    rw [hest]; apply wrap64_of_isInt64; unfold isInt64; omega
  have hstep := AllowN_local_no_rotation lim s c now 1 hs hc hd
  rw [hw] at hstep
  have hrej : ¬ p + c + 1 ≤ lim.limit := by omega
  simp only [hrej, decide_False, if_false] at hstep
  rw [hstep, ← hc]

theorem run_cons {S : Type} [Synchronizer S] (lim lim1 : Limiter S) (now : Time) (n : Int)
    (rest : List (Time × Int)) (b : Bool) (h : lim.AllowN now n = some (b, lim1)) :
    lim.run ((now, n) :: rest) = (lim1.run rest).map (fun rs => (b :: rs.1, rs.2)) := by
  simp only [Limiter.run, h]
  cases lim1.run rest <;> rfl

theorem run_append {S : Type} [Synchronizer S] (a b : List (Time × Int)) :
    ∀ (lim lim1 : Limiter S) (ra : List Bool), lim.run a = some (ra, lim1) →
      lim.run (a ++ b) = (lim1.run b).map (fun rs => (ra ++ rs.1, rs.2)) := by
  induction a with
  | nil =>
    intro lim lim1 ra h
    simp only [Limiter.run, Option.some.injEq, Prod.mk.injEq] at h
    obtain ⟨rfl, rfl⟩ := h
    cases h2 : lim.run b <;> simp [h2]
  | cons c rest ih =>
    intro lim lim1 ra h
    obtain ⟨now, n⟩ := c
    cases h1 : lim.AllowN now n with
    | none => simp [Limiter.run, h1] at h
    | some r =>
      obtain ⟨b1, l1⟩ := r
      rw [run_cons lim l1 now n rest b1 h1] at h
      cases h2 : l1.run rest with
      | none => simp [h2] at h
      | some rs =>
        obtain ⟨bs, l2⟩ := rs
        simp only [h2, Option.map_some', Option.some.injEq, Prod.mk.injEq] at h
        obtain ⟨rfl, rfl⟩ := h
        rw [List.cons_append, run_cons lim l1 now n (rest ++ b) b1 h1, ih l1 l2 bs h2]
        cases l2.run b <;> simp

/-- Unit requests while the estimate stays within the limit are all accepted. -/
theorem run_unit_accept {S : Type} [Synchronizer S] (ts : List Time) :
    ∀ (lim : Limiter S) (s c p : Int), lim.size ≠ 0 → lim.curr = .local ⟨s, c⟩ →
      (∀ t ∈ ts, lim.diffSize t < 1 ∧ lim.prevPart t = p) →
      0 ≤ p → 0 ≤ c → p + c + ts.length ≤ lim.limit → lim.limit ≤ 9223372036854775807 →
      lim.run (ts.map (fun t => (t, 1))) =
        some (List.replicate ts.length true,
          ⟨lim.size, lim.limit, .local ⟨s, c + ts.length⟩, lim.prev⟩) := by
  induction ts with
  | nil =>
    intro lim s c p _ hc _ _ _ _ _
    simp [Limiter.run, ← hc]
  | cons t rest ih =>
    intro lim s c p hs hc hT hp hc0 hle hmax
    have ht := hT t (List.mem_cons_self _ _)
    have hlen : ((t :: rest).length : Int) = rest.length + 1 := by simp
    rw [hlen] at hle
    have hest : lim.estimate t = p + c := by
      unfold Limiter.estimate
      rw [ht.2, hc]
      simp only [Window.Count_local]
      apply wrap64_of_isInt64
      unfold isInt64; omega
    have hw : wrap64 (lim.estimate t + 1) = p + c + 1 := by
      rw [hest]; apply wrap64_of_isInt64; unfold isInt64; omega
    have hwc : wrap64 (c + 1) = c + 1 := by
      apply wrap64_of_isInt64; unfold isInt64; omega
    have hstep := AllowN_local_no_rotation lim s c t 1 hs hc ht.1
    rw [hw] at hstep
    have hacc : p + c + 1 ≤ lim.limit := by omega
    simp only [hacc, decide_True, if_true, hwc] at hstep
    rw [List.map_cons, run_cons lim _ t 1 _ true hstep]
    have hT' : ∀ u ∈ rest,
        (⟨lim.size, lim.limit, .local ⟨s, c + 1⟩, lim.prev⟩ : Limiter S).diffSize u < 1 ∧
        (⟨lim.size, lim.limit, .local ⟨s, c + 1⟩, lim.prev⟩ : Limiter S).prevPart u = p := by
      intro u hu
      have hu' := hT u (List.mem_cons_of_mem _ hu)
      have e1 := diffSize_congr (⟨lim.size, lim.limit, .local ⟨s, c + 1⟩, lim.prev⟩ : Limiter S)
        lim u rfl (by rw [hc]; simp)
      have e2 := prevPart_congr (⟨lim.size, lim.limit, .local ⟨s, c + 1⟩, lim.prev⟩ : Limiter S)
        lim u rfl (by rw [hc]; simp) rfl
      rw [e1, e2]
      exact hu'
    rw [ih (⟨lim.size, lim.limit, .local ⟨s, c + 1⟩, lim.prev⟩ : Limiter S) s (c + 1) p hs rfl
      hT' hp (by omega) (by simp only []; omega) hmax]
    simp [List.replicate_succ]
    omega

/-- Unit requests on a fresh LocalWindow limiter, all in one window and at most `limit` of
them: every one is accepted, and the limiter ends settled in that window. -/
theorem fresh_run_accept {S : Type} [Synchronizer S] (size limit : Int) (t0 t1 : Time)
    (rest : List Time) (hsize : 0 < size) (hmax : limit ≤ 9223372036854775807)
    (ht0 : t0.unixNs ≤ 9223372036854775807)
    (hts : ∀ t ∈ t1 :: rest, t.Truncate size = t0)
    (hlen : ((t1 :: rest).length : Int) ≤ limit) :
    ∃ (s1 : Int) (prev1 : Window S), prev1.Count = 0 ∧
      ((s1 = 0 ∧ sat64 t0.unixNs < size) ∨ (s1 = t0.unixNs ∧ size ≤ sat64 t0.unixNs)) ∧
      (∀ u : Time, u.Truncate size = t0 →
        (⟨size, limit, .local ⟨s1, (t1 :: rest).length⟩, prev1⟩ : Limiter S).diffSize u < 1) ∧
      (NewLimiter size limit (.local NewLocalWindow) : Limiter S).run
          ((t1 :: rest).map (fun t => (t, 1))) =
        some (List.replicate (t1 :: rest).length true,
          ⟨size, limit, .local ⟨s1, (t1 :: rest).length⟩, prev1⟩) := by
  have h1 := hts t1 (List.mem_cons_self _ _)
  obtain ⟨s1, prev1, hp1, hadv, hs1, hset⟩ := advance_settles
    (NewLimiter size limit (.local NewLocalWindow) : Limiter S) 0 t1 hsize rfl
    (by unfold isInt64; omega) rfl (by simpa [NewLimiter, h1] using ht0)
  simp only [NewLimiter] at hadv hs1 hset
  rw [h1] at hs1 hset
  simp only [sub_zero] at hs1
  have hset' : ∀ (c : Int) (u : Time), u.Truncate size = t0 →
      (⟨size, limit, .local ⟨s1, c⟩, prev1⟩ : Limiter S).diffSize u < 1 := by
    intro c u hu
    have e := diffSize_congr (⟨size, limit, .local ⟨s1, c⟩, prev1⟩ : Limiter S)
      (⟨size, limit, .local ⟨s1, 0⟩, prev1⟩ : Limiter S) u rfl (by simp)
    rw [e]; exact hset u hu
  refine ⟨s1, prev1, hp1, hs1, hset' _, ?_⟩
  have hfirst : (NewLimiter size limit (.local NewLocalWindow) : Limiter S).AllowN t1 1 =
      (⟨size, limit, .local ⟨s1, 0⟩, prev1⟩ : Limiter S).AllowN t1 1 :=
    AllowN_eq_of_advance _ _ t1 1 hadv
      (advance_of_diffSize_lt _ t1 hsize.ne' (hset t1 h1))
  have hrun : (NewLimiter size limit (.local NewLocalWindow) : Limiter S).run
      ((t1 :: rest).map (fun t => (t, 1))) =
      (⟨size, limit, .local ⟨s1, 0⟩, prev1⟩ : Limiter S).run
        ((t1 :: rest).map (fun t => (t, 1))) := by
    simp only [List.map_cons, Limiter.run, hfirst]
  rw [hrun]
  have := run_unit_accept (t1 :: rest) (⟨size, limit, .local ⟨s1, 0⟩, prev1⟩ : Limiter S) s1 0 0
    hsize.ne' rfl
    (fun t ht => ⟨hset t (hts t ht), prevPart_of_prev_count_zero _ t hp1⟩)
    le_rfl le_rfl (by simpa using hlen) hmax
  simpa using this

/-- At most `limit` unit requests on a fresh LocalWindow limiter, all in one window: every one
is accepted and the current window counts them. -/
theorem fresh_run_state {S : Type} [Synchronizer S] (size limit : Int) (t0 : Time)
    (ts : List Time) (hsize : 0 < size) (hmax : limit ≤ 9223372036854775807)
    (ht0 : t0.unixNs ≤ 9223372036854775807) (hts : ∀ t ∈ ts, t.Truncate size = t0)
    (hlen : (ts.length : Int) ≤ limit) :
    ∃ (s1 : Int) (prev1 : Window S), prev1.Count = 0 ∧
      (((ts.length : Int) = 0 ∧ s1 = 0) ∨ (s1 = 0 ∧ sat64 t0.unixNs < size) ∨
        s1 = t0.unixNs) ∧
      (NewLimiter size limit (.local NewLocalWindow) : Limiter S).run
          (ts.map (fun t => (t, 1))) =
        some (List.replicate ts.length true,
          ⟨size, limit, .local ⟨s1, ts.length⟩, prev1⟩) := by
  cases ts with
  | nil =>
    exact ⟨0, .local NewLocalWindow, rfl, Or.inl ⟨rfl, rfl⟩, rfl⟩
  | cons t1 rest =>
    obtain ⟨s1, prev1, hp1, hs1, -, hrun⟩ := @fresh_run_accept S _ size limit t0 t1 rest hsize
      hmax ht0 hts hlen
    refine ⟨s1, prev1, hp1, Or.inr ?_, hrun⟩
    rcases hs1 with ⟨h, h'⟩ | ⟨h, -⟩
    · exact Or.inl ⟨h, h'⟩
    · exact Or.inr h

/-! ## The blocking synchronizer -/

/-- The call that `syncHelper.Sync` makes on the store for a request. -/
theorem syncHelper_Sync_eq (h : syncHelper) (req : SyncRequest) :
    h.Sync req =
      (match h.store.reply h.store.history
          (if req.Changes > 0 then .Add req.Key req.Start req.Changes
            else .Get req.Key req.Start) with
        | .ok newTotal => ⟨true, req.Start, req.Changes, wrap64 (newTotal - req.Count)⟩
        | .error _ => SyncResponse.zero,
       match h.store.reply h.store.history
          (if req.Changes > 0 then .Add req.Key req.Start req.Changes
            else .Get req.Key req.Start) with
        | .ok _ => none
        | .error err => some err,
       ⟨⟨h.store.reply, h.store.history ++
          [if req.Changes > 0 then .Add req.Key req.Start req.Changes
            else .Get req.Key req.Start]⟩, h.syncInterval, h.inProgress, h.lastSynced⟩) := by
  unfold syncHelper.Sync
  by_cases hc : req.Changes > 0
  · simp only [hc, if_true, Datastore.Add]
    cases h.store.reply h.store.history (.Add req.Key req.Start req.Changes) <;> rfl
  · simp only [hc, if_false, Datastore.Get]
    cases h.store.reply h.store.history (.Get req.Key req.Start) <;> rfl

theorem handleSyncResponse_zero {S : Type} (w : SyncWindow S) :
    SyncWindow.handleSyncResponse SyncResponse.zero w = w := by
  simp [SyncWindow.handleSyncResponse, SyncResponse.zero]

/-- With a store whose calls all fail, `Sync` of the blocking strategy leaves the counter of
the window alone, and the store keeps failing. -/
theorem SyncWindow.Sync_of_failing_store (w : SyncWindow BlockingSynchronizer) (now : Time)
    (hf : ∀ hist call, ∃ e, w.syncer.helper.store.reply hist call = Except.error e) :
    (w.Sync now).toLocalWindow = w.toLocalWindow ∧
      (w.Sync now).syncer.helper.store.reply = w.syncer.helper.store.reply := by
  by_cases hup : w.syncer.helper.IsTimeUp now = true
  · obtain ⟨e, he⟩ := hf w.syncer.helper.store.history
      (if w.changes > 0 then StoreCall.Add w.key w.start w.changes
        else StoreCall.Get w.key w.start)
    have hs : (w.syncer.helper.Begin now).Sync w.makeSyncRequest =
        (SyncResponse.zero, some e,
          ⟨⟨w.syncer.helper.store.reply, w.syncer.helper.store.history ++
            [if w.changes > 0 then StoreCall.Add w.key w.start w.changes
              else StoreCall.Get w.key w.start]⟩, w.syncer.helper.syncInterval, true, now⟩) := by
      rw [syncHelper_Sync_eq]
      simp only [syncHelper.Begin, SyncWindow.makeSyncRequest, he]
    simp only [SyncWindow.Sync, Synchronizer.Sync, BlockingSynchronizer.Sync, hup, if_true, hs,
      handleSyncResponse_zero, syncHelper.End, and_self]
  · have hup' : w.syncer.helper.IsTimeUp now = false := by
      cases h : w.syncer.helper.IsTimeUp now
      · rfl
      · exact absurd h hup
    simp [SyncWindow.Sync, Synchronizer.Sync, BlockingSynchronizer.Sync, hup']

/-- One call keeps the mirror relation, with the same decision on both sides. -/
theorem mirrors_AllowN (ls ll : Limiter BlockingSynchronizer) (now : Time) (n : Int)
    (hm : ls.mirrors ll) (hsize : ls.size ≠ 0) :
    ∃ (b : Bool) (ls1 ll1 : Limiter BlockingSynchronizer),
      ls.AllowN now n = some (b, ls1) ∧ ll.AllowN now n = some (b, ll1) ∧
      ls1.mirrors ll1 ∧ ls1.size = ls.size := by
  obtain ⟨hsz, hlim, hprev, w, hcs, hcl, hf⟩ := hm
  have hstart : ls.curr.Start = ll.curr.Start := by rw [hcs, hcl]; simp
  have hcount : ls.curr.Count = ll.curr.Count := by rw [hcs, hcl]; simp
  have hd : ls.diffSize now = ll.diffSize now := diffSize_congr ls ll now hsz hstart
  -- the rotated states mirror each other
  obtain ⟨ls0, ll0, has, hal, hm0, hs0⟩ : ∃ ls0 ll0 : Limiter BlockingSynchronizer,
      ls.advance now = some ls0 ∧ ll.advance now = some ll0 ∧ ls0.mirrors ll0 ∧
        ls0.size = ls.size := by
    by_cases h1 : ls.diffSize now < 1
    · exact ⟨ls, ll, advance_of_diffSize_lt ls now hsize h1,
        advance_of_diffSize_lt ll now (by rw [← hsz]; exact hsize) (by rw [← hd]; exact h1),
        ⟨hsz, hlim, hprev, w, hcs, hcl, hf⟩, rfl⟩
    · have h1' : 1 ≤ ls.diffSize now := by omega
      refine ⟨_, _, advance_of_one_le_diffSize ls now hsize h1',
        advance_of_one_le_diffSize ll now (by rw [← hsz]; exact hsize) (by rw [← hd]; exact h1'),
        ⟨hsz, hlim, ?_, w.Reset (now.Truncate ls.size) 0, ?_, ?_, hf⟩, rfl⟩
      · simp only [hsz, hprev, hd, hcount]
      · rw [hcs]; rfl
      · rw [hcl, ← hsz]; rfl
  obtain ⟨hsz0, hlim0, hprev0, w0, hcs0, hcl0, hf0⟩ := hm0
  have hstart0 : ls0.curr.Start = ll0.curr.Start := by rw [hcs0, hcl0]; simp
  have hcount0 : ls0.curr.Count = ll0.curr.Count := by rw [hcs0, hcl0]; simp
  have hest : ls0.estimate now = ll0.estimate now := by
    unfold Limiter.estimate
    rw [prevPart_congr ls0 ll0 now hsz0 hstart0 (by rw [hprev0]), hcount0]
  rw [AllowN_of_advance ls ls0 now n has, AllowN_of_advance ll ll0 now n hal, hest, hlim0]
  by_cases hgt : wrap64 (ll0.estimate now + n) > ll0.limit
  · simp only [hgt, if_true]
    obtain ⟨hk1, hk2⟩ := SyncWindow.Sync_of_failing_store w0 now hf0
    refine ⟨false, _, _, rfl, rfl, ⟨hsz0, rfl, hprev0, w0.Sync now, ?_, ?_, ?_⟩, hs0⟩
    · rw [hcs0]; rfl
    · rw [hcl0, hk1]; rfl
    · rw [hk2]; exact hf0
  · simp only [hgt, if_false]
    obtain ⟨hk1, hk2⟩ := SyncWindow.Sync_of_failing_store (w0.AddCount n) now hf0
    refine ⟨true, _, _, rfl, rfl, ⟨hsz0, rfl, hprev0, (w0.AddCount n).Sync now, ?_, ?_, ?_⟩, hs0⟩
    · rw [hcs0]; rfl
    · rw [hcl0, hk1]; rfl
    · rw [hk2]; exact hf0

/-- A sequence of calls keeps the mirror relation, with the same decisions on both sides. -/
theorem mirrors_run (calls : List (Time × Int)) :
    ∀ (ls ll : Limiter BlockingSynchronizer), ls.mirrors ll → ls.size ≠ 0 →
      ∃ (bs : List Bool) (ls1 ll1 : Limiter BlockingSynchronizer),
        ls.run calls = some (bs, ls1) ∧ ll.run calls = some (bs, ll1) ∧ ls1.mirrors ll1 := by
  induction calls with
  | nil => intro ls ll hm _; exact ⟨[], ls, ll, rfl, rfl, hm⟩
  | cons c rest ih =>
    intro ls ll hm hsize
    obtain ⟨now, n⟩ := c
    obtain ⟨b, ls1, ll1, h1, h2, hm1, hs1⟩ := mirrors_AllowN ls ll now n hm hsize
    obtain ⟨bs, ls2, ll2, h3, h4, hm2⟩ := ih ls1 ll1 hm1 (by rw [hs1]; exact hsize)
    refine ⟨b :: bs, ls2, ll2, ?_, ?_, hm2⟩
    · rw [run_cons ls ls1 now n rest b h1, h3]; rfl
    · rw [run_cons ll ll1 now n rest b h2, h4]; rfl

/-! ## Admission on a fresh limiter -/

/-- C1: the first `AllowN(now, n)` on a freshly created Limiter, whose current window is a
fresh LocalWindow or a fresh SyncWindow over any Synchronizer, returns false whenever
`n > limit` (for every `size > 0`, `limit ≥ 0` and time `now`). -/
theorem C1_fresh_rejects_above_limit {S : Type} [Synchronizer S] (size limit n : Int)
    (now : Time) (w : Window S)
    (hw : w = .local NewLocalWindow ∨ ∃ key syncer, w = .sync (NewSyncWindow key syncer))
    (hsize : 0 < size) (_hlimit : 0 ≤ limit) (hn : limit < n) (hn64 : isInt64 n) :
    ((NewLimiter size limit w).AllowN now n).map Prod.fst = some false := by
  have hc : w.Count = 0 := by
    rcases hw with rfl | ⟨key, syncer, rfl⟩ <;> rfl
  have hs : (NewLimiter size limit w).size ≠ 0 := by
    simp [NewLimiter]; omega
  have key : ∀ lim1 : Limiter S, (NewLimiter size limit w).advance now = some lim1 →
      lim1.estimate now = 0 ∧ lim1.limit = limit := by
    intro lim1 h
    rcases advance_cases (NewLimiter size limit w) now hs with ⟨-, h1⟩ | ⟨-, h1⟩
    · rw [h1] at h
      cases h
      refine ⟨?_, rfl⟩
      rw [estimate_of_prev_count_zero _ _ (by rfl)]
      simp [NewLimiter, hc, wrap64]
    · rw [h1] at h
      cases h
      refine ⟨?_, rfl⟩
      rw [estimate_of_prev_count_zero _ _ (by simp [NewLimiter, hc])]
      simp [wrap64]
  rcases advance_cases (NewLimiter size limit w) now hs with ⟨-, h1⟩ | ⟨-, h1⟩ <;>
  · obtain ⟨he, hl⟩ := key _ h1
    rw [AllowN_fst_of_advance _ _ now n h1, he, hl, zero_add, wrap64_of_isInt64 hn64]
    simp [hn]

/-- Witness of C1: one second, limit 10, request of 11 at the Unix epoch. -/
theorem C1_witness :
    ((NewLimiter 1000000000 10 (.local NewLocalWindow) : Limiter BlockingSynchronizer).AllowN
      ⟨0⟩ 11).map Prod.fst = some false :=
  C1_fresh_rejects_above_limit 1000000000 10 11 ⟨0⟩ (.local NewLocalWindow) (Or.inl rfl)
    (by decide) (by decide) (by decide) (by decide)

/-- C2 (amended): on a fresh LocalWindow limiter with `size > 0` and `0 ≤ limit < 2^63 - 1`,
of `limit + 1` unit requests whose times all truncate to one window start that is at most
`2^63 - 1` nanoseconds after the Unix epoch, the first `limit` are accepted and the last one
is rejected. -/
theorem C2_unit_requests_fill_window {S : Type} [Synchronizer S] (size limit : Int)
    (t0 : Time) (ts : List Time) (hsize : 0 < size) (hlimit : 0 ≤ limit)
    (hmax : limit < 9223372036854775807) (ht0 : t0.unixNs ≤ 9223372036854775807)
    (hts : ∀ t ∈ ts, t.Truncate size = t0) (hlen : (ts.length : Int) = limit + 1) :
    ((NewLimiter size limit (.local NewLocalWindow) : Limiter S).run
        (ts.map (fun t => (t, 1)))).map Prod.fst =
      some (List.replicate limit.toNat true ++ [false]) := by
  have hne : ts ≠ [] := by
    intro h; rw [h] at hlen; simp at hlen; omega
  obtain ⟨ini, tl, rfl⟩ : ∃ ini tl, ts = ini ++ [tl] :=
    ⟨ts.dropLast, ts.getLast hne, (List.dropLast_append_getLast hne).symm⟩
  have hini : (ini.length : Int) = limit := by
    simp at hlen; omega
  have htl : tl.Truncate size = t0 := hts tl (by simp)
  rw [List.map_append]
  cases ini with
  | nil =>
    have hl0 : limit = 0 := by simpa using hini.symm
    subst hl0
    obtain ⟨s1, prev1, hp1, hadv, -, hset⟩ := advance_settles
      (NewLimiter size 0 (.local NewLocalWindow) : Limiter S) 0 tl hsize rfl
      (by unfold isInt64; omega) rfl (by simpa [NewLimiter, htl] using ht0)
    simp only [NewLimiter] at hadv hset
    have hfirst := AllowN_eq_of_advance _ _ tl 1 hadv
      (advance_of_diffSize_lt _ tl hsize.ne' (hset tl rfl))
    have hrej := AllowN_unit_reject (⟨size, 0, .local ⟨s1, 0⟩, prev1⟩ : Limiter S) s1 0 0 tl
      hsize.ne' rfl (hset tl rfl) (prevPart_of_prev_count_zero _ tl hp1) le_rfl le_rfl
      (by simp) (by simp)
    simp [Limiter.run, NewLimiter, hfirst, hrej]
  | cons t1 rest =>
    obtain ⟨s1, prev1, hp1, -, hset, hrun⟩ := @fresh_run_accept S _ size limit t0 t1 rest hsize
      hmax.le ht0 (fun t ht => hts t (by simp at ht ⊢; tauto)) hini.le
    rw [run_append _ _ _ _ _ hrun]
    have hrej := AllowN_unit_reject
      (⟨size, limit, .local ⟨s1, (t1 :: rest).length⟩, prev1⟩ : Limiter S) s1
      (t1 :: rest).length 0 tl hsize.ne' rfl (hset tl htl)
      (prevPart_of_prev_count_zero _ tl hp1) le_rfl (by positivity)
      (by simp only []; omega) (by omega)
    have hn : (t1 :: rest).length = limit.toNat := by omega
    simp only [Limiter.run, List.map_cons, List.map_nil, hrej, Option.map_some']
    rw [hn]

/-- Witness of C2: one second, limit 2, three unit requests in the window of the epoch. -/
theorem C2_witness :
    ((NewLimiter 1000000000 2 (.local NewLocalWindow) : Limiter BlockingSynchronizer).run
        ([⟨5⟩, ⟨6⟩, ⟨7⟩].map (fun t => (t, 1)))).map Prod.fst =
      some (List.replicate (2 : Int).toNat true ++ [false]) :=
  C2_unit_requests_fill_window 1000000000 2 ⟨0⟩ [⟨5⟩, ⟨6⟩, ⟨7⟩] (by decide) (by decide)
    (by decide) (by decide) (by decide) (by decide)

/-- With `limit = 2^63 - 1` the request number `limit + 1` of one window is accepted: the sum
`count + n` wraps around to the least `int64`. -/
theorem unit_requests_wrap_at_maxInt64 (m : Nat) (hm : (m : Int) + 1 = 9223372036854775807) :
    ((NewLimiter 1 9223372036854775807 (.local NewLocalWindow) :
        Limiter BlockingSynchronizer).run
      (((⟨0⟩ : Time) :: List.replicate m (⟨0⟩ : Time) ++ [(⟨0⟩ : Time)]).map
        (fun t => (t, 1)))).map Prod.fst =
      some (List.replicate (m + 1) true ++ [true]) := by
  have htr : (⟨0⟩ : Time).Truncate 1 = ⟨0⟩ := by decide
  have hmem : ∀ t ∈ (⟨0⟩ : Time) :: List.replicate m (⟨0⟩ : Time), t.Truncate 1 = ⟨0⟩ := by
    intro t ht
    have : t = ⟨0⟩ := by
      rcases List.mem_cons.mp ht with h | h
      · exact h
      · exact List.eq_of_mem_replicate h
    rw [this]; exact htr
  have hlen : (((⟨0⟩ : Time) :: List.replicate m ⟨0⟩).length : Int) = 9223372036854775807 := by
    simp only [List.length_cons, List.length_replicate]; push_cast; omega
  have hlen' : ((⟨0⟩ : Time) :: List.replicate m ⟨0⟩).length = m + 1 := by simp
  obtain ⟨s1, prev1, hp1, -, hset, hrun⟩ := @fresh_run_accept BlockingSynchronizer _ 1
    9223372036854775807 ⟨0⟩ ⟨0⟩ (List.replicate m ⟨0⟩) Int.one_pos le_rfl (by decide)
    hmem hlen.le
  rw [List.map_append, run_append _ _ _ _ _ hrun]
  rw [hlen] at hset ⊢
  have hest : (⟨1, 9223372036854775807, .local ⟨s1, 9223372036854775807⟩, prev1⟩ :
      Limiter BlockingSynchronizer).estimate ⟨0⟩ = 9223372036854775807 := by
    rw [estimate_of_prev_count_zero _ _ hp1]
    simp [wrap64]
  have hstep := AllowN_local_no_rotation
    (⟨1, 9223372036854775807, .local ⟨s1, 9223372036854775807⟩, prev1⟩ :
      Limiter BlockingSynchronizer) s1 9223372036854775807 ⟨0⟩ 1 one_ne_zero rfl (hset ⟨0⟩ htr)
  rw [hest] at hstep
  have hw : wrap64 (9223372036854775807 + 1) ≤ 9223372036854775807 := by simp [wrap64]
  simp only [hw, decide_True, if_true] at hstep
  rw [List.map_cons, List.map_nil]
  rw [run_cons _ _ ⟨0⟩ 1 [] true hstep]
  rw [hlen']
  simp only [Limiter.run, Option.map_some']

/-- Counterexample to C2 as stated: `size = 1`, `limit = 2^63 - 1`, and `limit + 1 = 2^63`
unit requests at the Unix epoch, which is its own window start.  Every request is accepted,
also request number `limit + 1`: there `count + n` wraps around to the least `int64`, which
does not exceed the limit. -/
theorem C2_counterexample :
    (⟨0⟩ : Time).Truncate 1 = ⟨0⟩ ∧
    ((NewLimiter 1 9223372036854775807 (.local NewLocalWindow) :
        Limiter BlockingSynchronizer).run
      (((⟨0⟩ : Time) :: List.replicate 9223372036854775806 (⟨0⟩ : Time) ++ [(⟨0⟩ : Time)]).map
        (fun t => (t, 1)))).map Prod.fst =
      some (List.replicate 9223372036854775807 true ++ [true]) :=
  ⟨by decide, unit_requests_wrap_at_maxInt64 9223372036854775806 (by decide)⟩

/-- Beyond the range of `UnixNano` the window start is not stored faithfully: with `size = 1`
and `limit = 1`, two unit requests at the instant `2^63` nanoseconds after the Unix epoch (in
the year 2262) truncate to the same window start, and both are accepted, because the second
call rotates again. -/
theorem unit_requests_beyond_UnixNano_range :
    (∀ t ∈ [(⟨9223372036854775808⟩ : Time), ⟨9223372036854775808⟩],
        t.Truncate 1 = ⟨9223372036854775808⟩) ∧
    ((NewLimiter 1 1 (.local NewLocalWindow) : Limiter BlockingSynchronizer).run
        ([(⟨9223372036854775808⟩ : Time), ⟨9223372036854775808⟩].map (fun t => (t, 1)))).map
      Prod.fst = some [true, true] := by
  constructor
  · decide
  · set_option maxRecDepth 100000 in decide

/-- C3 (amended): on a fresh LocalWindow limiter with `size > 0` and `limit < 2^63 - 1`, let
`k ≤ limit` unit requests (`k ≤ 2^53`) be made at times that truncate to the window start
`t0`, where `t0` is not before the Unix epoch and `t0 + size` fits `int64` nanoseconds.  Then
all `k` are accepted; the call at `now = t0 + size` rotates to a state whose weight is `1` and
whose estimate is `k`; and of `limit - k + 1` unit requests at that instant the first
`limit - k` are accepted and the last one is rejected. -/
theorem C3_boundary_carry_over {S : Type} [Synchronizer S] (size limit : Int) (t0 : Time)
    (ts : List Time) (hsize : 0 < size) (hk : (ts.length : Int) ≤ limit)
    (hmax : limit < 9223372036854775807) (hk53 : (ts.length : Int) ≤ 9007199254740992)
    (ht0 : 0 ≤ t0.unixNs) (hend : t0.unixNs + size ≤ 9223372036854775807)
    (hgrid : t0.Truncate size = t0) (hts : ∀ t ∈ ts, t.Truncate size = t0) :
    (((NewLimiter size limit (.local NewLocalWindow) : Limiter S).run
          (ts.map (fun t => (t, 1)))).bind (fun r => r.2.advance (t0.Add size))).map
        (fun l => ((l.weight (t0.Add size)).toRat, l.estimate (t0.Add size))) =
      some (1, (ts.length : Int)) ∧
    ((NewLimiter size limit (.local NewLocalWindow) : Limiter S).run
        (ts.map (fun t => (t, 1)) ++
          List.replicate ((limit - ts.length).toNat + 1) (t0.Add size, 1))).map Prod.fst =
      some (List.replicate ts.length true ++
        (List.replicate (limit - ts.length).toNat true ++ [false])) := by
  obtain ⟨s1, prev1, hp1, hcase, hrun⟩ := @fresh_run_state S _ size limit t0 ts hsize hmax.le
    (by omega) hts hk
  obtain ⟨P, hP, hadv⟩ := @advance_to_adjacent S size limit ts.length s1 t0 prev1 hsize ht0
    hend hgrid hcase
  obtain ⟨hw, hpp, hds⟩ := @at_window_start S size limit ts.length (t0.Add size) P hsize
    (by omega) hP (by positivity) hk53
  have hds := hds (Truncate_Add_size t0 size hsize hgrid)
  have hest : (⟨size, limit, .local ⟨(t0.Add size).unixNs, 0⟩, P⟩ : Limiter S).estimate
      (t0.Add size) = ts.length := by
    unfold Limiter.estimate
    rw [hpp]
    simp only [Window.Count_local, add_zero]
    exact wrap64_of_isInt64 (by unfold isInt64; omega)
  constructor
  · rw [hrun]
    simp only [Option.some_bind, hadv, Option.map_some', hw, hest, float64_toRat_one]
  · rw [run_append _ _ _ _ _ hrun, List.replicate_succ]
    have hfirst := AllowN_eq_of_advance _ _ (t0.Add size) 1 hadv
      (advance_of_diffSize_lt _ (t0.Add size) hsize.ne' hds)
    have hsame : (⟨size, limit, .local ⟨s1, ts.length⟩, prev1⟩ : Limiter S).run
        ((t0.Add size, 1) :: List.replicate (limit - ts.length).toNat (t0.Add size, 1)) =
        (⟨size, limit, .local ⟨(t0.Add size).unixNs, 0⟩, P⟩ : Limiter S).run
        ((t0.Add size, 1) :: List.replicate (limit - ts.length).toNat (t0.Add size, 1)) := by
      simp only [Limiter.run, hfirst]
    rw [hsame, ← List.replicate_succ, List.replicate_succ']
    have hmap : List.replicate (limit - ts.length).toNat (t0.Add size, (1 : Int)) =
        (List.replicate (limit - ts.length).toNat (t0.Add size)).map (fun t => (t, 1)) := by
      simp
    rw [hmap]
    have hacc := run_unit_accept (List.replicate (limit - ts.length).toNat (t0.Add size))
      (⟨size, limit, .local ⟨(t0.Add size).unixNs, 0⟩, P⟩ : Limiter S) (t0.Add size).unixNs 0
      ts.length hsize.ne' rfl
      (fun t ht => by rw [List.eq_of_mem_replicate ht]; exact ⟨hds, hpp⟩)
      (by positivity) le_rfl (by simp only [List.length_replicate]; omega) hmax.le
    rw [run_append _ _ _ _ _ hacc]
    simp only [List.length_replicate]
    have hrej := AllowN_unit_reject
      (⟨size, limit, .local ⟨(t0.Add size).unixNs,
        0 + ((limit - ts.length).toNat : Int)⟩, P⟩ : Limiter S)
      (t0.Add size).unixNs (0 + ((limit - ts.length).toNat : Int)) ts.length (t0.Add size)
      hsize.ne' rfl hds
      (by rw [← hpp]; exact prevPart_congr _ _ _ rfl (by simp) rfl)
      (by positivity) (by omega) (by simp only []; omega) (by omega)
    simp only [Limiter.run, hrej, Option.map_some']

/-- Witness of C3, the example of the specification: `size = 1s`, `limit = 10`, five unit
requests at `t = 0`; at `t = 1.0s` the weight is `1`, the estimate is `5`, five further unit
requests are accepted and the sixth is rejected. -/
theorem C3_witness :
    (((NewLimiter 1000000000 10 (.local NewLocalWindow) : Limiter BlockingSynchronizer).run
          ((List.replicate 5 (⟨0⟩ : Time)).map (fun t => (t, 1)))).bind
            (fun r => r.2.advance ((⟨0⟩ : Time).Add 1000000000))).map
        (fun l => ((l.weight ((⟨0⟩ : Time).Add 1000000000)).toRat,
          l.estimate ((⟨0⟩ : Time).Add 1000000000))) =
      some (1, ((List.replicate 5 (⟨0⟩ : Time)).length : Int)) ∧
    ((NewLimiter 1000000000 10 (.local NewLocalWindow) : Limiter BlockingSynchronizer).run
        ((List.replicate 5 (⟨0⟩ : Time)).map (fun t => (t, 1)) ++
          List.replicate (((10 : Int) - (List.replicate 5 (⟨0⟩ : Time)).length).toNat + 1)
            ((⟨0⟩ : Time).Add 1000000000, 1))).map Prod.fst =
      some (List.replicate (List.replicate 5 (⟨0⟩ : Time)).length true ++
        (List.replicate ((10 : Int) - (List.replicate 5 (⟨0⟩ : Time)).length).toNat true ++
          [false])) :=
  C3_boundary_carry_over 1000000000 10 ⟨0⟩ (List.replicate 5 ⟨0⟩) (by decide) (by decide)
    (by decide) (by decide) (by decide) (by decide) (by decide) (by decide)

/-- Above `2^53` the carried count is rounded by the conversion to `float64`: `m` unit
requests at the Unix epoch, `m = 2^53 + 1`, with `size = 1s` and `limit = m`, are all
accepted, and the estimate at `t = 1s` is `2^53`, one less than the count carried over. -/
theorem estimate_rounds_carried_count (m : Nat) (hm : (m : Int) = 9007199254740993) :
    ((NewLimiter 1000000000 9007199254740993 (.local NewLocalWindow) :
        Limiter BlockingSynchronizer).run
          ((List.replicate m (⟨0⟩ : Time)).map (fun t => (t, 1)))).map Prod.fst =
      some (List.replicate m true) ∧
    (((NewLimiter 1000000000 9007199254740993 (.local NewLocalWindow) :
        Limiter BlockingSynchronizer).run
          ((List.replicate m (⟨0⟩ : Time)).map (fun t => (t, 1)))).bind
            (fun r => r.2.advance ⟨1000000000⟩)).map
        (fun l => l.estimate ⟨1000000000⟩) = some 9007199254740992 := by
  have htr : (⟨0⟩ : Time).Truncate 1000000000 = ⟨0⟩ := by decide
  have hlen : ((List.replicate m (⟨0⟩ : Time)).length : Int) = 9007199254740993 := by
    rw [List.length_replicate]; exact hm
  obtain ⟨s1, prev1, -, hcase, hrun⟩ := @fresh_run_state BlockingSynchronizer _ 1000000000
    9007199254740993 ⟨0⟩ (List.replicate m ⟨0⟩) (by decide) (by decide) (by decide)
    (fun t ht => by rw [List.eq_of_mem_replicate ht]; exact htr) hlen.le
  obtain ⟨P, hP, hadv⟩ := @advance_to_adjacent BlockingSynchronizer 1000000000
    9007199254740993 (List.replicate m (⟨0⟩ : Time)).length s1 ⟨0⟩ prev1 (by decide) le_rfl
    (by decide) htr hcase
  rw [hlen] at hP
  have hadd : (⟨0⟩ : Time).Add 1000000000 = ⟨1000000000⟩ := by decide
  rw [hadd] at hadv
  obtain ⟨hw, -, -⟩ := @at_window_start BlockingSynchronizer 1000000000 9007199254740993 0
    ⟨1000000000⟩ (.local ⟨0, 0⟩) (by decide) (by decide) rfl le_rfl (by decide)
  have hw' : (⟨1000000000, 9007199254740993, .local ⟨1000000000, 0⟩, P⟩ :
      Limiter BlockingSynchronizer).weight ⟨1000000000⟩ = ⟨false, 4503599627370496, -52⟩ := by
    rw [← hw]; exact weight_congr _ _ _ rfl rfl
  have hpp : (⟨1000000000, 9007199254740993, .local ⟨1000000000, 0⟩, P⟩ :
      Limiter BlockingSynchronizer).prevPart ⟨1000000000⟩ = 9007199254740992 := by
    unfold Limiter.prevPart
    rw [hw', hP]
    set_option maxRecDepth 100000 in decide
  have hest : (⟨1000000000, 9007199254740993, .local ⟨1000000000, 0⟩, P⟩ :
      Limiter BlockingSynchronizer).estimate ⟨1000000000⟩ = 9007199254740992 := by
    unfold Limiter.estimate
    rw [hpp]
    show wrap64 (9007199254740992 + 0) = 9007199254740992
    decide
  constructor
  · rw [hrun, Option.map_some', List.length_replicate]
  · rw [hrun, Option.some_bind, hadv, Option.map_some', hest]

/-- Counterexample to C3 as stated, at two inputs.  First, `size = 1s`, `limit = 10`: five
unit requests at `t = -2s` (two seconds before the Unix epoch, the start of its window) are
accepted, yet at `now = t0 + size = -1s` the limiter does not rotate and the weight is `2`,
not `1`.  Second, `size = 1s`, `limit = k = 2^53 + 1`: after `k` unit requests at the Unix
epoch the estimate at `t = 1s` starts at `2^53`, not at `k`, because `float64(k)` is rounded. -/
theorem C3_counterexample :
    (∀ t ∈ List.replicate 5 (⟨-2000000000⟩ : Time),
        t.Truncate 1000000000 = ⟨-2000000000⟩) ∧
    ((NewLimiter 1000000000 10 (.local NewLocalWindow) : Limiter BlockingSynchronizer).run
        ((List.replicate 5 (⟨-2000000000⟩ : Time)).map (fun t => (t, 1)))).map Prod.fst =
      some (List.replicate 5 true) ∧
    (((NewLimiter 1000000000 10 (.local NewLocalWindow) : Limiter BlockingSynchronizer).run
          ((List.replicate 5 (⟨-2000000000⟩ : Time)).map (fun t => (t, 1)))).bind
            (fun r => r.2.advance ((⟨-2000000000⟩ : Time).Add 1000000000))).map
        (fun l => (l.weight ((⟨-2000000000⟩ : Time).Add 1000000000)).toRat) = some 2 ∧
    ((NewLimiter 1000000000 9007199254740993 (.local NewLocalWindow) :
        Limiter BlockingSynchronizer).run
          ((List.replicate 9007199254740993 (⟨0⟩ : Time)).map (fun t => (t, 1)))).map
        Prod.fst = some (List.replicate 9007199254740993 true) ∧
    (((NewLimiter 1000000000 9007199254740993 (.local NewLocalWindow) :
        Limiter BlockingSynchronizer).run
          ((List.replicate 9007199254740993 (⟨0⟩ : Time)).map (fun t => (t, 1)))).bind
            (fun r => r.2.advance ⟨1000000000⟩)).map
        (fun l => l.estimate ⟨1000000000⟩) = some 9007199254740992 := by
  refine ⟨by decide, by set_option maxRecDepth 100000 in decide, ?_,
    estimate_rounds_carried_count 9007199254740993 (by decide)⟩
  have h : (((NewLimiter 1000000000 10 (.local NewLocalWindow) :
      Limiter BlockingSynchronizer).run
        ((List.replicate 5 (⟨-2000000000⟩ : Time)).map (fun t => (t, 1)))).bind
          (fun r => r.2.advance ((⟨-2000000000⟩ : Time).Add 1000000000))).map
      (fun l => l.weight ((⟨-2000000000⟩ : Time).Add 1000000000)) =
      some ⟨false, 4503599627370496, -51⟩ := by
    set_option maxRecDepth 100000 in decide
  have h2 := congrArg (Option.map float64.toRat) h
  rw [Option.map_map] at h2
  rw [show (fun l : Limiter BlockingSynchronizer =>
      (l.weight ((⟨-2000000000⟩ : Time).Add 1000000000)).toRat) =
      float64.toRat ∘ (fun l => l.weight ((⟨-2000000000⟩ : Time).Add 1000000000)) from rfl, h2]
  simp [float64.toRat]
  norm_num

/-! ## Gaps and rejections -/

/-- A gap of at least two window lengths, measured by the Go duration `Sub` that `advance`
computes, discards the previous count. -/
theorem gap_discards_previous {S : Type} [Synchronizer S] (lim : Limiter S)
    (now : Time) (n : Int) (hsize : 0 < lim.size) (hn : isInt64 n)
    (hgap : 2 * lim.size ≤ (now.Truncate lim.size).Sub lim.curr.Start) :
    (lim.advance now).map (fun l => (l.prev.Count, l.prevPart now)) = some (0, 0) ∧
    (lim.AllowN now n).map (fun r => (r.1, r.2.prev.Count)) =
      some (decide (n ≤ lim.limit), 0) := by
  have hD := diffSize_eq lim now hsize
  have h2 : 2 ≤ lim.diffSize now := by
    rw [hD]
    exact two_le_tdiv_of_le hsize hgap
  have hne : ¬ lim.diffSize now = 1 := by omega
  have hadv := advance_of_one_le_diffSize lim now hsize.ne' (by omega)
  simp only [hne, if_false] at hadv
  have hpc : (lim.prev.Reset ((now.Truncate lim.size).Add (wrap64 (-lim.size))) 0).Count = 0 :=
    Window.Count_Reset _ _ _
  constructor
  · rw [hadv]
    simp only [Option.map_some', hpc]
    rw [prevPart_of_prev_count_zero _ _ hpc]
  · rw [AllowN_of_advance lim _ now n hadv]
    simp only []
    rw [estimate_of_prev_count_zero _ _ hpc]
    simp only [Window.Count_Reset]
    have e0 : wrap64 0 = 0 := by decide
    rw [e0, zero_add, wrap64_of_isInt64 hn]
    by_cases h : n ≤ lim.limit
    · have : ¬ n > lim.limit := by omega
      simp [this, h]
    · have : n > lim.limit := by omega
      simp [this, h]

/-- C4, as amended: gap discards stale data.  For every limiter state with `size > 0` such
that `2 * size` is an `int64` duration (`size < 2^62` nanoseconds), the current window a
LocalWindow or not, and every time `now` whose truncated window start lies at least
`2 * size` after the start of the current window: the rotation step resets the previous
count to `0`, the previous window adds `0` to the estimate, and `AllowN(now, n)` returns true
exactly when `n ≤ limit`, leaving the previous count at `0`. -/
theorem C4_gap_discards_previous {S : Type} [Synchronizer S] (lim : Limiter S)
    (now : Time) (n : Int) (hsize : 0 < lim.size) (hn : isInt64 n)
    (h2size : 2 * lim.size ≤ 9223372036854775807)
    (hgap : 2 * lim.size ≤ (now.Truncate lim.size).unixNs - lim.curr.Start.unixNs) :
    (lim.advance now).map (fun l => (l.prev.Count, l.prevPart now)) = some (0, 0) ∧
    (lim.AllowN now n).map (fun r => (r.1, r.2.prev.Count)) =
      some (decide (n ≤ lim.limit), 0) := by
  refine gap_discards_previous lim now n hsize hn ?_
  unfold Time.Sub sat64
  split_ifs <;> omega

/-- Witness of C4: one second, limit 10, seven requests counted in the window of the epoch
and three in the window before; then a request for 3 five seconds after the epoch. -/
theorem C4_witness :
    ((⟨1000000000, 10, .local ⟨0, 7⟩, .local ⟨-1000000000, 3⟩⟩ :
        Limiter BlockingSynchronizer).advance ⟨5000000000⟩).map
      (fun l => (l.prev.Count, l.prevPart ⟨5000000000⟩)) = some (0, 0) ∧
    ((⟨1000000000, 10, .local ⟨0, 7⟩, .local ⟨-1000000000, 3⟩⟩ :
        Limiter BlockingSynchronizer).AllowN ⟨5000000000⟩ 3).map
      (fun r => (r.1, r.2.prev.Count)) = some (decide ((3 : Int) ≤ 10), 0) :=
  C4_gap_discards_previous ⟨1000000000, 10, .local ⟨0, 7⟩, .local ⟨-1000000000, 3⟩⟩
    ⟨5000000000⟩ 3 (by decide) (by decide) (by decide) (by decide)

/-- Counterexample to C4 as stated: a window of `2^62 + 1` nanoseconds and a limit of 10,
with seven requests counted in the current window.  The window start of `now` lies exactly
`2 * size` after the current start, but `2 * size` is no `int64` duration: `Sub` saturates at
`2^63 - 1`, the quotient `diffSize` is `1`, the seven requests are carried over as the
previous count and weigh `1`, and a request for `4 ≤ 10` is rejected. -/
theorem C4_counterexample :
    ((⟨7039693476410818575⟩ : Time).Truncate 4611686018427387905).unixNs -
        (⟨4611686018427387905, 10, .local ⟨-2183678560443957235, 7⟩, .local ⟨0, 0⟩⟩ :
          Limiter BlockingSynchronizer).curr.Start.unixNs = 2 * 4611686018427387905 ∧
    (⟨4611686018427387905, 10, .local ⟨-2183678560443957235, 7⟩, .local ⟨0, 0⟩⟩ :
        Limiter BlockingSynchronizer).diffSize ⟨7039693476410818575⟩ = 1 ∧
    ((⟨4611686018427387905, 10, .local ⟨-2183678560443957235, 7⟩, .local ⟨0, 0⟩⟩ :
        Limiter BlockingSynchronizer).advance ⟨7039693476410818575⟩).map
      (fun l => (l.prev.Count, l.prevPart ⟨7039693476410818575⟩)) = some (7, 7) ∧
    ((⟨4611686018427387905, 10, .local ⟨-2183678560443957235, 7⟩, .local ⟨0, 0⟩⟩ :
        Limiter BlockingSynchronizer).AllowN ⟨7039693476410818575⟩ 4).map
      (fun r => (r.1, r.2.prev.Count)) = some (false, 7) := by
  refine ⟨by decide, by decide, by set_option maxRecDepth 100000 in decide,
    by set_option maxRecDepth 100000 in decide⟩

/-- C5, as amended: rejection does not mutate counts.  For a limiter with `size > 0` whose
current window is a LocalWindow, every `now` and every `n`: if `AllowN(now, n)` returns
false, the limiter it leaves is exactly the one produced by the rotation step at `now`
(nothing is added).  When moreover the window start of `now` is at most `2^63 - 1`
nanoseconds after the Unix epoch (the range of `UnixNano`), rotating that limiter again at
`now` changes nothing, so the estimate at `now` is the same before and after the call, and
the repeated `AllowN(now, n)` returns false again and leaves the same limiter. -/
theorem C5_rejection_keeps_counts {S : Type} [Synchronizer S] (lim lim1 : Limiter S)
    (s c : Int) (now : Time) (n : Int) (hsize : 0 < lim.size)
    (hcurr : lim.curr = .local ⟨s, c⟩) (hs : isInt64 s)
    (hrej : lim.AllowN now n = some (false, lim1)) :
    lim.advance now = some lim1 ∧
    ((now.Truncate lim.size).unixNs ≤ 9223372036854775807 →
      (lim1.advance now).map (fun l => l.estimate now) =
        (lim.advance now).map (fun l => l.estimate now) ∧
      lim1.AllowN now n = some (false, lim1)) := by
  obtain ⟨lim2, hadv⟩ : ∃ lim2, lim.advance now = some lim2 := by
    rcases advance_cases lim now hsize.ne' with ⟨-, h⟩ | ⟨-, h⟩ <;> exact ⟨_, h⟩
  have hc2 : ∃ s2 c2, lim2.curr = .local ⟨s2, c2⟩ := by
    rcases advance_cases lim now hsize.ne' with ⟨-, h⟩ | ⟨-, h⟩
    · rw [h] at hadv; cases hadv; exact ⟨s, c, hcurr⟩
    · rw [h] at hadv; cases hadv
      rw [hcurr]
      exact ⟨_, _, rfl⟩
  obtain ⟨s2, c2, hc2⟩ := hc2
  have hall := AllowN_of_advance lim lim2 now n hadv
  rw [hrej] at hall
  by_cases hgt : wrap64 (lim2.estimate now + n) > lim2.limit
  · simp only [hgt, if_true, Option.some.injEq, Prod.mk.injEq, true_and] at hall
    have h12 : lim1 = lim2 := by
      rw [hall, hc2]
      simp only [Window.Sync_local]
      rw [← hc2]
    subst h12
    refine ⟨hadv, fun hrep => ?_⟩
    have hidem := advance_idempotent lim lim1 s c now hsize hcurr hs hrep hadv
    refine ⟨by rw [hidem, hadv], ?_⟩
    rw [← AllowN_eq_of_advance lim lim1 now n hadv hidem]
    exact hrej
  · simp only [hgt, if_false, Option.some.injEq, Prod.mk.injEq] at hall
    exact absurd hall.1 (by decide)

/-- Witness of C5: one second, limit 10, ten requests counted at the epoch; `1.2 s` after the
epoch the windows rotate, the previous count weighs `0.8`, and a request for three is
rejected, and rejected again. -/
theorem C5_witness :
    (⟨1000000000, 10, .local ⟨0, 10⟩, .local ⟨0, 0⟩⟩ : Limiter BlockingSynchronizer).advance
        ⟨1200000000⟩ = some ⟨1000000000, 10, .local ⟨1000000000, 0⟩, .local ⟨0, 10⟩⟩ ∧
    (⟨1000000000, 10, .local ⟨1000000000, 0⟩, .local ⟨0, 10⟩⟩ :
        Limiter BlockingSynchronizer).AllowN ⟨1200000000⟩ 3 =
      some (false, ⟨1000000000, 10, .local ⟨1000000000, 0⟩, .local ⟨0, 10⟩⟩) := by
  have h := C5_rejection_keeps_counts
    (⟨1000000000, 10, .local ⟨0, 10⟩, .local ⟨0, 0⟩⟩ : Limiter BlockingSynchronizer)
    ⟨1000000000, 10, .local ⟨1000000000, 0⟩, .local ⟨0, 10⟩⟩ 0 10 ⟨1200000000⟩ 3
    (by decide) rfl (by decide) (by set_option maxRecDepth 100000 in rfl)
  exact ⟨h.1, (h.2 (by decide)).2⟩

/-- Counterexample to C5 as stated: `size = 1`, `limit = 5`.  After one accepted unit request
at the last instant that `UnixNano` can hold, the call `AllowN(now, -1)` one nanosecond later
(in the year 2262) is rejected, and the immediately repeated call is accepted: the stored
window start has wrapped around, so the repeated call rotates once more and drops the
previous count. -/
theorem C5_counterexample :
    ((NewLimiter 1 5 (.local NewLocalWindow) : Limiter BlockingSynchronizer).run
        [(⟨9223372036854775807⟩, 1), (⟨9223372036854775808⟩, -1),
          (⟨9223372036854775808⟩, -1)]).map Prod.fst = some [true, false, true] := by
  set_option maxRecDepth 100000 in decide

/-! ## Synchronization -/

/-- C6: a response with `OK = false`, or whose `Start` differs from the start of the window,
leaves the SyncWindow (start, count and changes included) unchanged. -/
theorem C6_stale_or_failed_response_discarded {S : Type} (w : SyncWindow S)
    (resp : SyncResponse) (h : resp.OK = false ∨ resp.Start ≠ w.start) :
    SyncWindow.handleSyncResponse resp w = w := by
  unfold SyncWindow.handleSyncResponse
  rcases h with h | h
  · simp [h]
  · simp [h]

/-- Witness of C6: a successful response for another window start. -/
theorem C6_witness :
    SyncWindow.handleSyncResponse ⟨true, 5, 3, 16⟩
        (⟨⟨0, 7⟩, 3, "k", ()⟩ : SyncWindow Unit) = ⟨⟨0, 7⟩, 3, "k", ()⟩ :=
  C6_stale_or_failed_response_discarded ⟨⟨0, 7⟩, 3, "k", ()⟩ ⟨true, 5, 3, 16⟩
    (Or.inr (by decide))

/-- C7: reconciliation by the blocking strategy.  For a SyncWindow over a
BlockingSynchronizer, when `Sync(now)` fires (`IsTimeUp(now)` holds) and the store call,
`Add` for `changes > 0` and `Get` otherwise, succeeds with an `int64` `newTotal`, then after
`Sync` the count is `newTotal`, the changes are `0`, the start is unchanged, and the helper
is idle again with `lastSynced = now`. -/
theorem C7_blocking_reconciliation (w : SyncWindow BlockingSynchronizer) (now : Time)
    (newTotal : Int) (hfire : w.syncer.helper.IsTimeUp now = true)
    (hstore : w.syncer.helper.store.reply w.syncer.helper.store.history
      (if w.changes > 0 then StoreCall.Add w.key w.start w.changes
        else StoreCall.Get w.key w.start) = .ok newTotal)
    (hT : isInt64 newTotal) :
    (w.Sync now).count = newTotal ∧ (w.Sync now).changes = 0 ∧ (w.Sync now).start = w.start ∧
    (w.Sync now).syncer.helper.inProgress = false ∧
    (w.Sync now).syncer.helper.lastSynced = now := by
  have hs : (w.syncer.helper.Begin now).Sync w.makeSyncRequest =
      (⟨true, w.start, w.changes, wrap64 (newTotal - w.count)⟩, none,
        ⟨⟨w.syncer.helper.store.reply, w.syncer.helper.store.history ++
          [if w.changes > 0 then StoreCall.Add w.key w.start w.changes
            else StoreCall.Get w.key w.start]⟩, w.syncer.helper.syncInterval, true, now⟩) := by
    rw [syncHelper_Sync_eq]
    simp only [syncHelper.Begin, SyncWindow.makeSyncRequest, hstore]
  simp only [SyncWindow.Sync, Synchronizer.Sync, BlockingSynchronizer.Sync, hfire, if_true, hs,
    SyncWindow.handleSyncResponse, syncHelper.End]
  simp only [beq_self_eq_true, Bool.and_self, if_true, and_true]
  refine ⟨?_, ?_⟩
  · rw [wrap64_add_wrap64, show w.count + (newTotal - w.count) = newTotal by ring]
    exact wrap64_of_isInt64 hT
  · rw [sub_self]; decide

/-- Witness of C7, the example of the specification: count 7, changes 3, a store holding 20;
`Add` returns 23 and the window ends with count 23 and changes 0. -/
theorem C7_witness :
    ((⟨⟨0, 7⟩, 3, "k", NewBlockingSynchronizer
        ⟨fun _ c => match c with
          | .Add _ _ d => .ok (20 + d)
          | .Get _ _ => .ok 20, []⟩ 1⟩ : SyncWindow BlockingSynchronizer).Sync ⟨0⟩).count = 23 ∧
    ((⟨⟨0, 7⟩, 3, "k", NewBlockingSynchronizer
        ⟨fun _ c => match c with
          | .Add _ _ d => .ok (20 + d)
          | .Get _ _ => .ok 20, []⟩ 1⟩ : SyncWindow BlockingSynchronizer).Sync ⟨0⟩).changes = 0 ∧
    ((⟨⟨0, 7⟩, 3, "k", NewBlockingSynchronizer
        ⟨fun _ c => match c with
          | .Add _ _ d => .ok (20 + d)
          | .Get _ _ => .ok 20, []⟩ 1⟩ : SyncWindow BlockingSynchronizer).Sync ⟨0⟩).start = 0 ∧
    ((⟨⟨0, 7⟩, 3, "k", NewBlockingSynchronizer
        ⟨fun _ c => match c with
          | .Add _ _ d => .ok (20 + d)
          | .Get _ _ => .ok 20, []⟩ 1⟩ : SyncWindow BlockingSynchronizer).Sync
            ⟨0⟩).syncer.helper.inProgress = false ∧
    ((⟨⟨0, 7⟩, 3, "k", NewBlockingSynchronizer
        ⟨fun _ c => match c with
          | .Add _ _ d => .ok (20 + d)
          | .Get _ _ => .ok 20, []⟩ 1⟩ : SyncWindow BlockingSynchronizer).Sync
            ⟨0⟩).syncer.helper.lastSynced = ⟨0⟩ :=
  C7_blocking_reconciliation _ ⟨0⟩ 23 (by decide) (by rfl) (by decide)

/-- C8: store failure degrades to local-only behaviour.  Take a limiter with `size ≠ 0` whose
current window is a fresh SyncWindow over a BlockingSynchronizer, with a store whose every
`Add` and `Get` fails, and the LocalWindow limiter of the same size and limit.  For every
sequence of `AllowN` calls both return the same decisions and end with the same start and
count in the current and in the previous window; and no call of the sequence fails. -/
theorem C8_store_failure_degrades_to_local (size limit : Int) (key : String)
    (store : Datastore) (syncInterval : Int) (calls : List (Time × Int))
    (hsize : size ≠ 0)
    (hfail : ∀ hist call, ∃ e, store.reply hist call = Except.error e) :
    ((NewLimiter size limit
        (.sync (NewSyncWindow key (NewBlockingSynchronizer store syncInterval)))).run
          calls).map
        (fun r => (r.1, r.2.curr.Start, r.2.curr.Count, r.2.prev.Start, r.2.prev.Count)) =
      ((NewLimiter size limit (.local NewLocalWindow) : Limiter BlockingSynchronizer).run
          calls).map
        (fun r => (r.1, r.2.curr.Start, r.2.curr.Count, r.2.prev.Start, r.2.prev.Count)) ∧
    ((NewLimiter size limit
        (.sync (NewSyncWindow key (NewBlockingSynchronizer store syncInterval)))).run
          calls).isSome = true := by
  have hm : (NewLimiter size limit
      (.sync (NewSyncWindow key (NewBlockingSynchronizer store syncInterval)))).mirrors
      (NewLimiter size limit (.local NewLocalWindow)) :=
    ⟨rfl, rfl, rfl, NewSyncWindow key (NewBlockingSynchronizer store syncInterval), rfl, rfl,
      hfail⟩
  obtain ⟨bs, ls1, ll1, h1, h2, hm1⟩ := mirrors_run calls _ _ hm hsize
  obtain ⟨-, -, hprev, w, hcs, hcl, -⟩ := hm1
  rw [h1, h2]
  simp [hprev, hcs, hcl]

/-- Witness of C8: a store that is down, and two calls. -/
theorem C8_witness :
    ((NewLimiter 1000000000 1
        (.sync (NewSyncWindow "k" (NewBlockingSynchronizer
          ⟨fun _ _ => Except.error "down", []⟩ 5)))).run [(⟨7⟩, 1), (⟨8⟩, 1)]).map
        (fun r => (r.1, r.2.curr.Start, r.2.curr.Count, r.2.prev.Start, r.2.prev.Count)) =
      ((NewLimiter 1000000000 1 (.local NewLocalWindow) : Limiter BlockingSynchronizer).run
          [(⟨7⟩, 1), (⟨8⟩, 1)]).map
        (fun r => (r.1, r.2.curr.Start, r.2.curr.Count, r.2.prev.Start, r.2.prev.Count)) ∧
    ((NewLimiter 1000000000 1
        (.sync (NewSyncWindow "k" (NewBlockingSynchronizer
          ⟨fun _ _ => Except.error "down", []⟩ 5)))).run [(⟨7⟩, 1), (⟨8⟩, 1)]).isSome = true :=
  C8_store_failure_degrades_to_local 1000000000 1 "k" ⟨fun _ _ => Except.error "down", []⟩ 5
    [(⟨7⟩, 1), (⟨8⟩, 1)] (by decide) (fun _ _ => ⟨"down", rfl⟩)

/-- C9: the store protocol of `syncHelper.Sync`.  For every request the helper makes exactly
one call on the store: `Add(key, start, changes)` when `req.Changes > 0`, and otherwise
`Get(key, start)` (never `Add`).  If the call succeeds with `newTotal`, the response is
`{OK = true, Start = req.Start, Changes = req.Changes, OtherChanges = newTotal - req.Count}`
(Go's `int64` subtraction) with a nil error; if it fails, the response is the zero value and
the error is returned. -/
theorem C9_store_protocol (h : syncHelper) (req : SyncRequest) :
    (h.Sync req).2.2.store.history = h.store.history ++
        [if req.Changes > 0 then StoreCall.Add req.Key req.Start req.Changes
          else StoreCall.Get req.Key req.Start] ∧
    (h.Sync req).1 =
      (match h.store.reply h.store.history
          (if req.Changes > 0 then StoreCall.Add req.Key req.Start req.Changes
            else StoreCall.Get req.Key req.Start) with
        | .ok newTotal => ⟨true, req.Start, req.Changes, wrap64 (newTotal - req.Count)⟩
        | .error _ => ⟨false, 0, 0, 0⟩) ∧
    (h.Sync req).2.1 =
      (match h.store.reply h.store.history
          (if req.Changes > 0 then StoreCall.Add req.Key req.Start req.Changes
            else StoreCall.Get req.Key req.Start) with
        | .ok _ => none
        | .error err => some err) := by
  rw [syncHelper_Sync_eq]
  exact ⟨rfl, rfl, rfl⟩

/-! ## Rotation -/

theorem lt_of_tdiv_lt_one {a d : Int} (hd : 0 < d) (h : Int.tdiv a d < 1) : a < d := by
  by_contra hc
  have := one_le_tdiv_of_le hd (show d ≤ a by omega)
  omega

theorem lt_two_of_tdiv_le_one {a d : Int} (hd : 0 < d) (h : Int.tdiv a d ≤ 1) : a < 2 * d := by
  by_contra hc
  have := two_le_tdiv_of_le hd (show 2 * d ≤ a by omega)
  omega

/-- C10, as amended: the rotation step.  Take a limiter state with an `int64` `size > 0` and
an `int64` current start, a time `now`, `newStart = now.Truncate(size)` and the exact
quotient `diff = (newStart - current.Start()) / size` (integer division).  If `diff < 1`
(`diff = 0` included) both windows are left unchanged.  If `diff = 1`, previous is reset to
`(newStart - size, old current count)` and current to `(newStart, 0)`.  If `diff > 1`, and
the distance `newStart - current.Start()` or `2 * size` is an `int64` duration (at most
`2^63 - 1` nanoseconds), previous is reset to `(newStart - size, 0)` and current to
`(newStart, 0)`.  After a rotation (`diff ≥ 1`) with `newStart` at most `2^63 - 1`
nanoseconds after the Unix epoch (the range of `UnixNano`), the windows reset to
`(newStart, 0)` and `(newStart - size, c)` have exactly these starts and counts.  The
quotient that the code computes is `newStart.Sub(current.Start()) / size`, with the
duration saturated by `Sub`. -/
theorem C10_rotation_step {S : Type} (lim : Limiter S) (now : Time) (hsize : 0 < lim.size)
    (hsz : isInt64 lim.size) (hs : isInt64 lim.curr.Start.unixNs) :
    (Int.tdiv ((now.Truncate lim.size).unixNs - lim.curr.Start.unixNs) lim.size < 1 →
      lim.advance now = some lim) ∧
    (Int.tdiv ((now.Truncate lim.size).unixNs - lim.curr.Start.unixNs) lim.size = 1 →
      lim.advance now = some ⟨lim.size, lim.limit, lim.curr.Reset (now.Truncate lim.size) 0,
        lim.prev.Reset ((now.Truncate lim.size).Add (-lim.size)) lim.curr.Count⟩) ∧
    (1 < Int.tdiv ((now.Truncate lim.size).unixNs - lim.curr.Start.unixNs) lim.size →
      ((now.Truncate lim.size).unixNs - lim.curr.Start.unixNs ≤ 9223372036854775807 ∨
        2 * lim.size ≤ 9223372036854775807) →
      lim.advance now = some ⟨lim.size, lim.limit, lim.curr.Reset (now.Truncate lim.size) 0,
        lim.prev.Reset ((now.Truncate lim.size).Add (-lim.size)) 0⟩) ∧
    (1 ≤ Int.tdiv ((now.Truncate lim.size).unixNs - lim.curr.Start.unixNs) lim.size →
      (now.Truncate lim.size).unixNs ≤ 9223372036854775807 →
      ∀ c : Int,
        (lim.curr.Reset (now.Truncate lim.size) 0).Start = now.Truncate lim.size ∧
        (lim.curr.Reset (now.Truncate lim.size) 0).Count = 0 ∧
        (lim.prev.Reset ((now.Truncate lim.size).Add (-lim.size)) c).Start =
          (now.Truncate lim.size).Add (-lim.size) ∧
        (lim.prev.Reset ((now.Truncate lim.size).Add (-lim.size)) c).Count = c) ∧
    lim.diffSize now =
      Int.tdiv ((now.Truncate lim.size).Sub lim.curr.Start) lim.size := by
  have hneg : wrap64 (-lim.size) = -lim.size :=
    wrap64_of_isInt64 (by unfold isInt64 at *; omega)
  have hD := diffSize_eq lim now hsize
  have hmax : lim.size ≤ 9223372036854775807 := hsz.2
  refine ⟨fun hd => ?_, fun hd => ?_, fun hd hr => ?_, fun hd hrep c => ?_, hD⟩
  · have hlt := lt_of_tdiv_lt_one hsize hd
    apply advance_of_diffSize_lt lim now hsize.ne'
    rw [diffSize_lt_one_iff lim now hsize]
    unfold sat64
    split_ifs <;> omega
  · have h1 : lim.size ≤ (now.Truncate lim.size).unixNs - lim.curr.Start.unixNs := by
      by_contra hc
      have := tdiv_nonpos_of_lt hsize
        (show (now.Truncate lim.size).unixNs - lim.curr.Start.unixNs < lim.size by omega)
      omega
    have h2 := lt_two_of_tdiv_le_one hsize (le_of_eq hd)
    have hcode : lim.diffSize now = 1 := by
      rw [hD]
      apply tdiv_eq_one_of_lt_two hsize
      · unfold sat64; split_ifs <;> omega
      · unfold sat64; split_ifs <;> omega
    rw [advance_of_one_le_diffSize lim now hsize.ne' (by omega), hneg]
    simp only [hcode, if_true]
  · have h2 : 2 * lim.size ≤ (now.Truncate lim.size).unixNs - lim.curr.Start.unixNs := by
      by_contra hc
      rcases lt_or_le ((now.Truncate lim.size).unixNs - lim.curr.Start.unixNs) lim.size
        with hlt | hge
      · have := tdiv_nonpos_of_lt hsize hlt
        omega
      · have := tdiv_eq_one_of_lt_two hsize hge (by omega)
        omega
    have hcode : 2 ≤ lim.diffSize now := by
      rw [hD]
      apply two_le_tdiv_of_le hsize
      unfold sat64
      split_ifs <;> omega
    rw [advance_of_one_le_diffSize lim now hsize.ne' (by omega), hneg]
    rw [if_neg (by omega)]
  · have h1 : lim.size ≤ (now.Truncate lim.size).unixNs - lim.curr.Start.unixNs := by
      by_contra hc
      have := tdiv_nonpos_of_lt hsize
        (show (now.Truncate lim.size).unixNs - lim.curr.Start.unixNs < lim.size by omega)
      omega
    unfold isInt64 at hs hsz
    refine ⟨?_, Window.Count_Reset _ _ _, ?_, Window.Count_Reset _ _ _⟩
    · rw [Window.Start_Reset, wrap64_of_isInt64 (by unfold isInt64; omega)]
    · rw [Window.Start_Reset]
      simp only [Time.Add]
      rw [wrap64_of_isInt64 (by unfold isInt64; omega)]

/-- Witness of C10: one second; seven requests counted in the window of the epoch, and a call
1.5 seconds after the epoch, so that `diff = 1`. -/
theorem C10_witness :
    (⟨1000000000, 10, .local ⟨0, 7⟩, .local ⟨0, 0⟩⟩ : Limiter BlockingSynchronizer).advance
        ⟨1500000000⟩ =
      some ⟨1000000000, 10, .local ⟨1000000000, 0⟩, .local ⟨0, 7⟩⟩ ∧
    (⟨1000000000, 10, .local ⟨0, 7⟩, .local ⟨0, 0⟩⟩ : Limiter BlockingSynchronizer).diffSize
        ⟨1500000000⟩ = 1 := by
  have h := C10_rotation_step
    (⟨1000000000, 10, .local ⟨0, 7⟩, .local ⟨0, 0⟩⟩ : Limiter BlockingSynchronizer)
    ⟨1500000000⟩ (by decide) (by decide) (by decide)
  refine ⟨?_, by rw [h.2.2.2.2]; decide⟩
  rw [h.2.1 (by decide)]
  rfl

/-- Counterexample to C10 as stated.  With a size of one nanosecond and the current start
`0`, at `now = 2^63` the quotient is greater than `1`, and the current window is reset to the
start `-2^63`, the `UnixNano` of `newStart = 2^63`, not to `newStart`.  With a size of
`2^62 + 1` nanoseconds and seven requests in the current window, at a `now` whose window
start lies exactly `2 * size` after the current start the exact quotient is `2`, but `Sub`
saturates, the code computes the quotient `1`, and the previous window gets the count `7`,
not `0`. -/
theorem C10_counterexample :
    (⟨9223372036854775808⟩ : Time).Truncate 1 = ⟨9223372036854775808⟩ ∧
    1 < Int.tdiv (((⟨9223372036854775808⟩ : Time).Truncate 1).unixNs -
        (⟨1, 5, .local ⟨0, 0⟩, .local ⟨0, 0⟩⟩ :
          Limiter BlockingSynchronizer).curr.Start.unixNs) 1 ∧
    ((⟨1, 5, .local ⟨0, 0⟩, .local ⟨0, 0⟩⟩ : Limiter BlockingSynchronizer).advance
        ⟨9223372036854775808⟩).map (fun l => (l.curr.Start, l.curr.Count)) =
      some (⟨-9223372036854775808⟩, 0) ∧
    Int.tdiv (((⟨7039693476410818575⟩ : Time).Truncate 4611686018427387905).unixNs -
        (⟨4611686018427387905, 10, .local ⟨-2183678560443957235, 7⟩, .local ⟨0, 0⟩⟩ :
          Limiter BlockingSynchronizer).curr.Start.unixNs) 4611686018427387905 = 2 ∧
    ((⟨4611686018427387905, 10, .local ⟨-2183678560443957235, 7⟩, .local ⟨0, 0⟩⟩ :
        Limiter BlockingSynchronizer).advance ⟨7039693476410818575⟩).map
      (fun l => (l.prev.Count, l.curr.Start, l.curr.Count)) =
        some (7, ⟨7039693476410818575⟩, 0) := by
  refine ⟨by decide, by decide, by set_option maxRecDepth 100000 in decide, by decide,
    by set_option maxRecDepth 100000 in decide⟩

/-! ## Late responses -/

theorem wrap64_wrap64_add (a b : Int) : wrap64 (wrap64 a + b) = wrap64 (a + b) := by
  rw [add_comm, wrap64_add_wrap64, add_comm]

/-- A sequence of `AddCount` calls adds the sum of its arguments to the count and to the
changes, in `int64` arithmetic, and keeps start, key and synchronizer. -/
theorem foldl_AddCount {S : Type} (adds : List Int) :
    ∀ (w : SyncWindow S) (x : Int),
      wrap64 ((adds.foldl SyncWindow.AddCount w).count + x) = wrap64 (w.count + adds.sum + x) ∧
      wrap64 ((adds.foldl SyncWindow.AddCount w).changes + x) =
        wrap64 (w.changes + adds.sum + x) ∧
      (adds.foldl SyncWindow.AddCount w).start = w.start ∧
      (adds.foldl SyncWindow.AddCount w).key = w.key ∧
      (adds.foldl SyncWindow.AddCount w).syncer = w.syncer := by
  induction adds with
  | nil => intro w x; simp
  | cons n rest ih =>
    intro w x
    obtain ⟨h1, h2, h3, h4, h5⟩ := ih (w.AddCount n) x
    simp only [List.foldl_cons, List.sum_cons]
    refine ⟨?_, ?_, h3, h4, h5⟩
    · rw [h1]
      show wrap64 (wrap64 (w.count + n) + rest.sum + x) = _
      rw [add_assoc, wrap64_wrap64_add]
      congr 1; ring
    · rw [h2]
      show wrap64 (wrap64 (w.changes + n) + rest.sum + x) = _
      rw [add_assoc, wrap64_wrap64_add]
      congr 1; ring

/-- C20: a late response preserves the deltas added after the request.  Take a SyncWindow
`w`, the request `w.makeSyncRequest` and the response of `syncHelper.Sync` to it when the
store call succeeds with `newTotal`.  If `AddCount` calls with the arguments `adds`,
totalling `k = adds.sum`, are applied to `w` and the response is then handled, the window ends
with count `newTotal + k` and changes `k` in `int64` arithmetic (exactly so when `k` and
`newTotal + k` are `int64` values), at the same start.  If instead the window was reset to
another start in between, with any `AddCount` calls before and after, handling the response
changes nothing. -/
theorem C20_late_response_keeps_later_deltas {S : Type} (w : SyncWindow S) (h : syncHelper)
    (adds : List Int) (newTotal : Int)
    (hstore : h.store.reply h.store.history
      (if w.changes > 0 then StoreCall.Add w.key w.start w.changes
        else StoreCall.Get w.key w.start) = .ok newTotal) :
    (SyncWindow.handleSyncResponse (h.Sync w.makeSyncRequest).1
        (adds.foldl SyncWindow.AddCount w)).count = wrap64 (newTotal + adds.sum) ∧
    (SyncWindow.handleSyncResponse (h.Sync w.makeSyncRequest).1
        (adds.foldl SyncWindow.AddCount w)).changes = wrap64 adds.sum ∧
    (SyncWindow.handleSyncResponse (h.Sync w.makeSyncRequest).1
        (adds.foldl SyncWindow.AddCount w)).start = w.start ∧
    (isInt64 adds.sum → isInt64 (newTotal + adds.sum) →
      (SyncWindow.handleSyncResponse (h.Sync w.makeSyncRequest).1
          (adds.foldl SyncWindow.AddCount w)).count = newTotal + adds.sum ∧
      (SyncWindow.handleSyncResponse (h.Sync w.makeSyncRequest).1
          (adds.foldl SyncWindow.AddCount w)).changes = adds.sum) ∧
    ∀ (s : Time) (c : Int) (later : List Int), s.UnixNano ≠ w.start →
      SyncWindow.handleSyncResponse (h.Sync w.makeSyncRequest).1
          (later.foldl SyncWindow.AddCount ((adds.foldl SyncWindow.AddCount w).Reset s c)) =
        later.foldl SyncWindow.AddCount ((adds.foldl SyncWindow.AddCount w).Reset s c) := by
  have hresp : (h.Sync w.makeSyncRequest).1 =
      ⟨true, w.start, w.changes, wrap64 (newTotal - w.count)⟩ := by
    rw [syncHelper_Sync_eq]
    simp only [SyncWindow.makeSyncRequest, hstore]
  obtain ⟨h1, -, h3, -, -⟩ := foldl_AddCount adds w (newTotal - w.count)
  obtain ⟨-, h2, -, -, -⟩ := foldl_AddCount adds w (-w.changes)
  have hcount : (SyncWindow.handleSyncResponse (h.Sync w.makeSyncRequest).1
      (adds.foldl SyncWindow.AddCount w)).count = wrap64 (newTotal + adds.sum) := by
    rw [hresp]
    simp only [SyncWindow.handleSyncResponse, h3, beq_self_eq_true, Bool.and_self, if_true]
    rw [wrap64_add_wrap64, h1]
    congr 1; ring
  have hchanges : (SyncWindow.handleSyncResponse (h.Sync w.makeSyncRequest).1
      (adds.foldl SyncWindow.AddCount w)).changes = wrap64 adds.sum := by
    rw [hresp]
    simp only [SyncWindow.handleSyncResponse, h3, beq_self_eq_true, Bool.and_self, if_true]
    rw [sub_eq_add_neg, h2]
    congr 1; ring
  refine ⟨hcount, hchanges, ?_, ?_, ?_⟩
  · rw [hresp]
    simp only [SyncWindow.handleSyncResponse, h3, beq_self_eq_true, Bool.and_self, if_true]
  · intro hk hnk
    rw [hcount, hchanges, wrap64_of_isInt64 hk, wrap64_of_isInt64 hnk]
    exact ⟨rfl, rfl⟩
  · intro s c later hs
    have hne : ¬ w.start = (later.foldl SyncWindow.AddCount
        ((adds.foldl SyncWindow.AddCount w).Reset s c)).start := by
      rw [(foldl_AddCount later _ 0).2.2.1]
      exact fun e => hs e.symm
    rw [hresp]
    simp [SyncWindow.handleSyncResponse, hne]

/-- Witness of C20: count 7 and changes 3 at the request, a store that answers 23, and two
requests admitted before the response arrives. -/
theorem C20_witness :
    (SyncWindow.handleSyncResponse
        ((newSyncHelper ⟨fun _ _ => .ok 23, []⟩ 1).Sync
          (⟨⟨0, 7⟩, 3, "k", ()⟩ : SyncWindow Unit).makeSyncRequest).1
        ([1, 1].foldl SyncWindow.AddCount (⟨⟨0, 7⟩, 3, "k", ()⟩ : SyncWindow Unit))).count =
      25 ∧
    (SyncWindow.handleSyncResponse
        ((newSyncHelper ⟨fun _ _ => .ok 23, []⟩ 1).Sync
          (⟨⟨0, 7⟩, 3, "k", ()⟩ : SyncWindow Unit).makeSyncRequest).1
        ([1, 1].foldl SyncWindow.AddCount (⟨⟨0, 7⟩, 3, "k", ()⟩ : SyncWindow Unit))).changes =
      2 := by
  have h := C20_late_response_keeps_later_deltas (⟨⟨0, 7⟩, 3, "k", ()⟩ : SyncWindow Unit)
    (newSyncHelper ⟨fun _ _ => .ok 23, []⟩ 1) [1, 1] 23 rfl
  exact h.2.2.2.1 (by decide) (by decide)

/-! ## Throttling of the blocking strategy -/

theorem IsTimeUp_iff (h : syncHelper) (now : Time) :
    h.IsTimeUp now = true ↔
      (h.inProgress = false ∧ now.Sub h.lastSynced ≥ h.syncInterval) := by
  unfold syncHelper.IsTimeUp
  cases h.inProgress <;> simp

/-- When `Sync` of the blocking strategy fires, the helper is idle afterwards, with
`lastSynced = now`, the same interval and one more call in the history of the store. -/
theorem BlockingSynchronizer.Sync_fires {W : Type} (s : BlockingSynchronizer) (now : Time)
    (makeReq : W → SyncRequest) (handleResp : SyncResponse → W → W) (w : W)
    (hfire : s.helper.IsTimeUp now = true) :
    (s.Sync now makeReq handleResp w).1.helper.inProgress = false ∧
    (s.Sync now makeReq handleResp w).1.helper.lastSynced = now ∧
    (s.Sync now makeReq handleResp w).1.helper.syncInterval = s.helper.syncInterval ∧
    (s.Sync now makeReq handleResp w).1.helper.store.history = s.helper.store.history ++
      [if (makeReq w).Changes > 0 then
          StoreCall.Add (makeReq w).Key (makeReq w).Start (makeReq w).Changes
        else StoreCall.Get (makeReq w).Key (makeReq w).Start] ∧
    (s.Sync now makeReq handleResp w).2 =
      handleResp ((s.helper.Begin now).Sync (makeReq w)).1 w := by
  simp only [BlockingSynchronizer.Sync, hfire, if_true, syncHelper_Sync_eq, syncHelper.End,
    syncHelper.Begin, and_self]

/-- When the time is not up, `Sync` of the blocking strategy does nothing. -/
theorem BlockingSynchronizer.Sync_idle {W : Type} (s : BlockingSynchronizer) (now : Time)
    (makeReq : W → SyncRequest) (handleResp : SyncResponse → W → W) (w : W)
    (hidle : s.helper.IsTimeUp now = false) : s.Sync now makeReq handleResp w = (s, w) := by
  simp only [BlockingSynchronizer.Sync, hidle, Bool.false_eq_true, if_false]

/-- C15: throttling of the blocking strategy.  `IsTimeUp(now)` holds iff `inProgress` is
false and `now.Sub(lastSynced) >= syncInterval`, which for an `int64` interval above the
least `int64` is `now - lastSynced >= syncInterval` in exact arithmetic; `Begin(now)` sets
`lastSynced = now`.  If `BlockingSynchronizer.Sync` fires at `now1`, whatever the store
answers, then a later `Sync(now2)` with `0 <= now2 - now1 < syncInterval` returns the
synchronizer (helper, store and history of store calls included) and the window unchanged,
for every window and every response handler.  A new synchronizer has `inProgress = false`,
and `Sync` keeps it false. -/
theorem C15_blocking_sync_throttling {W : Type} (s : BlockingSynchronizer) (now1 now2 : Time)
    (makeReq : W → SyncRequest) (handleResp : SyncResponse → W → W) (w w2 : W)
    (hI : isInt64 s.helper.syncInterval) (hfire : s.helper.IsTimeUp now1 = true)
    (h0 : 0 ≤ now2.unixNs - now1.unixNs)
    (h1 : now2.unixNs - now1.unixNs < s.helper.syncInterval) :
    (∀ (h : syncHelper) (now : Time), (h.IsTimeUp now = true ↔
        (h.inProgress = false ∧ now.Sub h.lastSynced ≥ h.syncInterval)) ∧
      (isInt64 h.syncInterval → -9223372036854775808 < h.syncInterval →
        (h.IsTimeUp now = true ↔
          (h.inProgress = false ∧ now.unixNs - h.lastSynced.unixNs ≥ h.syncInterval))) ∧
      (h.Begin now).lastSynced = now) ∧
    (s.Sync now1 makeReq handleResp w).1.helper.lastSynced = now1 ∧
    (s.Sync now1 makeReq handleResp w).1.helper.IsTimeUp now2 = false ∧
    (s.Sync now1 makeReq handleResp w).1.Sync now2 makeReq handleResp w2 =
      ((s.Sync now1 makeReq handleResp w).1, w2) ∧
    (∀ (store : Datastore) (syncInterval : Int),
      (NewBlockingSynchronizer store syncInterval).helper.inProgress = false) ∧
    (∀ (s0 : BlockingSynchronizer) (now : Time) (w0 : W),
      s0.helper.inProgress = false →
        (s0.Sync now makeReq handleResp w0).1.helper.inProgress = false) := by
  obtain ⟨f1, f2, f3, -, -⟩ := BlockingSynchronizer.Sync_fires s now1 makeReq handleResp w hfire
  have hup : (s.Sync now1 makeReq handleResp w).1.helper.IsTimeUp now2 = false := by
    cases hc : (s.Sync now1 makeReq handleResp w).1.helper.IsTimeUp now2
    · rfl
    · rw [IsTimeUp_iff, f2, f3] at hc
      have hsub : now2.Sub now1 = now2.unixNs - now1.unixNs :=
        sat64_of_isInt64 (by unfold isInt64 at *; omega)
      rw [hsub] at hc
      omega
  refine ⟨fun h now => ⟨IsTimeUp_iff h now, ?_, rfl⟩, f2, hup, ?_, fun _ _ => rfl, ?_⟩
  · intro hi hmin
    rw [IsTimeUp_iff]
    unfold Time.Sub sat64 isInt64 at *
    constructor
    · rintro ⟨ha, hb⟩
      refine ⟨ha, ?_⟩
      split_ifs at hb <;> omega
    · rintro ⟨ha, hb⟩
      refine ⟨ha, ?_⟩
      split_ifs <;> omega
  · exact BlockingSynchronizer.Sync_idle _ now2 makeReq handleResp w2 hup
  · intro s0 now w0 hidle
    by_cases hf : s0.helper.IsTimeUp now = true
    · exact (BlockingSynchronizer.Sync_fires s0 now makeReq handleResp w0 hf).1
    · rw [BlockingSynchronizer.Sync_idle s0 now makeReq handleResp w0 (by simpa using hf)]
      exact hidle

/-- Witness of C15: an interval of five nanoseconds, a synchronization at `10` and a call at
`12`. -/
theorem C15_witness :
    ((NewBlockingSynchronizer ⟨fun _ _ => .ok 20, []⟩ 5).Sync ⟨10⟩
        SyncWindow.makeSyncRequest SyncWindow.handleSyncResponse
        (⟨⟨0, 7⟩, 3, "k", ()⟩ : SyncWindow Unit)).1.Sync ⟨12⟩
      SyncWindow.makeSyncRequest SyncWindow.handleSyncResponse
        (⟨⟨0, 9⟩, 2, "k", ()⟩ : SyncWindow Unit) =
    (((NewBlockingSynchronizer ⟨fun _ _ => .ok 20, []⟩ 5).Sync ⟨10⟩
        SyncWindow.makeSyncRequest SyncWindow.handleSyncResponse
        (⟨⟨0, 7⟩, 3, "k", ()⟩ : SyncWindow Unit)).1, ⟨⟨0, 9⟩, 2, "k", ()⟩) :=
  (C15_blocking_sync_throttling (NewBlockingSynchronizer ⟨fun _ _ => .ok 20, []⟩ 5) ⟨10⟩ ⟨12⟩
    SyncWindow.makeSyncRequest SyncWindow.handleSyncResponse
    (⟨⟨0, 7⟩, 3, "k", ()⟩ : SyncWindow Unit) ⟨⟨0, 9⟩, 2, "k", ()⟩
    (by decide) (by decide) (by decide) (by decide)).2.2.2.1

/-! ## The deferred synchronization -/

/-- C14: `Sync` fires on every call, after the decision.  For a limiter with `size ≠ 0` whose
current window is a SyncWindow `w` over a BlockingSynchronizer, `AllowN(now, n)` rotates,
decides on the estimate of the rotated state (the counts before any exchange with the
store), adds `n` on acceptance and then applies `Sync(now)` to the current window once, in
the accepted and in the rejected branch; the rotated current window is `w` or `w` reset,
with the synchronizer of `w`.  In particular,
when `IsTimeUp(now)` holds and the call is rejected, the result is still the state after
one store exchange: the history of the store has one more call, `lastSynced = now`, and the
window is the one that `handleSyncResponse` makes of the response. -/
theorem C14_sync_after_decision (lim : Limiter BlockingSynchronizer)
    (w : SyncWindow BlockingSynchronizer) (now : Time) (n : Int)
    (hcurr : lim.curr = .sync w) (hsize : lim.size ≠ 0) :
    lim.AllowN now n = (lim.advance now).map (fun lim1 =>
      if wrap64 (lim1.estimate now + n) > lim1.limit then
        (false, ⟨lim1.size, lim1.limit, lim1.curr.Sync now, lim1.prev⟩)
      else
        (true, ⟨lim1.size, lim1.limit, (lim1.curr.AddCount n).Sync now, lim1.prev⟩)) ∧
    (lim.advance now).map (fun lim1 => lim1.curr) =
      some (.sync (if 1 ≤ lim.diffSize now then w.Reset (now.Truncate lim.size) 0 else w)) ∧
    ∀ w1 : SyncWindow BlockingSynchronizer,
      w1 = (if 1 ≤ lim.diffSize now then w.Reset (now.Truncate lim.size) 0 else w) →
      w1.syncer = w.syncer ∧
      (w.syncer.helper.IsTimeUp now = true →
        (lim.AllowN now n).map Prod.fst = some false →
        (lim.AllowN now n).map (fun r => r.2.curr) = some (.sync (w1.Sync now)) ∧
        (w1.Sync now).syncer.helper.store.history = w.syncer.helper.store.history ++
          [if w1.changes > 0 then StoreCall.Add w1.key w1.start w1.changes
            else StoreCall.Get w1.key w1.start] ∧
        (w1.Sync now).syncer.helper.lastSynced = now ∧
        (w1.Sync now).syncer.helper.inProgress = false ∧
        (w1.Sync now).toLocalWindow = (SyncWindow.handleSyncResponse
          ((w.syncer.helper.Begin now).Sync w1.makeSyncRequest).1 w1).toLocalWindow ∧
        (w1.Sync now).changes = (SyncWindow.handleSyncResponse
          ((w.syncer.helper.Begin now).Sync w1.makeSyncRequest).1 w1).changes) := by
  have hadv : ∃ lim1 : Limiter BlockingSynchronizer, lim.advance now = some lim1 ∧
      lim1.curr =
        .sync (if 1 ≤ lim.diffSize now then w.Reset (now.Truncate lim.size) 0 else w) := by
    rcases advance_cases lim now hsize with ⟨hd, ha⟩ | ⟨hd, ha⟩
    · exact ⟨_, ha, by rw [if_neg (by omega), hcurr]⟩
    · refine ⟨_, ha, ?_⟩
      rw [if_pos hd, hcurr]
      rfl
  obtain ⟨lim1, ha, hc1⟩ := hadv
  refine ⟨?_, by rw [ha]; simp only [Option.map_some', hc1], ?_⟩
  · rw [AllowN_of_advance lim lim1 now n ha, ha]
    by_cases hgt : wrap64 (lim1.estimate now + n) > lim1.limit
    · simp only [hgt, if_true, Option.map_some']
    · simp only [hgt, if_false, Option.map_some']
  · intro w1 hw1
    rw [← hw1] at hc1
    have hsync : w1.syncer = w.syncer := by
      rw [hw1]
      split_ifs <;> rfl
    refine ⟨hsync, fun hup hrej => ?_⟩
    rw [AllowN_of_advance lim lim1 now n ha] at hrej ⊢
    by_cases hgt : wrap64 (lim1.estimate now + n) > lim1.limit
    · simp only [hgt, if_true, Option.map_some', hc1]
      have hup1 : w1.syncer.helper.IsTimeUp now = true := by rw [hsync]; exact hup
      obtain ⟨f1, f2, -, f4, f5⟩ := BlockingSynchronizer.Sync_fires w1.syncer now
        SyncWindow.makeSyncRequest SyncWindow.handleSyncResponse w1 hup1
      refine ⟨rfl, ?_, f2, f1, ?_, ?_⟩
      · rw [← hsync]; exact f4
      · rw [← hsync]
        show (w1.syncer.Sync now SyncWindow.makeSyncRequest
          SyncWindow.handleSyncResponse w1).2.toLocalWindow = _
        rw [f5]
      · rw [← hsync]
        show (w1.syncer.Sync now SyncWindow.makeSyncRequest
          SyncWindow.handleSyncResponse w1).2.changes = _
        rw [f5]
    · simp only [hgt, if_false, Option.map_some'] at hrej
      exact absurd hrej (by decide)

/-- Witness of C14: a window with count 7 of a limit of 10, a store holding 20, and a call for
four more, which is rejected and still synchronizes. -/
theorem C14_witness :
    ((⟨1000000000, 10, .sync ⟨⟨0, 7⟩, 3, "k",
        NewBlockingSynchronizer ⟨fun _ _ => .ok 20, []⟩ 1⟩, .local ⟨0, 0⟩⟩ :
          Limiter BlockingSynchronizer).AllowN ⟨5⟩ 4).map (fun r => r.2.curr) =
      some (.sync ((⟨⟨0, 7⟩, 3, "k", NewBlockingSynchronizer ⟨fun _ _ => .ok 20, []⟩ 1⟩ :
        SyncWindow BlockingSynchronizer).Sync ⟨5⟩)) ∧
    ((⟨⟨0, 7⟩, 3, "k", NewBlockingSynchronizer ⟨fun _ _ => .ok 20, []⟩ 1⟩ :
        SyncWindow BlockingSynchronizer).Sync ⟨5⟩).syncer.helper.store.history =
      [] ++ [StoreCall.Add "k" 0 3] ∧
    ((⟨⟨0, 7⟩, 3, "k", NewBlockingSynchronizer ⟨fun _ _ => .ok 20, []⟩ 1⟩ :
        SyncWindow BlockingSynchronizer).Sync ⟨5⟩).syncer.helper.lastSynced = ⟨5⟩ := by
  have h := (C14_sync_after_decision
    (⟨1000000000, 10, .sync ⟨⟨0, 7⟩, 3, "k",
        NewBlockingSynchronizer ⟨fun _ _ => .ok 20, []⟩ 1⟩, .local ⟨0, 0⟩⟩ :
          Limiter BlockingSynchronizer)
    ⟨⟨0, 7⟩, 3, "k", NewBlockingSynchronizer ⟨fun _ _ => .ok 20, []⟩ 1⟩ ⟨5⟩ 4 rfl
    (by decide)).2.2 ⟨⟨0, 7⟩, 3, "k", NewBlockingSynchronizer ⟨fun _ _ => .ok 20, []⟩ 1⟩
    (by rw [if_neg (by decide)])
  obtain ⟨h1, h2, h3, -⟩ := h.2 (by decide) (by rfl)
  exact ⟨h1, h2, h3⟩

/-! ## The estimate -/

/-- The integer part of the magnitude is the floor of the magnitude. -/
theorem float64_truncAbs_eq_floor (f : float64) :
    (f.truncAbs : Int) = ⌊(f.mant : ℚ) * (2 : ℚ) ^ f.exp⌋ := by
  unfold float64.truncAbs
  rcases le_or_lt 0 f.exp with he | he
  · obtain ⟨k, hk⟩ := Int.eq_ofNat_of_zero_le he
    have h2 : (-f.exp).toNat = 0 := by omega
    rw [h2, hk, Int.toNat_ofNat, pow_zero, Nat.div_one, zpow_natCast]
    rw [show (f.mant : ℚ) * 2 ^ k = ((f.mant * 2 ^ k : Nat) : ℚ) by push_cast; ring]
    rw [show (((f.mant * 2 ^ k : Nat)) : ℚ) = (((f.mant * 2 ^ k : Nat) : Int) : ℚ) by
      push_cast; ring]
    rw [Int.floor_intCast]
  · obtain ⟨k, hk⟩ := Int.eq_ofNat_of_zero_le (show 0 ≤ -f.exp by omega)
    have h1 : f.exp.toNat = 0 := by omega
    have h3 : f.exp = -(k : Int) := by omega
    rw [h1, hk, Int.toNat_ofNat, pow_zero, mul_one, h3, zpow_neg, zpow_natCast]
    rw [show (f.mant : ℚ) * ((2 : ℚ) ^ k)⁻¹ = ((f.mant : Int) : ℚ) / ((2 ^ k : Nat) : ℚ) by
      push_cast; ring]
    rw [Rat.floor_intCast_div_natCast]
    push_cast
    rfl

/-- Conversion `int64(f)` truncates toward zero: it is the floor of a value that is not
negative and the ceiling of a negative value, when that integer is an `int64`, and the least
`int64` otherwise. -/
theorem float64_toInt64_eq_trunc (f : float64) :
    f.toInt64 =
      if -9223372036854775808 ≤ (if 0 ≤ f.toRat then ⌊f.toRat⌋ else ⌈f.toRat⌉) ∧
          (if 0 ≤ f.toRat then ⌊f.toRat⌋ else ⌈f.toRat⌉) ≤ 9223372036854775807 then
        (if 0 ≤ f.toRat then ⌊f.toRat⌋ else ⌈f.toRat⌉)
      else -9223372036854775808 := by
  have hpos : (0 : ℚ) ≤ (f.mant : ℚ) * (2 : ℚ) ^ f.exp := by positivity
  have key : (if f.neg then -(f.truncAbs : Int) else (f.truncAbs : Int)) =
      (if 0 ≤ f.toRat then ⌊f.toRat⌋ else ⌈f.toRat⌉) := by
    unfold float64.toRat
    rw [float64_truncAbs_eq_floor]
    cases hn : f.neg
    · simp only [Bool.false_eq_true, if_false, one_mul, mul_assoc, hpos, if_true]
    · simp only [if_true, mul_assoc, neg_mul, one_mul]
      by_cases h0 : (f.mant : ℚ) * (2 : ℚ) ^ f.exp = 0
      · simp [h0]
      · have hlt : ¬ (0 : ℚ) ≤ -((f.mant : ℚ) * (2 : ℚ) ^ f.exp) := by
          have : (0 : ℚ) < (f.mant : ℚ) * (2 : ℚ) ^ f.exp := lt_of_le_of_ne hpos (Ne.symm h0)
          linarith
        rw [if_neg hlt, Int.ceil_neg]
  unfold float64.toInt64
  simp only [key]

/-- C11, as amended: the estimate formula.  For every limiter state with `size ≠ 0`, every
`now` and `n`, `AllowN(now, n)` rotates and decides on
`estimate = int64(weight * float64(previous.Count())) + current.Count()` of the rotated state,
in `int64` arithmetic: it rejects exactly when `estimate + n > limit` and otherwise adds `n`
to the current count and accepts.  The weight is the `float64` quotient
`float64(size - elapsed) / float64(size)` with `elapsed = now.Sub(current.Start())`, the
product is a `float64` product, and the conversion `int64(...)` truncates toward zero: it is
the floor of a product that is not negative and the ceiling of a negative one (and the least
`int64` when that integer is no `int64`). -/
theorem C11_estimate_truncates {S : Type} [Synchronizer S] (lim : Limiter S) (now : Time)
    (n : Int) (hsize : lim.size ≠ 0) :
    (lim.advance now).isSome = true ∧
    lim.AllowN now n = (lim.advance now).map (fun lim1 =>
      if wrap64 (lim1.estimate now + n) > lim1.limit then
        (false, ⟨lim1.size, lim1.limit, lim1.curr.Sync now, lim1.prev⟩)
      else
        (true, ⟨lim1.size, lim1.limit, (lim1.curr.AddCount n).Sync now, lim1.prev⟩)) ∧
    ∀ lim1 : Limiter S,
      lim1.estimate now = wrap64 (lim1.prevPart now + lim1.curr.Count) ∧
      lim1.weight now = float64.div
        (float64.ofInt64 (wrap64 (lim1.size - now.Sub lim1.curr.Start)))
        (float64.ofInt64 lim1.size) ∧
      lim1.prevPart now =
        (if -9223372036854775808 ≤
              (if 0 ≤ (float64.mul (lim1.weight now) (float64.ofInt64 lim1.prev.Count)).toRat
                then ⌊(float64.mul (lim1.weight now) (float64.ofInt64 lim1.prev.Count)).toRat⌋
                else ⌈(float64.mul (lim1.weight now)
                  (float64.ofInt64 lim1.prev.Count)).toRat⌉) ∧
            (if 0 ≤ (float64.mul (lim1.weight now) (float64.ofInt64 lim1.prev.Count)).toRat
                then ⌊(float64.mul (lim1.weight now) (float64.ofInt64 lim1.prev.Count)).toRat⌋
                else ⌈(float64.mul (lim1.weight now)
                  (float64.ofInt64 lim1.prev.Count)).toRat⌉) ≤ 9223372036854775807 then
          (if 0 ≤ (float64.mul (lim1.weight now) (float64.ofInt64 lim1.prev.Count)).toRat
            then ⌊(float64.mul (lim1.weight now) (float64.ofInt64 lim1.prev.Count)).toRat⌋
            else ⌈(float64.mul (lim1.weight now) (float64.ofInt64 lim1.prev.Count)).toRat⌉)
        else -9223372036854775808) := by
  obtain ⟨lim1, ha⟩ : ∃ lim1, lim.advance now = some lim1 := by
    rcases advance_cases lim now hsize with ⟨-, ha⟩ | ⟨-, ha⟩ <;> exact ⟨_, ha⟩
  refine ⟨by rw [ha]; rfl, ?_, fun l => ⟨rfl, rfl, float64_toInt64_eq_trunc _⟩⟩
  rw [AllowN_of_advance lim lim1 now n ha, ha]
  by_cases hgt : wrap64 (lim1.estimate now + n) > lim1.limit
  · simp only [hgt, if_true, Option.map_some']
  · simp only [hgt, if_false, Option.map_some']

/-- Witness of C11: seven requests in the previous window, two in the current one, and a
call for one more in the middle of the current window. -/
theorem C11_witness :
    ((⟨1000000000, 10, .local ⟨1000000000, 2⟩, .local ⟨0, 7⟩⟩ :
        Limiter BlockingSynchronizer).advance ⟨1500000000⟩).isSome = true ∧
    (⟨1000000000, 10, .local ⟨1000000000, 2⟩, .local ⟨0, 7⟩⟩ :
        Limiter BlockingSynchronizer).AllowN ⟨1500000000⟩ 1 =
      some (true, ⟨1000000000, 10, .local ⟨1000000000, 3⟩, .local ⟨0, 7⟩⟩) := by
  have h := C11_estimate_truncates
    (⟨1000000000, 10, .local ⟨1000000000, 2⟩, .local ⟨0, 7⟩⟩ : Limiter BlockingSynchronizer)
    ⟨1500000000⟩ 1 (by decide)
  refine ⟨h.1, ?_⟩
  rw [h.2.1]
  set_option maxRecDepth 100000 in rfl

/-- Counterexample to C11 as stated, with `floor` and a real-valued weight.  One second and
a limit of `0`: after `AllowN(0, -1)` the previous count at `1.5 s` is `-1` and the weight
`0.5`, the code estimates `0` where the formula gives `floor(-0.5) = -1`, and a request for
`1` is rejected although `-1 + 1 > 0` is false.  One second and a limit of `50`: after fifty
requests at `0` the code estimates `28` at `1.42 s`, where the weight is `0.58` and the
formula gives `29`, and a request for `22` is accepted although `29 + 22 > 50`. -/
theorem C11_counterexample :
    ((NewLimiter 1000000000 0 (.local NewLocalWindow) : Limiter BlockingSynchronizer).run
        [(⟨0⟩, -1), (⟨1500000000⟩, 1)]).map Prod.fst = some [true, false] ∧
    (((NewLimiter 1000000000 0 (.local NewLocalWindow) : Limiter BlockingSynchronizer).run
        [(⟨0⟩, -1)]).bind (fun r => r.2.advance ⟨1500000000⟩)).map
      (fun l => (l.estimate ⟨1500000000⟩, l.specEstimate ⟨1500000000⟩, l.limit)) =
        some (0, -1, 0) ∧
    ((NewLimiter 1000000000 50 (.local NewLocalWindow) : Limiter BlockingSynchronizer).run
        [(⟨0⟩, 50), (⟨1420000000⟩, 22)]).map Prod.fst = some [true, true] ∧
    (((NewLimiter 1000000000 50 (.local NewLocalWindow) : Limiter BlockingSynchronizer).run
        [(⟨0⟩, 50)]).bind (fun r => r.2.advance ⟨1420000000⟩)).map
      (fun l => (l.estimate ⟨1420000000⟩, l.specEstimate ⟨1420000000⟩, l.limit)) =
        some (28, 29, 50) := by
  have e1 : (⟨1000000000, 0, .local ⟨1000000000, 0⟩, .local ⟨0, -1⟩⟩ :
      Limiter BlockingSynchronizer).estimate ⟨1500000000⟩ = 0 := by
    set_option maxRecDepth 100000 in decide
  have s1 : (⟨1000000000, 0, .local ⟨1000000000, 0⟩, .local ⟨0, -1⟩⟩ :
      Limiter BlockingSynchronizer).specEstimate ⟨1500000000⟩ = -1 := by
    simp only [Limiter.specEstimate, Window.Start, Window.Count, LocalWindow.Start,
      LocalWindow.Count, Time.Unix]
    norm_num [Int.floor_eq_iff]
  have e2 : (⟨1000000000, 50, .local ⟨1000000000, 0⟩, .local ⟨0, 50⟩⟩ :
      Limiter BlockingSynchronizer).estimate ⟨1420000000⟩ = 28 := by
    set_option maxRecDepth 100000 in decide
  have s2 : (⟨1000000000, 50, .local ⟨1000000000, 0⟩, .local ⟨0, 50⟩⟩ :
      Limiter BlockingSynchronizer).specEstimate ⟨1420000000⟩ = 29 := by
    simp only [Limiter.specEstimate, Window.Start, Window.Count, LocalWindow.Start,
      LocalWindow.Count, Time.Unix]
    norm_num [Int.floor_eq_iff]
  have r1 : ((NewLimiter 1000000000 0 (.local NewLocalWindow) :
      Limiter BlockingSynchronizer).run [(⟨0⟩, -1)]).bind
        (fun r => r.2.advance ⟨1500000000⟩) =
      some ⟨1000000000, 0, .local ⟨1000000000, 0⟩, .local ⟨0, -1⟩⟩ := by rfl
  have r2 : ((NewLimiter 1000000000 50 (.local NewLocalWindow) :
      Limiter BlockingSynchronizer).run [(⟨0⟩, 50)]).bind
        (fun r => r.2.advance ⟨1420000000⟩) =
      some ⟨1000000000, 50, .local ⟨1000000000, 0⟩, .local ⟨0, 50⟩⟩ := by rfl
  refine ⟨by set_option maxRecDepth 100000 in decide, ?_,
    by set_option maxRecDepth 100000 in decide, ?_⟩
  · rw [r1, Option.map_some', e1, s1]
  · rw [r2, Option.map_some', e2, s2]

/-! ## Bounds on rounded values -/

theorem zpow_two_split (e : Int) :
    (2 : ℚ) ^ e = (2 : ℚ) ^ e.toNat / (2 : ℚ) ^ (-e).toNat := by
  rcases le_or_lt 0 e with h | h
  · obtain ⟨k, rfl⟩ := Int.eq_ofNat_of_zero_le h
    have h2 : (-(k : Int)).toNat = 0 := by omega
    rw [h2, Int.toNat_ofNat, pow_zero, div_one, zpow_natCast]
  · obtain ⟨k, hk⟩ := Int.eq_ofNat_of_zero_le (show 0 ≤ -e by omega)
    have h1 : e.toNat = 0 := by omega
    have h3 : e = -(k : Int) := by omega
    rw [h1, hk, Int.toNat_ofNat, pow_zero, h3, zpow_neg, zpow_natCast, one_div]

theorem scale_bounds {n d L Ld a b : Nat} (h1 : 2 ^ L ≤ n) (h2 : n < 2 ^ (L + 1))
    (h3 : 2 ^ Ld ≤ d) (h4 : d < 2 ^ (Ld + 1)) (h : L + a = Ld + 53 + b) :
    d * 2 ^ b * 2 ^ 52 < n * 2 ^ a ∧ n * 2 ^ a < d * 2 ^ b * 2 ^ 54 := by
  have pa : 0 < 2 ^ a := (by positivity)
  have pb : 0 < 2 ^ b := (by positivity)
  constructor
  · calc d * 2 ^ b * 2 ^ 52 < 2 ^ (Ld + 1) * 2 ^ b * 2 ^ 52 := by
          apply Nat.mul_lt_mul_of_pos_right _ (by norm_num)
          exact Nat.mul_lt_mul_of_pos_right h4 pb
      _ = 2 ^ L * 2 ^ a := by
          rw [← pow_add, ← pow_add, ← pow_add]
          congr 1
          omega
      _ ≤ n * 2 ^ a := Nat.mul_le_mul_right _ h1
  · calc n * 2 ^ a < 2 ^ (L + 1) * 2 ^ a := Nat.mul_lt_mul_of_pos_right h2 pa
      _ = 2 ^ Ld * 2 ^ b * 2 ^ 54 := by
          rw [← pow_add, ← pow_add, ← pow_add]
          congr 1
          omega
      _ ≤ d * 2 ^ b * 2 ^ 54 := by
          apply Nat.mul_le_mul_right
          exact Nat.mul_le_mul_right _ h3

/-- The shape of a rounded quotient: a scaled numerator and denominator whose quotient lies
in `[2 ^ 52, 2 ^ 53)`, and the rounding of that quotient to the nearest integer, ties to
even. -/
theorem roundNearestEven_eq {n d : Nat} (hn : n ≠ 0) (hd : d ≠ 0) :
    ∃ (num den : Nat) (e : Int), 0 < den ∧
      (n : ℚ) / d = (num : ℚ) / den * 2 ^ e ∧
      4503599627370496 * den ≤ num ∧ num < 9007199254740992 * den ∧
      roundNearestEven n d =
        if 2 * (num % den) < den ∨ (2 * (num % den) = den ∧ (num / den) % 2 = 0) then
          (num / den, e)
        else (num / den + 1, e) := by
  obtain ⟨hL1, hL2⟩ := ilog2_spec hn
  obtain ⟨hD1, hD2⟩ := ilog2_spec hd
  have hsum : ilog2 n + (-((ilog2 n : Int) - (ilog2 d : Int) - 53)).toNat =
      ilog2 d + 53 + ((ilog2 n : Int) - (ilog2 d : Int) - 53).toNat := by omega
  obtain ⟨hlo, hhi⟩ := scale_bounds hL1 hL2 hD1 hD2 hsum
  have hdq : (d : ℚ) ≠ 0 := by exact_mod_cast hd
  have pa : (2 : ℚ) ^ (-((ilog2 n : Int) - (ilog2 d : Int) - 53)).toNat ≠ 0 := by positivity
  have pb : (2 : ℚ) ^ ((ilog2 n : Int) - (ilog2 d : Int) - 53).toNat ≠ 0 := by positivity
  have hden : 0 < d * 2 ^ ((ilog2 n : Int) - (ilog2 d : Int) - 53).toNat :=
    Nat.mul_pos (Nat.pos_of_ne_zero hd) ((by positivity))
  by_cases hb : n * 2 ^ (-((ilog2 n : Int) - (ilog2 d : Int) - 53)).toNat <
      d * 2 ^ ((ilog2 n : Int) - (ilog2 d : Int) - 53).toNat * 2 ^ 53
  · refine ⟨n * 2 ^ (-((ilog2 n : Int) - (ilog2 d : Int) - 53)).toNat,
      d * 2 ^ ((ilog2 n : Int) - (ilog2 d : Int) - 53).toNat,
      (ilog2 n : Int) - (ilog2 d : Int) - 53, hden, ?_, ?_, ?_, ?_⟩
    · rw [zpow_two_split]
      push_cast
      field_simp
      ring
    · omega
    · omega
    · unfold roundNearestEven
      simp only [hn, if_false, hb, if_true]
  · refine ⟨n * 2 ^ (-((ilog2 n : Int) - (ilog2 d : Int) - 53)).toNat,
      2 * (d * 2 ^ ((ilog2 n : Int) - (ilog2 d : Int) - 53).toNat),
      (ilog2 n : Int) - (ilog2 d : Int) - 53 + 1, by omega, ?_, ?_, ?_, ?_⟩
    · rw [zpow_add₀ (by norm_num : (2 : ℚ) ≠ 0), zpow_two_split]
      push_cast
      field_simp
      ring
    · omega
    · omega
    · unfold roundNearestEven
      simp only [hn, if_false, hb, if_true]

/-- The rounded quotient `m * 2 ^ e` is one of the two neighbours `q * 2 ^ e` and
`(q + 1) * 2 ^ e` of `n / d` with `2 ^ 52 ≤ q < 2 ^ 53`, and the upper one only when `n / d`
is above the lower one. -/
theorem roundNearestEven_spec {n d : Nat} (hn : n ≠ 0) (hd : d ≠ 0) :
    ∃ q : Nat, 4503599627370496 ≤ q ∧ q < 9007199254740992 ∧
      (q : ℚ) * 2 ^ (roundNearestEven n d).2 ≤ (n : ℚ) / d ∧
      (n : ℚ) / d < ((q : ℚ) + 1) * 2 ^ (roundNearestEven n d).2 ∧
      ((roundNearestEven n d).1 = q ∨
        ((roundNearestEven n d).1 = q + 1 ∧
          (q : ℚ) * 2 ^ (roundNearestEven n d).2 < (n : ℚ) / d)) := by
  obtain ⟨num, den, e, hden, hval, hlo, hhi, heq⟩ := roundNearestEven_eq hn hd
  have he : (roundNearestEven n d).2 = e := by
    rw [heq]; split_ifs <;> rfl
  have hdenq : (0 : ℚ) < den := by exact_mod_cast hden
  have h2e : (0 : ℚ) < 2 ^ e := by positivity
  have hq1 : ((num / den : Nat) : ℚ) ≤ (num : ℚ) / den := by
    rw [le_div_iff₀ hdenq]
    exact_mod_cast Nat.div_mul_le_self num den
  have hq2 : (num : ℚ) / den < ((num / den : Nat) : ℚ) + 1 := by
    rw [div_lt_iff₀ hdenq]
    have := Nat.lt_div_mul_add hden (a := num)
    exact_mod_cast (by nlinarith : num < (num / den + 1) * den)
  refine ⟨num / den, ?_, ?_, ?_, ?_, ?_⟩
  · exact (Nat.le_div_iff_mul_le hden).2 hlo
  · exact (Nat.div_lt_iff_lt_mul hden).2 hhi
  · rw [he, hval]
    exact mul_le_mul_of_nonneg_right hq1 h2e.le
  · rw [he, hval]
    exact mul_lt_mul_of_pos_right hq2 h2e
  · rw [he, hval]
    by_cases hc : 2 * (num % den) < den ∨ (2 * (num % den) = den ∧ (num / den) % 2 = 0)
    · left; rw [heq, if_pos hc]
    · right
      rw [heq, if_neg hc]
      refine ⟨rfl, ?_⟩
      have hr : num % den ≠ 0 := by
        intro h0
        apply hc
        left
        omega
      have hlt : (num / den) * den < num := by
        have := Nat.div_add_mod num den
        have h3 : den * (num / den) = (num / den) * den := Nat.mul_comm _ _
        omega
      apply mul_lt_mul_of_pos_right _ h2e
      rw [lt_div_iff₀ hdenq]
      exact_mod_cast hlt

/-- Rounding does not cross a representable value: a quotient that is at most `M * 2 ^ E`
with `M ≤ 2 ^ 53` is rounded to at most `M * 2 ^ E`. -/
theorem roundNearestEven_le {n d : Nat} (hn : n ≠ 0) (hd : d ≠ 0) (M : Nat) (E : Int)
    (hM : M ≤ 9007199254740992) (h : (n : ℚ) / d ≤ (M : ℚ) * 2 ^ E) :
    ((roundNearestEven n d).1 : ℚ) * 2 ^ (roundNearestEven n d).2 ≤ (M : ℚ) * 2 ^ E := by
  obtain ⟨q, hq1, hq2, hlo, hhi, hm | ⟨hm, hlt⟩⟩ := roundNearestEven_spec hn hd
  · rw [hm]; exact le_trans hlo h
  · rw [hm]
    have h2e : (0 : ℚ) < 2 ^ (roundNearestEven n d).2 := by positivity
    have hqM : (q : ℚ) * 2 ^ (roundNearestEven n d).2 < (M : ℚ) * 2 ^ E := lt_of_lt_of_le hlt h
    rcases le_or_lt (roundNearestEven n d).2 E with hE | hE
    · obtain ⟨k, hk⟩ := Int.eq_ofNat_of_zero_le (show 0 ≤ E - (roundNearestEven n d).2 by omega)
      have hEk : (2 : ℚ) ^ E = 2 ^ k * 2 ^ (roundNearestEven n d).2 := by
        rw [← zpow_natCast, ← zpow_add₀ (by norm_num : (2 : ℚ) ≠ 0)]
        congr 1
        omega
      rw [hEk, ← mul_assoc] at hqM ⊢
      have h1 : (q : ℚ) < (M : ℚ) * 2 ^ k := lt_of_mul_lt_mul_right hqM h2e.le
      have h2 : q < M * 2 ^ k := by exact_mod_cast h1
      have h3 : ((q + 1 : Nat) : ℚ) ≤ ((M * 2 ^ k : Nat) : ℚ) := by exact_mod_cast h2
      push_cast at h3 ⊢
      exact mul_le_mul_of_nonneg_right h3 h2e.le
    · exfalso
      obtain ⟨k, hk⟩ := Int.eq_ofNat_of_zero_le (show 0 ≤ (roundNearestEven n d).2 - E - 1 by omega)
      have hEk : (2 : ℚ) ^ (roundNearestEven n d).2 = 2 ^ (k + 1) * 2 ^ E := by
        rw [← zpow_natCast, ← zpow_add₀ (by norm_num : (2 : ℚ) ≠ 0)]
        congr 1
        push_cast
        omega
      have h2E : (0 : ℚ) < 2 ^ E := by positivity
      rw [hEk, ← mul_assoc] at hqM
      have h1 : (q : ℚ) * 2 ^ (k + 1) < (M : ℚ) := lt_of_mul_lt_mul_right hqM h2E.le
      have h2 : q * 2 ^ (k + 1) < M := by exact_mod_cast h1
      have h3 : q * 2 ≤ q * 2 ^ (k + 1) := by
        apply Nat.mul_le_mul_left
        calc 2 = 2 ^ 1 := by norm_num
          _ ≤ 2 ^ (k + 1) := Nat.pow_le_pow_right (by norm_num) (by omega)
      omega

/-- The rounding of an integer of more than 53 bits. -/
theorem roundNearestEven_large {n i : Nat} (hL : ilog2 n = 53 + i) (h0 : n ≠ 0) :
    roundNearestEven n 1 =
      if 2 * (n % (2 * 2 ^ i)) < 2 * 2 ^ i ∨
          (2 * (n % (2 * 2 ^ i)) = 2 * 2 ^ i ∧ n / (2 * 2 ^ i) % 2 = 0) then
        (n / (2 * 2 ^ i), (i : Int) + 1)
      else (n / (2 * 2 ^ i) + 1, (i : Int) + 1) := by
  obtain ⟨h1, h2⟩ := ilog2_spec h0
  rw [hL] at h1 h2
  unfold roundNearestEven
  simp only [h0, if_false, hL, ilog2_one]
  have e1 : (-(((53 + i : Nat) : Int) - ((0 : Nat) : Int) - 53)).toNat = 0 := by omega
  have e2 : (((53 + i : Nat) : Int) - ((0 : Nat) : Int) - 53).toNat = i := by omega
  have e3 : ((53 + i : Nat) : Int) - ((0 : Nat) : Int) - 53 + 1 = (i : Int) + 1 := by omega
  simp only [e1, e2, e3, pow_zero, mul_one, one_mul]
  have hge : ¬ n < 2 ^ i * 2 ^ 53 := by
    rw [← Nat.pow_add, show i + 53 = 53 + i by omega]; omega
  simp only [hge, if_false]

/-- The exponent of a rounded non-zero integer. -/
theorem roundNearestEven_int_exp {n : Nat} (h0 : n ≠ 0) :
    (roundNearestEven n 1).2 = (ilog2 n : Int) - 52 := by
  by_cases h52 : ilog2 n ≤ 52
  · rw [roundNearestEven_small rfl h0 h52]
  · obtain ⟨i, hi⟩ : ∃ i, ilog2 n = 53 + i := ⟨ilog2 n - 53, by omega⟩
    rw [roundNearestEven_large hi h0, hi]
    split_ifs <;> simp only [] <;> omega

/-- A rounded non-zero integer lies in the binade of the integer. -/
theorem roundNearestEven_int_bounds {n : Nat} (h0 : n ≠ 0) :
    (roundNearestEven n 1).1 ≤ 9007199254740992 ∧
    (2 : ℚ) ^ ilog2 n ≤ ((roundNearestEven n 1).1 : ℚ) * 2 ^ (roundNearestEven n 1).2 ∧
    ((roundNearestEven n 1).1 : ℚ) * 2 ^ (roundNearestEven n 1).2 ≤ 2 ^ (ilog2 n + 1) := by
  obtain ⟨q, hq1, hq2, -, -, hm⟩ := roundNearestEven_spec h0 (one_ne_zero)
  have he := roundNearestEven_int_exp h0
  have h2e : (0 : ℚ) < 2 ^ (roundNearestEven n 1).2 := by positivity
  have hm1 : q ≤ (roundNearestEven n 1).1 ∧ (roundNearestEven n 1).1 ≤ q + 1 := by
    rcases hm with hm | ⟨hm, -⟩ <;> omega
  have hA : (2 : ℚ) ^ ilog2 n = 4503599627370496 * 2 ^ (roundNearestEven n 1).2 := by
    rw [he, show (4503599627370496 : ℚ) = 2 ^ (52 : Int) by norm_num,
      ← zpow_add₀ (by norm_num : (2 : ℚ) ≠ 0), ← zpow_natCast]
    congr 1; omega
  have hB : (2 : ℚ) ^ (ilog2 n + 1) = 9007199254740992 * 2 ^ (roundNearestEven n 1).2 := by
    rw [he, show (9007199254740992 : ℚ) = 2 ^ (53 : Int) by norm_num,
      ← zpow_add₀ (by norm_num : (2 : ℚ) ≠ 0), ← zpow_natCast]
    congr 1; push_cast; omega
  refine ⟨by omega, ?_, ?_⟩
  · rw [hA]
    apply mul_le_mul_of_nonneg_right _ h2e.le
    have : 4503599627370496 ≤ (roundNearestEven n 1).1 := by omega
    exact_mod_cast this
  · rw [hB]
    apply mul_le_mul_of_nonneg_right _ h2e.le
    have : (roundNearestEven n 1).1 ≤ 9007199254740992 := by omega
    exact_mod_cast this

theorem ilog2_mono {a b : Nat} (ha : a ≠ 0) (h : a ≤ b) : ilog2 a ≤ ilog2 b := by
  obtain ⟨h1, -⟩ := ilog2_spec ha
  obtain ⟨-, h2⟩ := ilog2_spec (show b ≠ 0 by omega)
  have h3 : 2 ^ ilog2 a < 2 ^ (ilog2 b + 1) := by omega
  have := (Nat.pow_lt_pow_iff_right (by norm_num : 1 < 2)).1 h3
  omega

/-- Rounding of integers is monotone. -/
theorem roundNearestEven_int_mono {a b : Nat} (h : a ≤ b) :
    ((roundNearestEven a 1).1 : ℚ) * 2 ^ (roundNearestEven a 1).2 ≤
      ((roundNearestEven b 1).1 : ℚ) * 2 ^ (roundNearestEven b 1).2 := by
  by_cases ha : a = 0
  · rw [ha, roundNearestEven_zero]
    simp only [Nat.cast_zero, zero_mul]
    positivity
  have hb : b ≠ 0 := by omega
  have hL := ilog2_mono ha h
  obtain ⟨-, -, ha2⟩ := roundNearestEven_int_bounds ha
  obtain ⟨-, hb1, -⟩ := roundNearestEven_int_bounds hb
  rcases Nat.lt_or_ge (ilog2 a) (ilog2 b) with hlt | hge
  · refine le_trans ha2 (le_trans ?_ hb1)
    exact pow_le_pow_right₀ (by norm_num) (by omega)
  · have hLL : ilog2 a = ilog2 b := by omega
    have hee : (roundNearestEven a 1).2 = (roundNearestEven b 1).2 := by
      rw [roundNearestEven_int_exp ha, roundNearestEven_int_exp hb, hLL]
    rw [hee]
    apply mul_le_mul_of_nonneg_right _ (by positivity)
    have hmm : (roundNearestEven a 1).1 ≤ (roundNearestEven b 1).1 := by
      by_cases h52 : ilog2 b ≤ 52
      · rw [roundNearestEven_small hLL ha h52, roundNearestEven_small rfl hb h52]
        exact Nat.mul_le_mul_right _ h
      · obtain ⟨i, hi⟩ : ∃ i, ilog2 b = 53 + i := ⟨ilog2 b - 53, by omega⟩
        rw [roundNearestEven_large (hLL.trans hi) ha, roundNearestEven_large hi hb]
        have hD : 0 < 2 * 2 ^ i := by positivity
        have hq : a / (2 * 2 ^ i) ≤ b / (2 * 2 ^ i) := Nat.div_le_div_right h
        have hda := Nat.div_add_mod a (2 * 2 ^ i)
        have hdb := Nat.div_add_mod b (2 * 2 ^ i)
        have hra := Nat.mod_lt a hD
        have hrb := Nat.mod_lt b hD
        generalize a / (2 * 2 ^ i) = qa at *
        generalize b / (2 * 2 ^ i) = qb at *
        generalize a % (2 * 2 ^ i) = ra at *
        generalize b % (2 * 2 ^ i) = rb at *
        generalize 2 * 2 ^ i = D at *
        rcases Nat.lt_or_ge qa qb with hql | hqg
        · split_ifs <;> simp only [] <;> omega
        · have hqq : qa = qb := by omega
          subst hqq
          have hrr : ra ≤ rb := by omega
          split_ifs with c1 c2 c2 <;> simp only [] <;> omega
    exact_mod_cast hmm

/-- Doubling an integer is exact: it only raises the exponent. -/
theorem roundNearestEven_double {n : Nat} (h0 : n ≠ 0) :
    roundNearestEven (2 * n) 1 = ((roundNearestEven n 1).1, (roundNearestEven n 1).2 + 1) := by
  obtain ⟨h1, h2⟩ := ilog2_spec h0
  have h20 : 2 * n ≠ 0 := by omega
  have hL : ilog2 (2 * n) = ilog2 n + 1 := by
    apply ilog2_unique
    · rw [Nat.pow_succ]; omega
    · have : 2 ^ (ilog2 n + 1 + 1) = 2 ^ (ilog2 n + 1) * 2 := pow_succ 2 (ilog2 n + 1)
      omega
  rcases Nat.lt_or_ge (ilog2 n) 52 with h51 | h52
  · rw [roundNearestEven_small hL h20 (by omega), roundNearestEven_small rfl h0 (by omega)]
    have hp : 2 ^ (52 - ilog2 n) = 2 * 2 ^ (52 - (ilog2 n + 1)) := by
      rw [← Nat.pow_succ']; congr 1; omega
    rw [hp]
    refine Prod.ext ?_ ?_
    · simp only []; ring
    · simp only []; push_cast; omega
  · rcases Nat.eq_or_lt_of_le h52 with h52 | h53
    · rw [roundNearestEven_small h52.symm h0 (le_refl _),
        roundNearestEven_large (i := 0) (by rw [hL]; omega) h20]
      simp only [pow_zero, mul_one, Nat.mul_mod_right, Nat.sub_self, mul_zero]
      rw [Nat.mul_div_cancel_left _ (by norm_num : 0 < 2)]
      simp
    · obtain ⟨i, hi⟩ : ∃ i, ilog2 n = 53 + i := ⟨ilog2 n - 53, by omega⟩
      rw [roundNearestEven_large hi h0,
        roundNearestEven_large (i := i + 1) (by rw [hL]; omega) h20]
      have hD : 2 * 2 ^ (i + 1) = 2 * (2 * 2 ^ i) := by rw [Nat.pow_succ]; ring
      rw [hD, Nat.mul_div_mul_left _ _ (by norm_num : 0 < 2), Nat.mul_mod_mul_left]
      by_cases c : 2 * (n % (2 * 2 ^ i)) < 2 * 2 ^ i ∨
          (2 * (n % (2 * 2 ^ i)) = 2 * 2 ^ i ∧ n / (2 * 2 ^ i) % 2 = 0)
      · have c2 : 2 * (2 * (n % (2 * 2 ^ i))) < 2 * (2 * 2 ^ i) ∨
            (2 * (2 * (n % (2 * 2 ^ i))) = 2 * (2 * 2 ^ i) ∧ n / (2 * 2 ^ i) % 2 = 0) := by
          omega
        rw [if_pos c, if_pos c2]
        refine Prod.ext rfl ?_
        simp only []; push_cast; ring
      · have c2 : ¬ (2 * (2 * (n % (2 * 2 ^ i))) < 2 * (2 * 2 ^ i) ∨
            (2 * (2 * (n % (2 * 2 ^ i))) = 2 * (2 * 2 ^ i) ∧ n / (2 * 2 ^ i) % 2 = 0)) := by
          omega
        rw [if_neg c, if_neg c2]
        refine Prod.ext rfl ?_
        simp only []; push_cast; ring

/-- A quotient of magnitudes that is at most `2 ^ E` is rounded to at most `2 ^ E`. -/
theorem float64_div_le (a b : float64) (ha : a.mant ≠ 0) (hb : b.mant ≠ 0) (E : Int)
    (h : (a.mant : ℚ) * 2 ^ a.exp ≤ 2 ^ E * ((b.mant : ℚ) * 2 ^ b.exp)) :
    ((float64.div a b).mant : ℚ) * 2 ^ (float64.div a b).exp ≤ 2 ^ E := by
  have hbq : (0 : ℚ) < b.mant := by exact_mod_cast Nat.pos_of_ne_zero hb
  have two : (2 : ℚ) ≠ 0 := by norm_num
  have h1 : (a.mant : ℚ) / b.mant ≤ ((1 : Nat) : ℚ) * 2 ^ (E + b.exp - a.exp) := by
    rw [div_le_iff₀ hbq, Nat.cast_one, one_mul, zpow_sub₀ two, zpow_add₀ two,
      div_mul_eq_mul_div, le_div_iff₀ (by positivity)]
    linarith
  have h2 := roundNearestEven_le ha hb 1 (E + b.exp - a.exp) (by norm_num) h1
  rw [Nat.cast_one, one_mul, zpow_sub₀ two, zpow_add₀ two, le_div_iff₀ (by positivity)] at h2
  show ((roundNearestEven a.mant b.mant).1 : ℚ) *
    2 ^ ((roundNearestEven a.mant b.mant).2 + a.exp - b.exp) ≤ 2 ^ E
  rw [zpow_sub₀ two, zpow_add₀ two, ← mul_div_assoc, div_le_iff₀ (by positivity)]
  linarith

/-- A quotient of non-zero values has a significand of 53 bits. -/
theorem float64_div_mant_ge (a b : float64) (ha : a.mant ≠ 0) (hb : b.mant ≠ 0) :
    4503599627370496 ≤ (float64.div a b).mant := by
  obtain ⟨q, hq1, -, -, -, hm⟩ := roundNearestEven_spec ha hb
  show 4503599627370496 ≤ (roundNearestEven a.mant b.mant).1
  rcases hm with hm | ⟨hm, -⟩ <;> omega

/-- A product with a factor of magnitude at most `2 ^ E` is rounded to at most `2 ^ E` times
the magnitude of the other factor. -/
theorem float64_mul_le (a b : float64) (hb : b.mant ≤ 9007199254740992) (E : Int)
    (h : (a.mant : ℚ) * 2 ^ a.exp ≤ 2 ^ E) :
    ((float64.mul a b).mant : ℚ) * 2 ^ (float64.mul a b).exp ≤
      2 ^ E * ((b.mant : ℚ) * 2 ^ b.exp) := by
  have two : (2 : ℚ) ≠ 0 := by norm_num
  show ((roundNearestEven (a.mant * b.mant) 1).1 : ℚ) *
    2 ^ ((roundNearestEven (a.mant * b.mant) 1).2 + a.exp + b.exp) ≤ _
  by_cases h0 : a.mant * b.mant = 0
  · rw [h0, roundNearestEven_zero]
    simp only [Nat.cast_zero, zero_mul]
    positivity
  · have hbq : (0 : ℚ) ≤ b.mant := by positivity
    have h1 : ((a.mant * b.mant : Nat) : ℚ) / ((1 : Nat) : ℚ) ≤
        (b.mant : ℚ) * 2 ^ (E - a.exp) := by
      rw [Nat.cast_one, div_one, zpow_sub₀ two, Nat.cast_mul, ← mul_div_assoc,
        le_div_iff₀ (by positivity)]
      nlinarith
    have h2 := roundNearestEven_le h0 one_ne_zero b.mant (E - a.exp) hb h1
    rw [zpow_sub₀ two, ← mul_div_assoc, le_div_iff₀ (by positivity)] at h2
    rw [zpow_add₀ two, zpow_add₀ two]
    have h3 : (0 : ℚ) < 2 ^ b.exp := by positivity
    nlinarith

/-- The magnitude of `float64(x)`, for comparison of two conversions. -/
theorem float64_ofInt64_mono {x y : Int} (hx : 0 ≤ x) (h : x ≤ y) :
    ((float64.ofInt64 x).mant : ℚ) * 2 ^ (float64.ofInt64 x).exp ≤
      ((float64.ofInt64 y).mant : ℚ) * 2 ^ (float64.ofInt64 y).exp :=
  roundNearestEven_int_mono (by omega)

theorem float64_ofInt64_double {x : Int} (hx : 0 < x) :
    ((float64.ofInt64 (2 * x)).mant : ℚ) * 2 ^ (float64.ofInt64 (2 * x)).exp =
      2 * (((float64.ofInt64 x).mant : ℚ) * 2 ^ (float64.ofInt64 x).exp) := by
  have h : (2 * x).natAbs = 2 * x.natAbs := by omega
  show ((roundNearestEven (2 * x).natAbs 1).1 : ℚ) * 2 ^ (roundNearestEven (2 * x).natAbs 1).2 =
    2 * (((roundNearestEven x.natAbs 1).1 : ℚ) * 2 ^ (roundNearestEven x.natAbs 1).2)
  rw [h, roundNearestEven_double (by omega)]
  simp only []
  rw [zpow_add₀ (by norm_num : (2 : ℚ) ≠ 0)]
  ring

theorem float64_ofInt64_mant_le (x : Int) : (float64.ofInt64 x).mant ≤ 9007199254740992 := by
  show (roundNearestEven x.natAbs 1).1 ≤ 9007199254740992
  by_cases h : x.natAbs = 0
  · rw [h, roundNearestEven_zero]; norm_num
  · exact (roundNearestEven_int_bounds h).1

/-- The weight for a remaining part `a` of a window of length `s`: positive and at most `1`,
and at most `1 / 2` when the remaining part is at most half of the window. -/
theorem float64_weight_bounds {a s : Int} (ha : 1 ≤ a) (has : a ≤ s) :
    (float64.div (float64.ofInt64 a) (float64.ofInt64 s)).neg = false ∧
    4503599627370496 ≤ (float64.div (float64.ofInt64 a) (float64.ofInt64 s)).mant ∧
    0 < (float64.div (float64.ofInt64 a) (float64.ofInt64 s)).toRat ∧
    (float64.div (float64.ofInt64 a) (float64.ofInt64 s)).toRat ≤ 1 ∧
    (2 * a ≤ s →
      ((float64.div (float64.ofInt64 a) (float64.ofInt64 s)).mant : ℚ) *
        2 ^ (float64.div (float64.ofInt64 a) (float64.ofInt64 s)).exp ≤ 2 ^ (-1 : Int)) := by
  have hma := float64_ofInt64_mant_ne_zero (show a ≠ 0 by omega)
  have hms := float64_ofInt64_mant_ne_zero (show s ≠ 0 by omega)
  have hneg : (float64.div (float64.ofInt64 a) (float64.ofInt64 s)).neg = false := by
    show xor (decide (a < 0)) (decide (s < 0)) = false
    rw [decide_eq_false (by omega), decide_eq_false (by omega)]
    rfl
  have hge := float64_div_mant_ge _ _ hma hms
  have hrat : (float64.div (float64.ofInt64 a) (float64.ofInt64 s)).toRat =
      ((float64.div (float64.ofInt64 a) (float64.ofInt64 s)).mant : ℚ) *
        2 ^ (float64.div (float64.ofInt64 a) (float64.ofInt64 s)).exp := by
    unfold float64.toRat
    rw [hneg]
    simp
  refine ⟨hneg, hge, ?_, ?_, ?_⟩
  · rw [hrat]
    have : (0 : ℚ) < (float64.div (float64.ofInt64 a) (float64.ofInt64 s)).mant := by
      exact_mod_cast (show 0 < (float64.div (float64.ofInt64 a) (float64.ofInt64 s)).mant by
        omega)
    positivity
  · rw [hrat]
    have := float64_div_le _ _ hma hms 0 (by
      rw [zpow_zero, one_mul]; exact float64_ofInt64_mono (by omega) has)
    simpa using this
  · intro h2
    refine float64_div_le _ _ hma hms (-1) ?_
    have h3 := float64_ofInt64_mono (show 0 ≤ 2 * a by omega) h2
    rw [float64_ofInt64_double (by omega)] at h3
    rw [show (2 : ℚ) ^ (-1 : Int) = 1 / 2 by norm_num]
    linarith

/-! ## The grid of window starts -/

/-- The instant `t.Truncate(d)` is on the grid, at most `t` and less than `d` before `t`. -/
theorem Truncate_spec (t : Time) (d : Int) (hd : 0 < d) :
    (t.Truncate d).unixNs ≤ t.unixNs ∧ t.unixNs < (t.Truncate d).unixNs + d ∧
      ((t.Truncate d).unixNs + unixToInternal) % d = 0 := by
  unfold Time.Truncate
  simp only [show ¬ d ≤ 0 by omega, if_false]
  have h1 := Int.emod_nonneg (t.unixNs + unixToInternal) (show d ≠ 0 by omega)
  have h2 := Int.emod_lt_of_pos (t.unixNs + unixToInternal) hd
  refine ⟨by omega, by omega, ?_⟩
  rw [show t.unixNs - (t.unixNs + unixToInternal) % d + unixToInternal =
    t.unixNs + unixToInternal - (t.unixNs + unixToInternal) % d by ring]
  exact Int.emod_eq_zero_of_dvd (Int.dvd_sub_of_emod_eq rfl)

/-- Two instants on the grid differ by a multiple of the window length. -/
theorem grid_diff {x y d : Int} (hx : (x + unixToInternal) % d = 0)
    (hy : (y + unixToInternal) % d = 0) : ∃ k : Int, x - y = d * k := by
  obtain ⟨a, ha⟩ := Int.dvd_of_emod_eq_zero hx
  obtain ⟨b, hb⟩ := Int.dvd_of_emod_eq_zero hy
  exact ⟨a - b, by rw [mul_sub, ← ha, ← hb]; ring⟩

theorem grid_le_of_lt {x y d : Int} (hd : 0 < d) (hx : (x + unixToInternal) % d = 0)
    (hy : (y + unixToInternal) % d = 0) (h : x < y + d) : x ≤ y := by
  obtain ⟨k, hk⟩ := grid_diff hx hy
  have hk1 : k < 1 := by
    by_contra hc
    have : d * 1 ≤ d * k := Int.mul_le_mul_of_nonneg_left (by omega) hd.le
    omega
  have : d * k ≤ d * 0 := Int.mul_le_mul_of_nonneg_left (by omega) hd.le
  omega

/-- The instant `t.Truncate(d)` is the greatest instant of the grid that is at most `t`. -/
theorem Truncate_greatest (t : Time) (d g : Int) (hd : 0 < d)
    (hg : (g + unixToInternal) % d = 0) (h : g ≤ t.unixNs) : g ≤ (t.Truncate d).unixNs := by
  obtain ⟨h1, h2, h3⟩ := Truncate_spec t d hd
  exact grid_le_of_lt hd hg h3 (by omega)

/-! ## The interpolation weight -/

/-- The weight at an instant inside the current window: the time elapsed is
`now - current.Start()`, and the weight is positive and at most `1`, and at most `1 / 2` from
the middle of the window on. -/
theorem weight_in_window {S : Type} (lim : Limiter S) (now : Time) (hsize : 0 < lim.size)
    (hsz : isInt64 lim.size) (h0 : 0 ≤ now.unixNs - lim.curr.Start.unixNs)
    (h1 : now.unixNs - lim.curr.Start.unixNs < lim.size) :
    now.Sub lim.curr.Start = now.unixNs - lim.curr.Start.unixNs ∧
    (lim.weight now).neg = false ∧ 4503599627370496 ≤ (lim.weight now).mant ∧
    0 < (lim.weight now).toRat ∧ (lim.weight now).toRat ≤ 1 ∧
    (lim.size ≤ 2 * (now.unixNs - lim.curr.Start.unixNs) →
      ((lim.weight now).mant : ℚ) * 2 ^ (lim.weight now).exp ≤ 2 ^ (-1 : Int)) := by
  have hsub : now.Sub lim.curr.Start = now.unixNs - lim.curr.Start.unixNs :=
    sat64_of_isInt64 (by unfold isInt64 at *; omega)
  have hw : lim.weight now = float64.div
      (float64.ofInt64 (lim.size - (now.unixNs - lim.curr.Start.unixNs)))
      (float64.ofInt64 lim.size) := by
    unfold Limiter.weight
    simp only [hsub]
    rw [wrap64_of_isInt64 (by unfold isInt64 at *; omega)]
  obtain ⟨b1, b2, b3, b4, b5⟩ := float64_weight_bounds
    (show 1 ≤ lim.size - (now.unixNs - lim.curr.Start.unixNs) by omega)
    (show lim.size - (now.unixNs - lim.curr.Start.unixNs) ≤ lim.size by omega)
  rw [hw]
  exact ⟨hsub, b1, b2, b3, b4, fun h => b5 (by omega)⟩

/-- After the rotation step the current window is the window of `now`, when the current
start was on the grid and not after `now`, and the window start of `now` fits `int64`
nanoseconds. -/
theorem advance_on_grid {S : Type} (lim : Limiter S) (now : Time) (hsize : 0 < lim.size)
    (hsz : isInt64 lim.size) (hs64 : isInt64 lim.curr.Start.unixNs)
    (hgrid : (lim.curr.Start.unixNs + unixToInternal) % lim.size = 0)
    (hnow : lim.curr.Start.unixNs ≤ now.unixNs)
    (hrep : (now.Truncate lim.size).unixNs ≤ 9223372036854775807) :
    ∃ lim1 : Limiter S, lim.advance now = some lim1 ∧ lim1.size = lim.size ∧
      lim1.limit = lim.limit ∧ lim1.curr.Start = now.Truncate lim.size := by
  obtain ⟨t1, t2, t3⟩ := Truncate_spec now lim.size hsize
  have hle := Truncate_greatest now lim.size _ hsize hgrid hnow
  by_cases hd : lim.diffSize now < 1
  · refine ⟨lim, advance_of_diffSize_lt lim now hsize.ne' hd, rfl, rfl, ?_⟩
    rw [diffSize_lt_one_iff lim now hsize] at hd
    have hlt : (now.Truncate lim.size).unixNs - lim.curr.Start.unixNs < lim.size := by
      unfold sat64 at hd
      unfold isInt64 at hsz
      split_ifs at hd <;> omega
    have := grid_le_of_lt hsize t3 hgrid (by omega)
    exact Time.ext (by omega)
  · refine ⟨_, advance_of_one_le_diffSize lim now hsize.ne' (by omega), rfl, rfl, ?_⟩
    rw [Window.Start_Reset, wrap64_of_isInt64 (by unfold isInt64 at *; omega)]

/-- C12, as amended: the range of the weight.  For every limiter state with an `int64`
`size > 0` whose current start is a multiple of `size` (an instant that `Truncate(size)`
leaves alone), and every `now` not earlier than that start whose window start is at most
`2^63 - 1` nanoseconds after the Unix epoch: the rotation step succeeds, and after it
`elapsed = now.Sub(current.Start())` satisfies `0 <= elapsed < size` and the weight
`float64(size - elapsed) / float64(size)` satisfies `0 < weight <= 1`; the weight is `1` when
`now` is itself a window start. -/
theorem C12_weight_range {S : Type} (lim : Limiter S) (now : Time) (hsize : 0 < lim.size)
    (hsz : isInt64 lim.size) (hs64 : isInt64 lim.curr.Start.unixNs)
    (hgrid : lim.curr.Start.Truncate lim.size = lim.curr.Start)
    (hnow : lim.curr.Start.unixNs ≤ now.unixNs)
    (hrep : (now.Truncate lim.size).unixNs ≤ 9223372036854775807) :
    (lim.advance now).isSome = true ∧
    ∀ lim1 : Limiter S, lim.advance now = some lim1 →
      0 ≤ now.Sub lim1.curr.Start ∧ now.Sub lim1.curr.Start < lim.size ∧
      0 < (lim1.weight now).toRat ∧ (lim1.weight now).toRat ≤ 1 ∧
      (now.Truncate lim.size = now → (lim1.weight now).toRat = 1) := by
  obtain ⟨l, ha, hl1, -, hl3⟩ := advance_on_grid lim now hsize hsz hs64
    ((Truncate_eq_self_iff _ _ hsize).1 hgrid) hnow hrep
  refine ⟨by rw [ha]; rfl, fun lim1 h1 => ?_⟩
  obtain rfl : l = lim1 := by
    rw [ha] at h1
    exact Option.some.inj h1
  obtain ⟨t1, t2, -⟩ := Truncate_spec now lim.size hsize
  obtain ⟨w1, -, -, w4, w5, -⟩ := weight_in_window l now (by rw [hl1]; exact hsize)
    (by rw [hl1]; exact hsz) (by rw [hl3]; omega) (by rw [hl3, hl1]; omega)
  refine ⟨by rw [w1, hl3]; omega, by rw [w1, hl3]; omega, w4, w5, fun hT => ?_⟩
  have hst : l.curr.Start = now := by rw [hl3, hT]
  have hw : l.weight now = float64.div (float64.ofInt64 l.size) (float64.ofInt64 l.size) := by
    unfold Limiter.weight
    simp only [hst, Time.Sub, sub_self]
    rw [show sat64 0 = 0 by decide, sub_zero,
      wrap64_of_isInt64 (by rw [hl1]; exact hsz)]
  rw [hw, float64_div_self _ (float64_ofInt64_mant_ne_zero (by rw [hl1]; omega))]
  exact float64_toRat_one

/-- Witness of C12: one second, and a call `0.25 s` into the second window after the
current one. -/
theorem C12_witness :
    ((⟨1000000000, 10, .local ⟨0, 7⟩, .local ⟨0, 0⟩⟩ : Limiter BlockingSynchronizer).advance
        ⟨2250000000⟩).isSome = true ∧
    ∀ lim1 : Limiter BlockingSynchronizer,
      (⟨1000000000, 10, .local ⟨0, 7⟩, .local ⟨0, 0⟩⟩ : Limiter BlockingSynchronizer).advance
        ⟨2250000000⟩ = some lim1 →
      0 ≤ (⟨2250000000⟩ : Time).Sub lim1.curr.Start ∧
      (⟨2250000000⟩ : Time).Sub lim1.curr.Start < 1000000000 ∧
      0 < (lim1.weight ⟨2250000000⟩).toRat ∧ (lim1.weight ⟨2250000000⟩).toRat ≤ 1 ∧
      ((⟨2250000000⟩ : Time).Truncate 1000000000 = ⟨2250000000⟩ →
        (lim1.weight ⟨2250000000⟩).toRat = 1) :=
  C12_weight_range
    (⟨1000000000, 10, .local ⟨0, 7⟩, .local ⟨0, 0⟩⟩ : Limiter BlockingSynchronizer)
    ⟨2250000000⟩ (by decide) (by decide) (by decide) (by decide) (by decide) (by decide)

/-- Counterexample to C12 as stated.  At the start of a window the weight is `1`, not less
than `1`: a fresh limiter of one second at the instant `0`, which is a multiple of the size.
Past the range of `UnixNano` the weight is negative: with a size of one nanosecond and
the current start `2^63 - 1`, at `now = 2^63` the weight is `-2^63`.  And the multiples of
the size have to be counted from Go's zero time, as `Truncate` does: a fresh limiter with a
window of one week has the current start `0`, and ten days later the call does not rotate
and the weight is `(7 - 10) / 7`, rounded, which is negative. -/
theorem C12_counterexample :
    (NewLimiter 1000000000 10 (.local NewLocalWindow) :
        Limiter BlockingSynchronizer).curr.Start.Truncate 1000000000 =
      (NewLimiter 1000000000 10 (.local NewLocalWindow) :
        Limiter BlockingSynchronizer).curr.Start ∧
    ((NewLimiter 1000000000 10 (.local NewLocalWindow) : Limiter BlockingSynchronizer).advance
        ⟨0⟩).map (fun l => l.weight ⟨0⟩) = some ⟨false, 4503599627370496, -52⟩ ∧
    (⟨false, 4503599627370496, -52⟩ : float64).toRat = 1 ∧
    (⟨9223372036854775807⟩ : Time).Truncate 1 = ⟨9223372036854775807⟩ ∧
    ((⟨1, 5, .local ⟨9223372036854775807, 0⟩, .local ⟨0, 0⟩⟩ :
        Limiter BlockingSynchronizer).advance ⟨9223372036854775808⟩).map
      (fun l => l.weight ⟨9223372036854775808⟩) = some ⟨true, 4503599627370496, 11⟩ ∧
    (⟨true, 4503599627370496, 11⟩ : float64).toRat = -9223372036854775808 ∧
    ((NewLimiter 604800000000000 10 (.local NewLocalWindow) :
        Limiter BlockingSynchronizer).advance ⟨864000000000000⟩).map
      (fun l => (l.curr.Start, l.weight ⟨864000000000000⟩)) =
        some (⟨0⟩, ⟨true, 7720456504063707, -54⟩) ∧
    (⟨true, 7720456504063707, -54⟩ : float64).toRat < 0 := by
  refine ⟨by decide, by set_option maxRecDepth 100000 in decide, ?_, by decide,
    by set_option maxRecDepth 100000 in decide, ?_,
    by set_option maxRecDepth 100000 in decide, ?_⟩
  · simp [float64.toRat]
    norm_num
  · simp [float64.toRat]
    norm_num
  · simp [float64.toRat]
    norm_num

/-! ## Ageing of the previous count -/

/-- Conversion of an `int64` of magnitude at most `2^53` to `float64` is exact. -/
theorem float64_ofInt64_exact {x : Int} (h : x.natAbs ≤ 9007199254740992) :
    ((float64.ofInt64 x).mant : ℚ) * 2 ^ (float64.ofInt64 x).exp = (x.natAbs : ℚ) := by
  show ((roundNearestEven x.natAbs 1).1 : ℚ) * 2 ^ (roundNearestEven x.natAbs 1).2 = _
  by_cases h0 : x.natAbs = 0
  · rw [h0, roundNearestEven_zero]; simp
  · obtain ⟨h1, h2⟩ := ilog2_spec h0
    by_cases h52 : ilog2 x.natAbs ≤ 52
    · rw [roundNearestEven_small rfl h0 h52]
      simp only []
      rw [show ((ilog2 x.natAbs : Int) - 52) = -((52 - ilog2 x.natAbs : Nat) : Int) by omega,
        zpow_neg, zpow_natCast]
      push_cast
      field_simp
    · have h3 : 2 ^ 53 ≤ 2 ^ ilog2 x.natAbs := Nat.pow_le_pow_right (by norm_num) (by omega)
      have h4 : x.natAbs = 4503599627370496 * 2 ^ 1 := by omega
      rw [h4, roundNearestEven_scaled (by norm_num) (by norm_num)]
      norm_num

/-- The magnitude of `float64(x)` is at most `2^63`. -/
theorem float64_ofInt64_le (x : Int) (hx : isInt64 x) :
    ((float64.ofInt64 x).mant : ℚ) * 2 ^ (float64.ofInt64 x).exp ≤ 9223372036854775808 := by
  show ((roundNearestEven x.natAbs 1).1 : ℚ) * 2 ^ (roundNearestEven x.natAbs 1).2 ≤ _
  by_cases h0 : x.natAbs = 0
  · rw [h0, roundNearestEven_zero]; simp
  · have h := roundNearestEven_le h0 one_ne_zero 1 63 (by norm_num) (by
      have : x.natAbs ≤ 9223372036854775808 := by unfold isInt64 at hx; omega
      norm_num
      exact this)
    norm_num at h
    exact h

/-- Conversion `int64(f)` of a value of magnitude below `2^63`. -/
theorem float64_toInt64_of_le (f : float64)
    (h : (f.mant : ℚ) * 2 ^ f.exp ≤ 4611686018427387904) :
    f.toInt64 = (if f.neg then -(f.truncAbs : Int) else (f.truncAbs : Int)) ∧
      ((f.truncAbs : Int) : ℚ) ≤ (f.mant : ℚ) * 2 ^ f.exp := by
  have hfl := float64_truncAbs_eq_floor f
  have h1 : ((f.truncAbs : Int) : ℚ) ≤ (f.mant : ℚ) * 2 ^ f.exp := by
    rw [hfl]; exact Int.floor_le _
  have h2 : (f.truncAbs : Int) ≤ 4611686018427387904 := by
    have : ((f.truncAbs : Int) : ℚ) ≤ ((4611686018427387904 : Int) : ℚ) := by
      push_cast; push_cast at h1; linarith
    exact_mod_cast this
  refine ⟨?_, h1⟩
  unfold float64.toInt64
  simp only []
  rw [if_pos]
  cases f.neg <;> simp only [Bool.false_eq_true, if_false, if_true] <;> omega

theorem float64_abs_toRat (f : float64) : |f.toRat| = (f.mant : ℚ) * 2 ^ f.exp := by
  have hpos : (0 : ℚ) ≤ (f.mant : ℚ) * 2 ^ f.exp := by positivity
  unfold float64.toRat
  cases f.neg
  · simp only [Bool.false_eq_true, if_false, one_mul]
    exact abs_of_nonneg hpos
  · simp only [if_true, neg_mul, one_mul, abs_neg]
    exact abs_of_nonneg hpos

/-- C13, as amended: ageing of the previous count within the current window.  Take a limiter
state with an `int64` `size > 0` and an `int64` previous count, and `now` in the second half
of the current window, `start + size / 2 <= now < start + size`, which for the window
starting at `t0 + size` is `t0 + 1.5 * size <= now < t0 + 2 * size`.  Then the call does
not rotate, the weight satisfies `0 < weight <= 1 / 2`, and the contribution
`int64(weight * float64(previous.Count()))` of the previous window has the sign of the
previous count and at most half its magnitude as converted to `float64`, which is the
magnitude itself up to `2^53`.  The contribution is not `0` in general. -/
theorem C13_previous_count_ages_linearly {S : Type} (lim : Limiter S) (now : Time)
    (hsize : 0 < lim.size) (hsz : isInt64 lim.size) (hp : isInt64 lim.prev.Count)
    (hhalf : lim.size ≤ 2 * (now.unixNs - lim.curr.Start.unixNs))
    (hend : now.unixNs - lim.curr.Start.unixNs < lim.size) :
    lim.advance now = some lim ∧
    0 < (lim.weight now).toRat ∧ (lim.weight now).toRat ≤ 1 / 2 ∧
    (0 ≤ lim.prev.Count → 0 ≤ lim.prevPart now) ∧
    (lim.prev.Count ≤ 0 → lim.prevPart now ≤ 0) ∧
    2 * ((lim.prevPart now).natAbs : ℚ) ≤ |(float64.ofInt64 lim.prev.Count).toRat| ∧
    (lim.prev.Count.natAbs ≤ 9007199254740992 →
      2 * (lim.prevPart now).natAbs ≤ lim.prev.Count.natAbs) := by
  obtain ⟨t1, t2, -⟩ := Truncate_spec now lim.size hsize
  have hadv : lim.advance now = some lim := by
    apply advance_of_diffSize_lt lim now hsize.ne'
    rw [diffSize_lt_one_iff lim now hsize,
      sat64_of_isInt64 (by unfold isInt64 at *; omega)]
    omega
  obtain ⟨-, w2, -, w4, -, w6⟩ := weight_in_window lim now hsize hsz (by omega) hend
  have hmag := w6 hhalf
  have hhalf2 : (2 : ℚ) ^ (-1 : Int) = 1 / 2 := by norm_num
  have hwrat : (lim.weight now).toRat =
      ((lim.weight now).mant : ℚ) * 2 ^ (lim.weight now).exp := by
    unfold float64.toRat
    rw [w2]
    simp
  have hmul := float64_mul_le (lim.weight now) (float64.ofInt64 lim.prev.Count)
    (float64_ofInt64_mant_le _) (-1) hmag
  have hP := float64_ofInt64_le lim.prev.Count hp
  rw [hhalf2] at hmul hmag
  obtain ⟨hto, htr⟩ := float64_toInt64_of_le
    (float64.mul (lim.weight now) (float64.ofInt64 lim.prev.Count)) (by linarith)
  have hneg : (float64.mul (lim.weight now) (float64.ofInt64 lim.prev.Count)).neg =
      decide (lim.prev.Count < 0) := by
    show xor (lim.weight now).neg (decide (lim.prev.Count < 0)) = _
    rw [w2]
    simp
  have hpp : lim.prevPart now =
      if lim.prev.Count < 0 then
        -((float64.mul (lim.weight now) (float64.ofInt64 lim.prev.Count)).truncAbs : Int)
      else ((float64.mul (lim.weight now) (float64.ofInt64 lim.prev.Count)).truncAbs : Int) := by
    unfold Limiter.prevPart
    rw [hto, hneg]
    by_cases hc : lim.prev.Count < 0 <;> simp [hc]
  have habs : (lim.prevPart now).natAbs =
      (float64.mul (lim.weight now) (float64.ofInt64 lim.prev.Count)).truncAbs := by
    rw [hpp]
    split_ifs <;> omega
  have hq : 2 * ((lim.prevPart now).natAbs : ℚ) ≤
      ((float64.ofInt64 lim.prev.Count).mant : ℚ) * 2 ^ (float64.ofInt64 lim.prev.Count).exp := by
    rw [habs]
    push_cast at htr
    linarith
  refine ⟨hadv, w4, by rw [hwrat]; exact hmag, ?_, ?_, ?_, ?_⟩
  · intro h0
    rw [hpp, if_neg (by omega)]
    omega
  · intro h0
    rw [hpp]
    split_ifs
    · omega
    · have hz : lim.prev.Count = 0 := by omega
      have := float64_mul_ofInt64_zero (lim.weight now)
      unfold Limiter.prevPart at hpp
      rw [hz] at hpp ⊢
      rw [if_neg (by omega)] at hpp
      rw [← hpp, this]
  · rw [float64_abs_toRat]
    exact hq
  · intro h53
    rw [float64_ofInt64_exact h53] at hq
    exact_mod_cast hq

/-- Witness of C13: one second, ten requests in the previous window, and a call `1.75 s`
after the start of the previous window. -/
theorem C13_witness :
    (⟨1000000000, 10, .local ⟨1000000000, 0⟩, .local ⟨0, 10⟩⟩ :
        Limiter BlockingSynchronizer).advance ⟨1750000000⟩ =
      some ⟨1000000000, 10, .local ⟨1000000000, 0⟩, .local ⟨0, 10⟩⟩ ∧
    2 * ((⟨1000000000, 10, .local ⟨1000000000, 0⟩, .local ⟨0, 10⟩⟩ :
        Limiter BlockingSynchronizer).prevPart ⟨1750000000⟩).natAbs ≤ (10 : Int).natAbs := by
  have h := C13_previous_count_ages_linearly
    (⟨1000000000, 10, .local ⟨1000000000, 0⟩, .local ⟨0, 10⟩⟩ : Limiter BlockingSynchronizer)
    ⟨1750000000⟩ (by decide) (by decide) (by decide) (by decide) (by decide)
  exact ⟨h.1, h.2.2.2.2.2.2 (by decide)⟩

/-- Counterexample to C13 as stated.  One second and a limit of ten: ten requests at `0`
fill the window of `t0 = 0`; at `now = t0 + 1.5 * size` the current window starts at
`t0 + size`, the contribution of the previous window is `5`, not `0`, and a request for `6`
is rejected. -/
theorem C13_counterexample :
    (((NewLimiter 1000000000 10 (.local NewLocalWindow) : Limiter BlockingSynchronizer).run
        ((List.replicate 10 (⟨0⟩ : Time)).map (fun t => (t, 1)))).bind
          (fun r => r.2.advance ⟨1500000000⟩)).map
      (fun l => (l.prev.Start, l.prev.Count, l.curr.Start, l.prevPart ⟨1500000000⟩)) =
        some (⟨0⟩, 10, ⟨1000000000⟩, 5) ∧
    ((NewLimiter 1000000000 10 (.local NewLocalWindow) : Limiter BlockingSynchronizer).run
        ((List.replicate 10 (⟨0⟩ : Time)).map (fun t => (t, 1)) ++
          [(⟨1500000000⟩, 6)])).map Prod.fst =
      some (List.replicate 10 true ++ [false]) := by
  refine ⟨by set_option maxRecDepth 100000 in decide,
    by set_option maxRecDepth 100000 in decide⟩

/-! ## Window starts along a sequence of calls -/

@[simp] theorem Window.Start_AddCount {S : Type} (w : Window S) (n : Int) :
    (w.AddCount n).Start = w.Start := by
  cases w <;> rfl

theorem handleSyncResponse_start {S : Type} (resp : SyncResponse) (w : SyncWindow S) :
    (SyncWindow.handleSyncResponse resp w).start = w.start := by
  unfold SyncWindow.handleSyncResponse
  split_ifs <;> rfl

/-- The blocking strategy acts on the window only through its callbacks. -/
theorem BlockingSynchronizer.viaCallbacks : Synchronizer.viaCallbacks BlockingSynchronizer := by
  intro W P s now makeReq handleResp w hh hw
  show P (BlockingSynchronizer.Sync s now makeReq handleResp w).2
  unfold BlockingSynchronizer.Sync
  split_ifs
  · exact hh _ _ hw
  · exact hw

/-- Synchronization keeps the start of a window. -/
theorem Window.Start_Sync {S : Type} [Synchronizer S] (hpar : Synchronizer.viaCallbacks S)
    (w : Window S) (now : Time) : (w.Sync now).Start = w.Start := by
  rcases w with w | w
  · rfl
  · simp only [Window.Sync, Window.Start_sync, SyncWindow.Sync]
    exact congrArg Time.mk (hpar (SyncWindow S) (fun x => x.start = w.start) w.syncer now
      SyncWindow.makeSyncRequest SyncWindow.handleSyncResponse w
      (fun resp w1 h => (handleSyncResponse_start resp w1).trans h) rfl)

/-- What a call `AllowN` keeps of the state after the rotation step. -/
theorem AllowN_frame {S : Type} [Synchronizer S] (hpar : Synchronizer.viaCallbacks S)
    (lim : Limiter S) (now : Time) (n : Int) (hsize : lim.size ≠ 0) :
    ∃ (b : Bool) (lim1 lim2 : Limiter S),
      lim.advance now = some lim1 ∧ lim.AllowN now n = some (b, lim2) ∧
      lim2.size = lim1.size ∧ lim2.limit = lim1.limit ∧ lim2.prev = lim1.prev ∧
      lim2.curr.Start = lim1.curr.Start := by
  obtain ⟨lim1, ha⟩ : ∃ lim1, lim.advance now = some lim1 := by
    rcases advance_cases lim now hsize with ⟨-, ha⟩ | ⟨-, ha⟩ <;> exact ⟨_, ha⟩
  rw [AllowN_of_advance lim lim1 now n ha]
  by_cases hgt : wrap64 (lim1.estimate now + n) > lim1.limit
  · exact ⟨false, lim1, ⟨lim1.size, lim1.limit, lim1.curr.Sync now, lim1.prev⟩, ha,
      by rw [if_pos hgt], rfl, rfl, rfl, Window.Start_Sync hpar _ _⟩
  · refine ⟨true, lim1, ⟨lim1.size, lim1.limit, (lim1.curr.AddCount n).Sync now, lim1.prev⟩,
      ha, by rw [if_neg hgt], rfl, rfl, rfl, ?_⟩
    show ((lim1.curr.AddCount n).Sync now).Start = _
    rw [Window.Start_Sync hpar, Window.Start_AddCount]

/-- A call rotates the windows only when the window start of `now` is at least one window
length after the current start. -/
theorem le_of_one_le_diffSize {S : Type} (lim : Limiter S) (now : Time) (hsize : 0 < lim.size)
    (hsz : isInt64 lim.size) (hd : 1 ≤ lim.diffSize now) :
    lim.size ≤ (now.Truncate lim.size).unixNs - lim.curr.Start.unixNs := by
  have h := (diffSize_lt_one_iff lim now hsize).not.1 (by omega)
  unfold sat64 at h
  unfold isInt64 at hsz
  split_ifs at h <;> omega

/-- The state after a rotation, with the starts that the windows store. -/
theorem advance_rotation {S : Type} (lim : Limiter S) (now : Time) (hsize : 0 < lim.size)
    (hsz : isInt64 lim.size) (hs0 : 0 ≤ lim.curr.Start.unixNs)
    (hrep : (now.Truncate lim.size).unixNs ≤ 9223372036854775807)
    (hd : 1 ≤ lim.diffSize now) :
    ∃ lim1 : Limiter S, lim.advance now = some lim1 ∧ lim1.size = lim.size ∧
      lim1.limit = lim.limit ∧ lim1.curr.Start = now.Truncate lim.size ∧
      lim1.curr.Count = 0 ∧
      lim1.prev.Start = (now.Truncate lim.size).Add (-lim.size) ∧
      lim1.prev.Count = (if lim.diffSize now = 1 then lim.curr.Count else 0) ∧
      lim.curr.Start.unixNs + lim.size ≤ (now.Truncate lim.size).unixNs := by
  have hle := le_of_one_le_diffSize lim now hsize hsz hd
  have hneg : wrap64 (-lim.size) = -lim.size :=
    wrap64_of_isInt64 (by unfold isInt64 at *; omega)
  refine ⟨_, advance_of_one_le_diffSize lim now hsize.ne' hd, rfl, rfl, ?_, ?_, ?_, ?_, by omega⟩
  · rw [Window.Start_Reset, wrap64_of_isInt64 (by unfold isInt64; omega)]
  · exact Window.Count_Reset _ _ _
  · rw [Window.Start_Reset, hneg]
    simp only [Time.Add]
    rw [wrap64_of_isInt64 (by unfold isInt64; omega)]
  · exact Window.Count_Reset _ _ _

/-- One call `AllowN` keeps the invariant of the window starts. -/
theorem startsInv_AllowN {S : Type} [Synchronizer S] (hpar : Synchronizer.viaCallbacks S)
    (size : Int) (last : Option Int) (lim : Limiter S)
    (now : Time) (n : Int) (hsize : 0 < size) (hsz : isInt64 size)
    (hinv : lim.startsInv size last)
    (hrep : (now.Truncate size).unixNs ≤ 9223372036854775807) :
    ∃ (b : Bool) (lim2 : Limiter S), lim.AllowN now n = some (b, lim2) ∧
      lim2.startsInv size (if lim.diffSize now ≥ 1 then some (lim.diffSize now) else last) ∧
      (1 ≤ lim.diffSize now → lim2.curr.Start = now.Truncate size) := by
  obtain ⟨hs, h0, hmax, hnone, hsome⟩ := hinv
  subst hs
  obtain ⟨b, lim1, lim2, ha, hall, f1, -, f3, f4⟩ := AllowN_frame hpar lim now n hsize.ne'
  refine ⟨b, lim2, hall, ?_, ?_⟩
  · by_cases hd : lim.diffSize now ≥ 1
    · obtain ⟨l, ha', r1, -, r3, -, r5, r6, r7⟩ :=
        advance_rotation lim now hsize hsz h0 hrep hd
      obtain rfl : l = lim1 := by rw [ha] at ha'; exact (Option.some.inj ha').symm
      rw [if_pos hd]
      refine ⟨by rw [f1, r1], by rw [f4, r3]; omega, by rw [f4, r3]; exact hrep,
        fun h => (by cases h), fun d hdeq => ?_⟩
      obtain rfl : lim.diffSize now = d := Option.some.inj hdeq
      refine ⟨hd, ?_, ?_, ?_⟩
      · rw [f3, r5, f4, r3]
        exact Time.ext (by simp [Time.Add])
      · intro h1
        rw [f3, r6, if_neg (by omega)]
      · rw [f4, r3, Truncate_eq_self_iff _ _ hsize]
        exact (Truncate_spec now lim.size hsize).2.2
    · have hl : lim1 = lim := by
        rw [advance_of_diffSize_lt lim now hsize.ne' (by omega)] at ha
        exact (Option.some.inj ha).symm
      subst hl
      rw [if_neg hd]
      refine ⟨f1, by rw [f4]; exact h0, by rw [f4]; exact hmax,
        fun h => by rw [f4]; exact hnone h, fun d hdeq => ?_⟩
      obtain ⟨i1, i2, i3, i4⟩ := hsome d hdeq
      exact ⟨i1, by rw [f3, f4]; exact i2, by rw [f3]; exact i3, by rw [f4]; exact i4⟩
  · intro hd
    obtain ⟨l, ha', -, -, r3, -⟩ := advance_rotation lim now hsize hsz h0 hrep hd
    obtain rfl : l = lim1 := by rw [ha] at ha'; exact (Option.some.inj ha').symm
    rw [f4, r3]

/-- A sequence of calls keeps the invariant of the window starts, and does not panic. -/
theorem startsInv_exec {S : Type} [Synchronizer S] (hpar : Synchronizer.viaCallbacks S)
    (size : Int) (hsize : 0 < size) (hsz : isInt64 size) (calls : List Call) :
    ∀ (lim : Limiter S) (last : Option Int), lim.startsInv size last →
      (∀ now n, Call.AllowN now n ∈ calls →
        (now.Truncate size).unixNs ≤ 9223372036854775807) →
      ∃ (last1 : Option Int) (lim1 : Limiter S),
        lim.exec last calls = some (last1, lim1) ∧ lim1.startsInv size last1 := by
  induction calls with
  | nil => intro lim last h _; exact ⟨last, lim, rfl, h⟩
  | cons c rest ih =>
    intro lim last hinv hrep
    cases c with
    | AllowN now n =>
      obtain ⟨b, lim2, hall, hinv2, -⟩ := startsInv_AllowN hpar size last lim now n hsize hsz hinv
        (hrep now n (List.mem_cons_self _ _))
      obtain ⟨last1, lim1, he, hi⟩ := ih lim2 _ hinv2
        (fun t m hm => hrep t m (List.mem_cons_of_mem _ hm))
      refine ⟨last1, lim1, ?_, hi⟩
      simp only [Limiter.exec, hall]
      exact he
    | SetLimit newLimit =>
      obtain ⟨last1, lim1, he, hi⟩ := ih (lim.SetLimit newLimit) last hinv
        (fun t m hm => hrep t m (List.mem_cons_of_mem _ hm))
      exact ⟨last1, lim1, by simp only [Limiter.exec]; exact he, hi⟩

/-- A fresh limiter satisfies the invariant of the window starts. -/
theorem startsInv_NewLimiter {S : Type} [Synchronizer S] (size limit : Int) (w : Window S)
    (hw : w = .local NewLocalWindow ∨
      ∃ key syncer, w = .sync (NewSyncWindow key syncer)) :
    (NewLimiter size limit w).startsInv size none := by
  have hst : (NewLimiter size limit w).curr.Start = Time.Unix 0 0 := by
    rcases hw with rfl | ⟨key, syncer, rfl⟩ <;> rfl
  refine ⟨rfl, by rw [hst]; decide, by rw [hst]; decide, fun _ => hst, fun d h => by cases h⟩

/-! ## Invariants of the window starts -/

/-- C16, as amended: the adjacency invariant.  Take a freshly created limiter with an
`int64` `size > 0`, its current window a LocalWindow or a SyncWindow over any synchronizer
(which acts on the window only through its callbacks), and a sequence of `AllowN` and
`SetLimit` calls in which the window start `now.Truncate(size)` of every `AllowN` call is at
most `2^63 - 1` nanoseconds after the Unix epoch.  The sequence does not panic, and if at least one call has rotated the windows,
then in the resulting state `previous.Start() + size == current.Start()`, and
`previous.Count()` is `0` when the last rotation had `diffSize > 1`, that is, skipped more
than one window. -/
theorem C16_adjacent_windows {S : Type} [Synchronizer S]
    (hpar : Synchronizer.viaCallbacks S) (size limit : Int) (w : Window S)
    (calls : List Call)
    (hw : w = .local NewLocalWindow ∨ ∃ key syncer, w = .sync (NewSyncWindow key syncer))
    (hsize : 0 < size) (hsz : isInt64 size)
    (hrep : ∀ now n, Call.AllowN now n ∈ calls →
      (now.Truncate size).unixNs ≤ 9223372036854775807) :
    ((NewLimiter size limit w).exec none calls).isSome = true ∧
    ∀ (last : Option Int) (lim : Limiter S),
      (NewLimiter size limit w).exec none calls = some (last, lim) →
      ∀ d, last = some d →
        lim.prev.Start.Add size = lim.curr.Start ∧ (1 < d → lim.prev.Count = 0) := by
  obtain ⟨last1, lim1, he, hi⟩ := startsInv_exec hpar size hsize hsz calls _ none
    (startsInv_NewLimiter size limit w hw) hrep
  refine ⟨by rw [he]; rfl, fun last lim h d hd => ?_⟩
  rw [he] at h
  obtain ⟨rfl, rfl⟩ := Prod.mk.inj (Option.some.inj h)
  obtain ⟨-, h2, h3, -⟩ := hi.2.2.2.2 d hd
  exact ⟨h2, h3⟩

/-- Witness of C16: one second; a call in the first window, a change of the limit, and a
call in the fourth window. -/
theorem C16_witness :
    ((NewLimiter 1000000000 10 (.local NewLocalWindow) : Limiter BlockingSynchronizer).exec
        none [.AllowN ⟨0⟩ 1, .SetLimit 5, .AllowN ⟨3500000000⟩ 1]).isSome = true ∧
    ∀ (last : Option Int) (lim : Limiter BlockingSynchronizer),
      (NewLimiter 1000000000 10 (.local NewLocalWindow) : Limiter BlockingSynchronizer).exec
        none [.AllowN ⟨0⟩ 1, .SetLimit 5, .AllowN ⟨3500000000⟩ 1] = some (last, lim) →
      ∀ d, last = some d →
        lim.prev.Start.Add 1000000000 = lim.curr.Start ∧ (1 < d → lim.prev.Count = 0) :=
  C16_adjacent_windows BlockingSynchronizer.viaCallbacks 1000000000 10
    (.local NewLocalWindow)
    [.AllowN ⟨0⟩ 1, .SetLimit 5, .AllowN ⟨3500000000⟩ 1] (Or.inl rfl) (by decide) (by decide)
    (by
      intro now n h
      simp only [List.mem_cons, Call.AllowN.injEq, List.mem_singleton, reduceCtorEq,
        false_or, List.not_mem_nil, or_false] at h
      rcases h with ⟨rfl, -⟩ | ⟨rfl, -⟩ <;> decide)

/-- Counterexample to C16 as stated: a size of one nanosecond and one call at `2^63`
nanoseconds after the Unix epoch.  The call rotates the windows; the previous window then
starts at `2^63 - 1` and the current one at `-2^63`, the `UnixNano` of `2^63`, so that
`previous.Start() + size` is not `current.Start()`. -/
theorem C16_counterexample :
    ((NewLimiter 1 5 (.local NewLocalWindow) : Limiter BlockingSynchronizer).exec none
        [.AllowN ⟨9223372036854775808⟩ 1]).map
      (fun r => (r.1, r.2.prev.Start.Add 1, r.2.curr.Start)) =
    some (some 9223372036854775807, ⟨9223372036854775808⟩, ⟨-9223372036854775808⟩) := by
  set_option maxRecDepth 100000 in decide

/-- C17, as amended: alignment of the window starts.  Take a freshly created limiter with an
`int64` `size > 0`, its current window a LocalWindow or a SyncWindow over any synchronizer
(which acts on the window only through its callbacks), and a sequence of calls in which the window start
`now.Truncate(size)` of every `AllowN` call is at most `2^63 - 1` nanoseconds after the Unix
epoch.  The sequence does not panic.  In the resulting state the current start is the Unix epoch as
long as no call has rotated the windows, and after a rotation it is a multiple of `size`
counted from Go's zero time, an instant that `Truncate(size)` leaves alone.  A further call
`AllowN(now, n)` that rotates the windows, with the window start of `now` at most `2^63 - 1`
nanoseconds after the Unix epoch, leaves `current.Start() = now.Truncate(size)`, the
greatest such multiple that is not after `now`, so that
`current.Start() <= now < current.Start() + size`. -/
theorem C17_window_start_alignment {S : Type} [Synchronizer S]
    (hpar : Synchronizer.viaCallbacks S) (size limit : Int) (w : Window S)
    (calls : List Call)
    (hw : w = .local NewLocalWindow ∨ ∃ key syncer, w = .sync (NewSyncWindow key syncer))
    (hsize : 0 < size) (hsz : isInt64 size)
    (hrep : ∀ now n, Call.AllowN now n ∈ calls →
      (now.Truncate size).unixNs ≤ 9223372036854775807) :
    ((NewLimiter size limit w).exec none calls).isSome = true ∧
    ∀ (last : Option Int) (lim : Limiter S),
      (NewLimiter size limit w).exec none calls = some (last, lim) →
      (last = none → lim.curr.Start = Time.Unix 0 0) ∧
      (last ≠ none → lim.curr.Start.Truncate size = lim.curr.Start) ∧
      ∀ (now : Time) (n : Int), 1 ≤ lim.diffSize now →
        (now.Truncate size).unixNs ≤ 9223372036854775807 →
        ∃ (b : Bool) (lim2 : Limiter S),
          lim.AllowN now n = some (b, lim2) ∧ lim2.curr.Start = now.Truncate size ∧
          lim2.curr.Start.unixNs ≤ now.unixNs ∧ now.unixNs < lim2.curr.Start.unixNs + size ∧
          ∀ g : Time, g.Truncate size = g → g.unixNs ≤ now.unixNs →
            g.unixNs ≤ lim2.curr.Start.unixNs := by
  obtain ⟨last1, lim1, he, hi⟩ := startsInv_exec hpar size hsize hsz calls _ none
    (startsInv_NewLimiter size limit w hw) hrep
  refine ⟨by rw [he]; rfl, fun last lim h => ?_⟩
  rw [he] at h
  obtain ⟨rfl, rfl⟩ := Prod.mk.inj (Option.some.inj h)
  refine ⟨hi.2.2.2.1, fun hne => ?_, fun now n hd hr => ?_⟩
  · cases hl : last1 with
    | none => exact absurd hl hne
    | some d => exact (hi.2.2.2.2 d hl).2.2.2
  · obtain ⟨b, lim2, hall, -, hst⟩ :=
      startsInv_AllowN hpar size last1 lim1 now n hsize hsz hi hr
    obtain ⟨t1, t2, -⟩ := Truncate_spec now size hsize
    refine ⟨b, lim2, hall, hst hd, by rw [hst hd]; exact t1, by rw [hst hd]; exact t2,
      fun g hg hle => ?_⟩
    rw [hst hd]
    exact Truncate_greatest now size g.unixNs hsize
      ((Truncate_eq_self_iff g size hsize).1 hg) hle

/-- Witness of C17: one second; a call in the first window and a call in the fourth. -/
theorem C17_witness :
    ((NewLimiter 1000000000 10 (.local NewLocalWindow) : Limiter BlockingSynchronizer).exec
        none [.AllowN ⟨0⟩ 1, .AllowN ⟨3500000000⟩ 1]).map (fun r => r.2.curr.Start) =
      some ⟨3000000000⟩ ∧
    (⟨3000000000⟩ : Time).Truncate 1000000000 = ⟨3000000000⟩ := by
  have h := C17_window_start_alignment BlockingSynchronizer.viaCallbacks 1000000000 10
    (.local NewLocalWindow)
    [.AllowN ⟨0⟩ 1, .AllowN ⟨3500000000⟩ 1] (Or.inl rfl) (by decide) (by decide)
    (by
      intro now n h
      simp only [List.mem_cons, Call.AllowN.injEq, List.mem_singleton, reduceCtorEq,
        false_or, List.not_mem_nil, or_false] at h
      rcases h with ⟨rfl, -⟩ | ⟨rfl, -⟩ <;> decide)
  have he : (NewLimiter 1000000000 10 (.local NewLocalWindow) :
      Limiter BlockingSynchronizer).exec none [.AllowN ⟨0⟩ 1, .AllowN ⟨3500000000⟩ 1] =
      some (some 3, ⟨1000000000, 10, .local ⟨3000000000, 1⟩, .local ⟨2000000000, 0⟩⟩) := by
    set_option maxRecDepth 100000 in rfl
  refine ⟨by rw [he]; rfl, ?_⟩
  exact (h.2 _ _ he).2.1 (by decide)

/-- Counterexample to C17 as stated.  A window of one week: the fresh limiter has the
current start `0`, the Unix epoch, a Thursday; a call two weeks later rotates the windows
and leaves the current start at day 11, a Monday, since `Truncate` counts from Go's zero
time; the two starts are multiples of the size relative to no common epoch.  And with a size
of one nanosecond, after a call at `now = 2^63` the current start is `-2^63`, and
`now < current.Start() + size` fails. -/
theorem C17_counterexample :
    (NewLimiter 604800000000000 10 (.local NewLocalWindow) :
        Limiter BlockingSynchronizer).curr.Start = ⟨0⟩ ∧
    ((NewLimiter 604800000000000 10 (.local NewLocalWindow) :
        Limiter BlockingSynchronizer).exec none [.AllowN ⟨1209600000000000⟩ 1]).map
      (fun r => r.2.curr.Start) = some ⟨950400000000000⟩ ∧
    (∀ E : Int, ¬ ((0 - E) % 604800000000000 = 0 ∧
      (950400000000000 - E) % 604800000000000 = 0)) ∧
    ((NewLimiter 1 5 (.local NewLocalWindow) : Limiter BlockingSynchronizer).exec none
        [.AllowN ⟨9223372036854775808⟩ 1]).map (fun r => r.2.curr.Start) =
      some ⟨-9223372036854775808⟩ := by
  refine ⟨by decide, by set_option maxRecDepth 100000 in decide, fun E h => by omega,
    by set_option maxRecDepth 100000 in decide⟩

/-! ## Counts within the limit -/

theorem float64_toInt64_of_fits (f : float64) (h : isInt64 f.trunc) : f.toInt64 = f.trunc := by
  unfold float64.toInt64
  unfold float64.trunc isInt64 at h
  simp only []
  rw [if_pos h]
  rfl

/-- The contribution of a previous count that is not negative is not negative, when the
remaining part `size - elapsed` of the window is positive and nothing overflows. -/
theorem prevPart_nonneg {S : Type} (lim : Limiter S) (now : Time) (hsize : 0 < lim.size)
    (h3 : isInt64 (now.unixNs - lim.curr.Start.unixNs))
    (h4 : isInt64 (lim.size - (now.unixNs - lim.curr.Start.unixNs)))
    (h5 : isInt64 (float64.mul (lim.weight now) (float64.ofInt64 lim.prev.Count)).trunc)
    (ha : now.unixNs - lim.curr.Start.unixNs < lim.size) (hp : 0 ≤ lim.prev.Count) :
    0 ≤ lim.prevPart now := by
  unfold Limiter.prevPart
  rw [float64_toInt64_of_fits _ h5]
  have hneg : (float64.mul (lim.weight now) (float64.ofInt64 lim.prev.Count)).neg = false := by
    unfold Limiter.weight
    simp only [Time.Sub]
    rw [sat64_of_isInt64 h3, wrap64_of_isInt64 h4]
    show xor (xor (decide (lim.size - (now.unixNs - lim.curr.Start.unixNs) < 0))
      (decide (lim.size < 0))) (decide (lim.prev.Count < 0)) = false
    rw [decide_eq_false (by omega), decide_eq_false (by omega), decide_eq_false (by omega)]
    rfl
  unfold float64.trunc
  rw [hneg]
  simp

/-- What `Limiter.noOverflow` says, as propositions. -/
theorem noOverflow_spec {S : Type} (lim lim1 : Limiter S) (now : Time) (n : Int)
    (h : lim.noOverflow now n = true) (ha : lim.advance now = some lim1) :
    (1 ≤ lim.diffSize now → isInt64 (now.Truncate lim.size).unixNs ∧
      isInt64 ((now.Truncate lim.size).unixNs - lim.size)) ∧
    isInt64 ((now.Truncate lim.size).unixNs - lim.curr.Start.unixNs) ∧
    isInt64 (now.unixNs - lim1.curr.Start.unixNs) ∧
    isInt64 (lim1.size - (now.unixNs - lim1.curr.Start.unixNs)) ∧
    isInt64 (float64.mul (lim1.weight now) (float64.ofInt64 lim1.prev.Count)).trunc ∧
    isInt64 (lim1.prevPart now + lim1.curr.Count) ∧
    isInt64 (lim1.estimate now + n) := by
  unfold Limiter.noOverflow at h
  rw [ha] at h
  simp only [Bool.and_eq_true, Bool.or_eq_true, decide_eq_true_eq] at h
  obtain ⟨⟨h1, h2⟩, ⟨⟨⟨h3, h4⟩, h5⟩, h6⟩, h7⟩ := h
  refine ⟨fun hd => ?_, h2, h3, h4, h5, h6, h7⟩
  rcases h1 with h1 | h1
  · omega
  · exact h1

/-- One call `AllowN(now, n)` with `n ≥ 0` and without overflow keeps the invariant of the
counts, and the current count is the sum of what was accepted since the last rotation. -/
theorem countsInv_AllowN {S : Type} [Synchronizer S] (size limit : Int) (lim : Limiter S)
    (now : Time) (n : Int) (hsize : 0 < size) (hinv : lim.countsInv size limit)
    (hn : 0 ≤ n) (hno : lim.noOverflow now n = true) :
    ∃ (b : Bool) (lim2 : Limiter S), lim.AllowN now n = some (b, lim2) ∧
      lim2.countsInv size limit ∧
      lim2.curr.Count =
        (if lim.diffSize now ≥ 1 then 0 else lim.curr.Count) + (if b then n else 0) := by
  obtain ⟨hs, hl, s, c, ps, pc, hc, hp, hpc0, hpc1, hc0, hc1, hreg⟩ := hinv
  subst hs
  subst hl
  obtain ⟨t1, t2, t3⟩ := Truncate_spec now lim.size hsize
  -- the state after the rotation step satisfies the invariant, with a positive remainder
  obtain ⟨lim1, ha, s1, c1, ps1, pc1, e1, e2, e3, e4, q1, q2, q3, q4, q5, q6, q7⟩ :
      ∃ (lim1 : Limiter S), lim.advance now = some lim1 ∧ ∃ s1 c1 ps1 pc1 : Int,
        lim1.size = lim.size ∧ lim1.limit = lim.limit ∧
        lim1.curr = .local ⟨s1, c1⟩ ∧ lim1.prev = .local ⟨ps1, pc1⟩ ∧
        0 ≤ pc1 ∧ pc1 ≤ lim.limit ∧ 0 ≤ c1 ∧ c1 ≤ lim.limit ∧
        ((s1 = 0 ∧ pc1 = 0) ∨ (s1 + unixToInternal) % lim.size = 0) ∧
        (pc1 = 0 ∨ now.unixNs - s1 < lim.size) ∧
        c1 = (if lim.diffSize now ≥ 1 then 0 else lim.curr.Count) := by
    rcases advance_cases lim now hsize.ne' with ⟨hd, ha⟩ | ⟨hd, ha⟩
    · obtain ⟨-, n2, -⟩ := noOverflow_spec lim lim now n hno ha
      refine ⟨lim, ha, s, c, ps, pc, rfl, rfl, hc, hp, hpc0, hpc1, hc0, hc1, hreg, ?_, ?_⟩
      · rcases hreg with ⟨-, h0⟩ | hg
        · exact Or.inl h0
        · right
          rw [diffSize_lt_one_iff lim now hsize, sat64_of_isInt64 n2] at hd
          rw [hc, Window.Start_local] at hd
          have := grid_le_of_lt hsize t3 hg (by simp only [] at hd; omega)
          omega
      · rw [if_neg (by omega), hc]; rfl
    · obtain ⟨n1, -⟩ := noOverflow_spec lim _ now n hno ha
      obtain ⟨n1a, n1b⟩ := n1 hd
      refine ⟨_, ha, (now.Truncate lim.size).unixNs, 0,
        ((now.Truncate lim.size).Add (wrap64 (-lim.size))).UnixNano,
        (if lim.diffSize now = 1 then lim.curr.Count else 0), rfl, rfl, ?_, ?_, ?_, ?_,
        le_refl _, hc0.trans hc1, Or.inr t3, Or.inr (by omega), by rw [if_pos hd]⟩
      · rw [hc]
        show Window.local ⟨wrap64 (now.Truncate lim.size).unixNs, 0⟩ = _
        rw [wrap64_of_isInt64 n1a]
      · rw [hp]; rfl
      · split_ifs
        · rw [hc]; exact hc0
        · exact le_refl _
      · split_ifs
        · rw [hc]; exact hc1
        · exact hc0.trans hc1
  obtain ⟨-, -, n3, n4, n5, n6, n7⟩ := noOverflow_spec lim lim1 now n hno ha
  have hst : lim1.curr.Start.unixNs = s1 := by rw [e3, Window.Start_local]
  have hcnt : lim1.curr.Count = c1 := by rw [e3]; rfl
  have hpcnt : lim1.prev.Count = pc1 := by rw [e4]; rfl
  have hpp : 0 ≤ lim1.prevPart now := by
    rcases q6 with h0 | hlt
    · rw [prevPart_of_prev_count_zero lim1 now (by rw [hpcnt, h0])]
    · exact prevPart_nonneg lim1 now (by rw [e1]; exact hsize) n3 n4 n5
        (by rw [hst, e1]; exact hlt) (by rw [hpcnt]; exact q1)
  have hest : lim1.estimate now = lim1.prevPart now + c1 := by
    unfold Limiter.estimate
    rw [wrap64_of_isInt64 n6, hcnt]
  rw [AllowN_of_advance lim lim1 now n ha, wrap64_of_isInt64 n7, hest, e2, e3]
  by_cases hgt : lim1.prevPart now + c1 + n > lim.limit
  · rw [if_pos hgt]
    refine ⟨false, _, rfl, ⟨e1, rfl, s1, c1, ps1, pc1, rfl, e4, q1, q2, q3, q4, q5⟩, ?_⟩
    simp only [Window.Sync_local, Window.Count_local, Bool.false_eq_true, if_false, add_zero]
    exact q7
  · rw [if_neg hgt]
    have hw : wrap64 (c1 + n) = c1 + n := by
      apply wrap64_of_isInt64
      have := n7.2
      rw [hest] at this
      unfold isInt64 at *
      omega
    refine ⟨true, _, rfl, ⟨e1, rfl, s1, c1 + n, ps1, pc1, ?_, e4, q1, q2, by omega, by omega,
      q5⟩, ?_⟩
    · simp only [Window.AddCount_local, Window.Sync_local, hw]
    · simp only [Window.AddCount_local, Window.Sync_local, Window.Count_local, hw, if_true]
      rw [q7]

/-- A sequence of calls with `n ≥ 0` and without overflow keeps the invariant of the counts
and does not panic, and the current count is the sum of what was accepted since the last
rotation. -/
theorem countsInv_run {S : Type} [Synchronizer S] (size limit : Int) (hsize : 0 < size)
    (calls : List (Time × Int)) :
    ∀ lim : Limiter S, lim.countsInv size limit → (∀ c ∈ calls, 0 ≤ c.2) →
      lim.runNoOverflow calls = true →
      ∃ (bs : List Bool) (lim1 : Limiter S), lim.run calls = some (bs, lim1) ∧
        lim1.countsInv size limit ∧
        lim.acceptedInWindow lim.curr.Count calls = some lim1.curr.Count := by
  induction calls with
  | nil => intro lim h _ _; exact ⟨[], lim, rfl, h, rfl⟩
  | cons c rest ih =>
    intro lim hinv hn hno
    obtain ⟨now, n⟩ := c
    simp only [Limiter.runNoOverflow, Bool.and_eq_true] at hno
    obtain ⟨b, lim2, hall, hinv2, hcnt⟩ := countsInv_AllowN size limit lim now n hsize hinv
      (hn (now, n) (List.mem_cons_self _ _)) hno.1
    have hno2 : lim2.runNoOverflow rest = true := by
      have := hno.2
      rw [hall] at this
      exact this
    obtain ⟨bs, lim1, hr, hi, hacc⟩ := ih lim2 hinv2
      (fun c hc => hn c (List.mem_cons_of_mem _ hc)) hno2
    refine ⟨b :: bs, lim1, ?_, hi, ?_⟩
    · rw [run_cons lim lim2 now n rest b hall, hr]
      rfl
    · simp only [Limiter.acceptedInWindow, hall]
      rw [← hcnt]
      exact hacc

/-- C19: the limit is never exceeded within a window.  Take a fresh LocalWindow limiter with
`size > 0` and a fixed `limit >= 0`, and a sequence of calls `AllowN(now_i, n_i)` with all
`n_i >= 0`, the times in any order, in which no `int64` operation overflows.  The sequence
does not panic, and in the resulting state `0 <= previous.Count() <= limit` and
`0 <= current.Count() <= limit`; the current count is the sum of the `n_i` accepted since the
current window got its start, so that this sum never exceeds the limit. -/
theorem C19_counts_within_limit {S : Type} [Synchronizer S] (size limit : Int)
    (calls : List (Time × Int)) (hsize : 0 < size) (hlimit : 0 ≤ limit)
    (hn : ∀ c ∈ calls, 0 ≤ c.2)
    (hno : (NewLimiter size limit (.local NewLocalWindow) : Limiter S).runNoOverflow calls =
      true) :
    ∃ (bs : List Bool) (lim1 : Limiter S),
      (NewLimiter size limit (.local NewLocalWindow) : Limiter S).run calls =
        some (bs, lim1) ∧
      0 ≤ lim1.prev.Count ∧ lim1.prev.Count ≤ limit ∧
      0 ≤ lim1.curr.Count ∧ lim1.curr.Count ≤ limit ∧
      (NewLimiter size limit (.local NewLocalWindow) : Limiter S).acceptedInWindow 0 calls =
        some lim1.curr.Count := by
  have h0 : (NewLimiter size limit (.local NewLocalWindow) : Limiter S).countsInv size limit :=
    ⟨rfl, rfl, 0, 0, 0, 0, rfl, rfl, le_refl _, hlimit, le_refl _, hlimit,
      Or.inl ⟨rfl, rfl⟩⟩
  obtain ⟨bs, lim1, hr, hi, hacc⟩ := countsInv_run size limit hsize calls _ h0 hn hno
  obtain ⟨-, -, s, c, ps, pc, hc, hp, i1, i2, i3, i4, -⟩ := hi
  refine ⟨bs, lim1, hr, ?_, ?_, ?_, ?_, hacc⟩
  · rw [hp]; exact i1
  · rw [hp]; exact i2
  · rw [hc]; exact i3
  · rw [hc]; exact i4

/-- Witness of C19: one second and a limit of three; two requests are accepted at `0`, two
more are rejected, and in the next window one more is accepted while the previous window
still weighs half. -/
theorem C19_witness :
    ∃ (bs : List Bool) (lim1 : Limiter BlockingSynchronizer),
      (NewLimiter 1000000000 3 (.local NewLocalWindow) : Limiter BlockingSynchronizer).run
        [(⟨0⟩, 2), (⟨5⟩, 2), (⟨1500000000⟩, 1)] = some (bs, lim1) ∧
      0 ≤ lim1.prev.Count ∧ lim1.prev.Count ≤ 3 ∧
      0 ≤ lim1.curr.Count ∧ lim1.curr.Count ≤ 3 ∧
      (NewLimiter 1000000000 3 (.local NewLocalWindow) :
        Limiter BlockingSynchronizer).acceptedInWindow 0
          [(⟨0⟩, 2), (⟨5⟩, 2), (⟨1500000000⟩, 1)] = some lim1.curr.Count :=
  C19_counts_within_limit 1000000000 3 [(⟨0⟩, 2), (⟨5⟩, 2), (⟨1500000000⟩, 1)]
    (by decide) (by decide) (by decide) (by set_option maxRecDepth 100000 in decide)

end slidingwindow
